import Mathlib

/-!
The libsqrl block container, URL encoding and user key table.

A shallow embedding of `src/block.cpp` (class `SqrlBlock`),
`src/SqrlUrlEncode.cpp` (`SqrlUrlEncode::encode` / `decode`) and
`src/SqrlUser.cpp` (class `SqrlUser`), followed by the properties established
about them.

Conventions of the embedding

* Machine integers are natural numbers; every C conversion to a narrower
  unsigned type is written as an explicit `% 2 ^ w`.  `uint16_t` operands of
  `+`, `-` and comparisons are promoted to `int`, which is taken to be at least
  32 bits wide, so those intermediate results are exact.
* `size_t` arithmetic wraps modulo `2 ^ sizeBits`; the width is a parameter of
  the functions that compute in `size_t`.
* Memory is a list of bytes.  A null `data` pointer is the empty list.
* Where the source runs into undefined behaviour that the properties below
  depend on (a copy that leaves the block, a null dereference, a table read
  outside its bounds) the function returns `none`.
* Whether plain `char` is signed is implementation defined; it is a parameter
  (`charSigned`) of the URL functions.
* A member function becomes a function from the object state (and arguments)
  to the returned value paired with the new object state.
-/

set_option linter.unusedVariables false

/-! ## libc helpers -/

/-- The `memset(dst, c, n)` call on an object `dst`: the first `n` bytes become `c`. -/
def memset (dst : List Nat) (c n : Nat) : List Nat :=
  (List.range dst.length).map fun i => if i < n then c else dst.getD i 0

/-- The `memcpy(dst + doff, src + soff, n)` call for a copy that stays inside
both objects: byte `doff + k` of `dst` receives byte `soff + k` of `src` for
`k < n`.  (Outside that case the list returned keeps the length of `dst` and
reads `0` past the end of `src`; callers rule that case out.) -/
def memcpy (dst : List Nat) (doff : Nat) (src : List Nat) (soff n : Nat) : List Nat :=
  (List.range dst.length).map fun i =>
    if doff ≤ i ∧ i < doff + n then src.getD (soff + (i - doff)) 0 else dst.getD i 0

/-- Conversion of an unsigned value to a 32-bit `int` (two's complement). -/
def toInt32 (n : Nat) : Int :=
  if n % 2 ^ 32 < 2 ^ 31 then (n % 2 ^ 32 : Nat) else ((n % 2 ^ 32 : Nat) : Int) - 2 ^ 32

/-! ## SqrlBlock (`src/block.cpp`) -/

/-- The private fields of `class SqrlBlock` (`src/SqrlBlock.h`). -/
structure SqrlBlock where
  /-- The `uint16_t blockLength` field. -/
  blockLength : Nat
  /-- The `uint16_t blockType` field. -/
  blockType : Nat
  /-- The `uint16_t cur` field, the read/write offset. -/
  cur : Nat
  /-- The bytes `data` points to; `[]` when `data` is `NULL`. -/
  data : List Nat
deriving DecidableEq

namespace SqrlBlock

/-- Representation invariant of a block: the three `uint16_t` fields are in
range, `data` holds exactly `blockLength` bytes, and every byte is below 256. -/
def WF (b : SqrlBlock) : Prop :=
  b.blockLength < 65536 ∧ b.blockType < 65536 ∧ b.cur < 65536 ∧
    b.data.length = b.blockLength ∧ ∀ x ∈ b.data, x < 256

instance (b : SqrlBlock) : Decidable b.WF := by unfold WF; infer_instance

/-- The cursor invariant of the data model: `0 ≤ cursor ≤ length`. -/
def CursorInv (b : SqrlBlock) : Prop := b.cur ≤ b.blockLength

instance (b : SqrlBlock) : Decidable b.CursorInv := by unfold CursorInv; infer_instance

/-- Member function `SqrlBlock::clear` (block.cpp 25-34). -/
def clear (_b : SqrlBlock) : SqrlBlock :=
  { blockLength := 0, blockType := 0, cur := 0, data := [] }

/-- Member function `SqrlBlock::init` (block.cpp 36-47).  `mem` is the result
of `malloc(blockLength)`: `none` for a null pointer, otherwise the
(uninitialised) bytes of the new allocation. -/
def init (b : SqrlBlock) (blockType blockLength : Nat) (mem : Option (List Nat)) :
    Bool × SqrlBlock :=
  let b := b.clear
  match mem with
  | some m => (true, { b with data := m, blockType := blockType, blockLength := blockLength })
  | none => (false, b)

/-- Member function `SqrlBlock::resize` (block.cpp 49-76).  `buf` and `newData`
are the results of the two `malloc(new_size)` calls (`none` for a null pointer,
otherwise the uninitialised bytes of the allocation).  The second result is not checked by
the source; when it is null the following `memcpy` dereferences a null pointer,
which is the `none` result here.  All copies stay in bounds when `data` holds
`blockLength` bytes and the allocations hold `new_size` bytes. -/
def resize (b : SqrlBlock) (new_size : Nat) (buf newData : Option (List Nat)) :
    Option (Bool × SqrlBlock) :=
  if new_size = 0 then some (false, b)
  else if new_size = b.blockLength then some (true, b)
  else
    match buf with
    | none => some (false, b)
    | some buf =>
      let buf :=
        if new_size < b.blockLength then memcpy buf 0 b.data 0 new_size
        else memcpy (memset buf 0 new_size) 0 b.data 0 b.blockLength
      match newData with
      | none => none
      | some d =>
        let blockLength := new_size % 65536
        let cur :=
          if b.cur ≥ blockLength then Int.toNat (((blockLength : Int) - 1) % 65536) else b.cur
        some (false, { b with data := memcpy d 0 buf 0 new_size,
                              blockLength := blockLength, cur := cur })

/-- Member function `SqrlBlock::seek` (block.cpp 78-87).  `dest += this->cur` is
a `uint16_t` compound assignment, hence reduced modulo `2 ^ 16`. -/
def seek (b : SqrlBlock) (dest : Nat) (offset : Bool) : Nat × SqrlBlock :=
  let dest := if offset then (dest + b.cur) % 65536 else dest
  let b := if dest < b.blockLength then { b with cur := dest } else b
  (b.cur, b)

/-- Member function `SqrlBlock::seekBack` (block.cpp 89-100).  The differences
are computed in `int` and stored back into the `uint16_t dest`, hence reduced
modulo `2 ^ 16`. -/
def seekBack (b : SqrlBlock) (dest : Nat) (offset : Bool) : Nat × SqrlBlock :=
  let dest :=
    if offset then Int.toNat (((b.cur : Int) - (dest : Int)) % 65536)
    else Int.toNat (((b.blockLength : Int) - (dest : Int)) % 65536)
  let b := if dest > 0 then { b with cur := dest } else b
  (b.cur, b)

/-- Member function `SqrlBlock::write` (block.cpp 102-108).  `src` is the memory
the argument pointer refers to and `data_len` the `size_t` count; the guard is
evaluated in
`size_t`, i.e. modulo `2 ^ sizeBits`.  Once the guard is passed, `memcpy` copies
`data_len` bytes to `data + cur`; the result is `none` (undefined behaviour)
when that range leaves the block or `src` holds fewer than `data_len` bytes. -/
def write (sizeBits : Nat) (b : SqrlBlock) (src : List Nat) (data_len : Nat) :
    Option (Int × SqrlBlock) :=
  if (b.cur + data_len) % 2 ^ sizeBits > b.blockLength then some (-1, b)
  else if b.cur + data_len ≤ b.data.length ∧ data_len ≤ src.length then
    some (toInt32 data_len,
      { b with data := memcpy b.data b.cur src 0 data_len,
               cur := (b.cur + data_len % 65536) % 65536 })
  else none

/-- Member function `SqrlBlock::read` (block.cpp 110-116).  The guard is
evaluated in `size_t`, i.e. modulo `2 ^ sizeBits`.  Once the guard is passed, `memcpy` copies
`data_len` bytes from `data + cur` to the caller's buffer, whose new content is
the third component; the result is `none` (undefined behaviour) when that range
leaves the block. -/
def read (sizeBits : Nat) (b : SqrlBlock) (data_len : Nat) :
    Option (Int × SqrlBlock × List Nat) :=
  if (b.cur + data_len) % 2 ^ sizeBits > b.blockLength then some (-1, b, [])
  else if b.cur + data_len ≤ b.data.length then
    some (toInt32 data_len,
      { b with cur := (b.cur + data_len % 65536) % 65536 },
      (b.data.drop b.cur).take data_len)
  else none

/-- Member function `SqrlBlock::readInt16` (block.cpp 118-125). -/
def readInt16 (b : SqrlBlock) : Nat × SqrlBlock :=
  if b.cur + 2 > b.blockLength then (0, b)
  else
    let b0 := b.data.getD b.cur 0
    let b1 := b.data.getD (b.cur + 1) 0
    ((b0 ||| (b1 <<< 8)) % 65536, { b with cur := (b.cur + 2) % 65536 })

/-- Member function `SqrlBlock::writeInt16` (block.cpp 127-133). -/
def writeInt16 (b : SqrlBlock) (value : Nat) : Bool × SqrlBlock :=
  if b.cur + 2 > b.blockLength then (false, b)
  else
    let b := { b with data := b.data.set b.cur ((value &&& 0xff) % 256),
                      cur := (b.cur + 1) % 65536 }
    let b := { b with data := b.data.set b.cur ((value >>> 8) % 256),
                      cur := (b.cur + 1) % 65536 }
    (true, b)

/-- Member function `SqrlBlock::readInt32` (block.cpp 135-143). -/
def readInt32 (b : SqrlBlock) : Nat × SqrlBlock :=
  if b.cur + 4 > b.blockLength then (0, b)
  else
    let r := b.data.getD b.cur 0
    let b := { b with cur := (b.cur + 1) % 65536 }
    let r := r ||| ((b.data.getD b.cur 0 <<< 8) % 2 ^ 32)
    let b := { b with cur := (b.cur + 1) % 65536 }
    let r := r ||| ((b.data.getD b.cur 0 <<< 16) % 2 ^ 32)
    let b := { b with cur := (b.cur + 1) % 65536 }
    let r := r ||| ((b.data.getD b.cur 0 <<< 24) % 2 ^ 32)
    let b := { b with cur := (b.cur + 1) % 65536 }
    (r, b)

/-- Member function `SqrlBlock::writeInt32` (block.cpp 145-153). -/
def writeInt32 (b : SqrlBlock) (value : Nat) : Bool × SqrlBlock :=
  if b.cur + 4 > b.blockLength then (false, b)
  else
    let b := { b with data := b.data.set b.cur (value % 256),
                      cur := (b.cur + 1) % 65536 }
    let b := { b with data := b.data.set b.cur ((value >>> 8) % 256),
                      cur := (b.cur + 1) % 65536 }
    let b := { b with data := b.data.set b.cur ((value >>> 16) % 256),
                      cur := (b.cur + 1) % 65536 }
    let b := { b with data := b.data.set b.cur ((value >>> 24) % 256),
                      cur := (b.cur + 1) % 65536 }
    (true, b)

/-- Member function `SqrlBlock::readInt8` (block.cpp 155-159). -/
def readInt8 (b : SqrlBlock) : Nat × SqrlBlock :=
  if b.cur + 1 > b.blockLength then (0, b)
  else (b.data.getD b.cur 0, { b with cur := (b.cur + 1) % 65536 })

/-- Member function `SqrlBlock::writeInt8` (block.cpp 161-166). -/
def writeInt8 (b : SqrlBlock) (value : Nat) : Bool × SqrlBlock :=
  if b.cur + 1 > b.blockLength then (false, b)
  else (true, { b with data := b.data.set b.cur value, cur := (b.cur + 1) % 65536 })

/-- Member function `SqrlBlock::getBlockLength` (block.cpp 192-195). -/
def getBlockLength (b : SqrlBlock) : Nat := b.blockLength

/-- Member function `SqrlBlock::getBlockType` (block.cpp 197-200). -/
def getBlockType (b : SqrlBlock) : Nat := b.blockType

end SqrlBlock

/-! ## SqrlUrlEncode (`src/SqrlUrlEncode.cpp`) -/

namespace SqrlUrlEncode

/-- The table `static const char hex[] = "0123456789ABCDEF"` of `encode`. -/
def hex : List Nat := [48, 49, 50, 51, 52, 53, 54, 55, 56, 57, 65, 66, 67, 68, 69, 70]

/-- Value of a plain `char` object holding the byte `c`, after promotion to
`int`: negative for bytes from `0x80` up when `char` is signed. -/
def charVal (charSigned : Bool) (c : Nat) : Int :=
  if charSigned = true ∧ 128 ≤ c then (c : Int) - 256 else (c : Int)

/-- The byte stored in a `char` object by converting the `int` value `v`. -/
def toChar (v : Int) : Nat := Int.toNat (v % 256)

/-- The element `hex[i]`; `none` when the index is outside the table
(an out-of-bounds read). -/
def hexAt (i : Int) : Option Nat :=
  if 0 ≤ i then hex.get? i.toNat else none

/-- The value of `strlen(p)`: the number of bytes before the first NUL.  The end
of the list stands for the terminating NUL of the C string. -/
def strlen (p : List Nat) : Nat := (p.takeWhile fun c => c ≠ 0).length

/-- The string `dest` as it stands before the loops of `encode` and `decode`: a
new empty string when `dest` is null, the old content when appending, empty
otherwise. -/
def startDest (dest : Option (List Nat)) (append : Bool) : List Nat :=
  match dest with
  | none => []
  | some d => if append then d else []

/-- The `for( p = (char*)src; p[0] != 0; p++ )` loop of `encode`
(SqrlUrlEncode.cpp 23-49): the bytes appended to `dest`, or `none` when the
table `hex` is read outside its bounds.  `p[0] >> 4` is an arithmetic shift of
the promoted `char`; `p[0] & 0x0F` only depends on the low four bits of the
stored byte. -/
def encodeLoop (charSigned : Bool) : List Nat → Option (List Nat)
  | [] => some []
  | c :: p =>
    let v := charVal charSigned c
    if v = 0 then some []
    else if v = 32 then (encodeLoop charSigned p).map fun out => 43 :: out
    else if (48 ≤ v ∧ v ≤ 57) ∨ (65 ≤ v ∧ v ≤ 90) ∨ (97 ≤ v ∧ v ≤ 122) then
      (encodeLoop charSigned p).map fun out => c :: out
    else
      match hexAt (v >>> 4), hexAt ((c &&& 0x0F : Nat) : Int) with
      | some h1, some h2 => (encodeLoop charSigned p).map fun out => 37 :: h1 :: h2 :: out
      | _, _ => none

/-- Member function `SqrlUrlEncode::encode` (SqrlUrlEncode.cpp 12-51).  `src` is
the memory the argument pointer refers to.  The parameter `src_len` is not used
by the source: the loop runs to the first NUL byte. -/
def encode (charSigned : Bool) (dest : Option (List Nat)) (src : List Nat) (src_len : Nat)
    (append : Bool) : Option (List Nat) :=
  (encodeLoop charSigned src).map fun out => startDest dest append ++ out

/-- One pass `i` of the inner `for( i = 1; i <= 2; i++ )` loop of `decode`
(SqrlUrlEncode.cpp 72-88) on the character `dc = p[i]`, returning the new value
of `tmp`.  `tmp` is kept as the stored byte; shifting and or-ing commute with
the truncation to `char`, so they are done on stored bytes. -/
def hexStep (charSigned : Bool) (i : Nat) (tmp dc : Nat) : Nat :=
  let v := charVal charSigned dc
  let dc : Int :=
    if 48 ≤ v ∧ v ≤ 57 then v - 48
    else if 97 ≤ v ∧ v ≤ 102 then v - 87
    else if 65 ≤ v ∧ v ≤ 70 then v - 55
    else charVal charSigned 255
  if dc < 16 then
    if i = 1 then (toChar dc <<< 4) % 256
    else tmp ||| toChar dc
  else tmp

/-- The `for( p = src; p[0] != 0; p++ )` loop of `decode`
(SqrlUrlEncode.cpp 63-103): the bytes appended to `dest`, given the current
value of `tmp`.  The tests of `p[0]` against NUL, `'+'` and `'%'` are decided by
the stored byte.  When fewer than two characters follow `p[0]`,
`strlen( p ) > 2` is false and the last branch of the source is taken. -/
def decodeLoop (charSigned : Bool) : Nat → List Nat → List Nat
  | _, [] => []
  | tmp, [c] =>
    if c = 0 then []
    else if c = 43 then 32 :: decodeLoop charSigned tmp []
    else c :: decodeLoop charSigned tmp []
  | tmp, [c, h1] =>
    if c = 0 then []
    else if c = 43 then 32 :: decodeLoop charSigned tmp [h1]
    else c :: decodeLoop charSigned tmp [h1]
  | tmp, c :: h1 :: h2 :: rest =>
    if c = 0 then []
    else if c = 43 then 32 :: decodeLoop charSigned tmp (h1 :: h2 :: rest)
    else if c = 37 ∧ strlen (c :: h1 :: h2 :: rest) > 2 then
      let tmp := hexStep charSigned 2 (hexStep charSigned 1 tmp h1) h2
      tmp :: decodeLoop charSigned tmp rest
    else c :: decodeLoop charSigned tmp (h1 :: h2 :: rest)

/-- Member function `SqrlUrlEncode::decode` (SqrlUrlEncode.cpp 53-105).  `tmp`
starts at `0`.  The parameter `src_len` is not used by the source. -/
def decode (charSigned : Bool) (dest : Option (List Nat)) (src : List Nat) (src_len : Nat)
    (append : Bool) : List Nat :=
  startDest dest append ++ decodeLoop charSigned 0 src

/-- The composition `decode(encode(s))` on a byte sequence `s` with
`src_len = |s|` on both calls and fresh destination strings; `none` when
`encode` reads outside its table. -/
def decodeEncode (charSigned : Bool) (s : List Nat) : Option (List Nat) :=
  (encode charSigned none s s.length false).map fun e => decode charSigned none e e.length false

/-! ### Reference encoder, in the words of the specification -/

/-- An ASCII letter or digit. -/
def isAlnumRef (c : Nat) : Bool :=
  (48 ≤ c && c ≤ 57) || (65 ≤ c && c ≤ 90) || (97 ≤ c && c ≤ 122)

/-- The uppercase hexadecimal digit of a value below 16. -/
def hexDigitRef (n : Nat) : Nat := if n < 10 then 48 + n else 55 + n

/-- Reference encoding of one byte: the byte itself if it is an ASCII letter or
digit, `+` if it is a space, otherwise `%` followed by the two uppercase
hexadecimal digits of the byte value. -/
def encodeByteRef (c : Nat) : List Nat :=
  if isAlnumRef c then [c]
  else if c = 32 then [43]
  else [37, hexDigitRef (c / 16), hexDigitRef (c % 16)]

/-- Reference definition of `encode(src, src_len)`: the concatenation of the
encodings of the first `src_len` bytes of `src`, in order. -/
def encodeRef (src : List Nat) (src_len : Nat) : List Nat :=
  (src.take src_len).flatMap encodeByteRef

/-! ### Reference decoder and encoded alphabet, in the words of the specification -/

/-- A hexadecimal digit: `0-9`, `a-f` or `A-F`. -/
def isHexRef (c : Nat) : Bool :=
  (48 ≤ c && c ≤ 57) || (97 ≤ c && c ≤ 102) || (65 ≤ c && c ≤ 70)

/-- The value of a hexadecimal digit, in either case. -/
def hexValRef (c : Nat) : Nat :=
  if 48 ≤ c ∧ c ≤ 57 then c - 48 else if 97 ≤ c ∧ c ≤ 102 then c - 87 else c - 55

/-- Reference decoding, scanning left to right: `%h1h2` gives the single byte
`16 * val(h1) + val(h2)`, `+` gives a space, every other character gives
itself. -/
def decodeRef : List Nat → List Nat
  | [] => []
  | [c] => [if c = 43 then 32 else c]
  | [c, d] => (if c = 43 then 32 else c) :: decodeRef [d]
  | c :: h1 :: h2 :: rest =>
    if c = 37 then (16 * hexValRef h1 + hexValRef h2) :: decodeRef rest
    else (if c = 43 then 32 else c) :: decodeRef (h1 :: h2 :: rest)

/-- Well-formed text: no byte is NUL and every `%` is followed by two
hexadecimal digits. -/
def WellFormedText (s : List Nat) : Prop :=
  (∀ c ∈ s, c ≠ 0) ∧
  ∀ i < s.length, s[i]? = some 37 →
    isHexRef (s.getD (i + 1) 0) = true ∧ isHexRef (s.getD (i + 2) 0) = true

instance (s : List Nat) : Decidable (WellFormedText s) := by
  unfold WellFormedText; infer_instance

/-- An uppercase hexadecimal digit `0-9` or `A-F`. -/
def isUpperHexRef (c : Nat) : Bool := (48 ≤ c && c ≤ 57) || (65 ≤ c && c ≤ 70)

/-- A piece of encoded text: one ASCII letter or digit, the character `+`, or a
triple `%HH` with two uppercase hexadecimal digits. -/
def IsEncodedToken (t : List Nat) : Prop :=
  (∃ x, t = [x] ∧ isAlnumRef x = true) ∨ t = [43] ∨
    ∃ a b, t = [37, a, b] ∧ isUpperHexRef a = true ∧ isUpperHexRef b = true

end SqrlUrlEncode

/-! ## SqrlUser (`src/SqrlUser.cpp`) -/

/-- Modelled from the spec: `struct Sqrl_Keys` is declared in `SqrlUser.h`, which
is not among the sources.  Following the data model of the specification (a
contiguous protected allocation holding the key slots, the password and a
scratch region) and the member accesses of `SqrlUser.cpp`, it consists of the
slot array `keys[USER_MAX_KEYS][SQRL_KEY_SIZE]`, `password_len`, `password` and,
last, `scratch[KEY_SCRATCH_SIZE]`. -/
structure Sqrl_Keys where
  /-- The member `keys`: one 32-byte array per slot. -/
  keys : List (List Nat)
  /-- The member `password_len`. -/
  password_len : Nat
  /-- The member `password`. -/
  password : List Nat
  /-- The member `scratch`. -/
  scratch : List Nat
deriving DecidableEq

/-- The options record `Sqrl_User_Options` (fields used by `SqrlUser.cpp`). -/
structure Sqrl_User_Options where
  /-- The member `flags` (`uint16_t`). -/
  flags : Nat
  /-- The member `hintLength`. -/
  hintLength : Nat
  /-- The member `enscryptSeconds`. -/
  enscryptSeconds : Nat
  /-- The member `timeoutMinutes`. -/
  timeoutMinutes : Nat
deriving DecidableEq

/-- The members of `class SqrlUser` used by `SqrlUser.cpp`.  `addr` is the
address of the object (`this`). -/
structure SqrlUser where
  /-- The address of the object, compared with `action->getUser()`. -/
  addr : Nat
  /-- The array `lookup[USER_MAX_KEYS]`: the identifier held by each slot, 0 for
  a free slot. -/
  lookup : List Nat
  /-- The pointer `keys`: `none` when it is null. -/
  keys : Option Sqrl_Keys
  /-- The member `hint_iterations`. -/
  hint_iterations : Nat
  /-- The transient flag word `flags`. -/
  flags : Nat
  /-- The member `options`. -/
  options : Sqrl_User_Options
  /-- The member `referenceCount`. -/
  referenceCount : Int
  /-- The buffer `uniqueId`. -/
  uniqueId : List Nat
deriving DecidableEq

/-- An action, as far as `SqrlUser.cpp` looks at it: `getUser()` returns the
address of the user it is bound to. -/
structure SqrlAction where
  /-- The value of `getUser()`. -/
  user : Nat
deriving DecidableEq

/-- The constants of `SqrlUser.h` that `SqrlUser.cpp` uses; the header is not
among the sources, so they are parameters. -/
structure Config where
  /-- Number of key slots. -/
  USER_MAX_KEYS : Nat
  /-- Size of the scratch region. -/
  KEY_SCRATCH_SIZE : Nat
  /-- Size of the password buffer. -/
  KEY_PASSWORD_MAX_LEN : Nat
  /-- Identifier of the identity unlock key. -/
  KEY_IUK : Nat
  /-- Identifier of the master key. -/
  KEY_MK : Nat
  /-- Identifier of the identity lock key. -/
  KEY_ILK : Nat
  /-- Identifier of the local key. -/
  KEY_LOCAL : Nat
  /-- Identifier of the rescue code. -/
  KEY_RESCUE_CODE : Nat
  /-- Identifier of the previous identity unlock key 0. -/
  KEY_PIUK0 : Nat
  /-- Identifier of the previous identity unlock key 1. -/
  KEY_PIUK1 : Nat
  /-- Identifier of the previous identity unlock key 2. -/
  KEY_PIUK2 : Nat
  /-- Identifier of the previous identity unlock key 3. -/
  KEY_PIUK3 : Nat
  /-- Transient flag: key memory is locked. -/
  USER_FLAG_MEMLOCKED : Nat
  /-- Transient flag: type-1 data changed. -/
  USER_FLAG_T1_CHANGED : Nat
  /-- Transient flag: type-2 data changed. -/
  USER_FLAG_T2_CHANGED : Nat
  /-- Default option flags. -/
  SQRL_DEFAULT_FLAGS : Nat
  /-- Default hint length. -/
  SQRL_DEFAULT_HINT_LENGTH : Nat
  /-- Default key-derivation time. -/
  SQRL_DEFAULT_ENSCRYPT_SECONDS : Nat
  /-- Default idle timeout. -/
  SQRL_DEFAULT_TIMEOUT_MINUTES : Nat

/-- The collaborators of `SqrlUser.cpp` whose code is not among the sources.
Each is an arbitrary function or value. -/
structure Externals where
  /-- Effect on the user of the `n`-th call of `tryLoadRescue(action, true)`
  made by one run of `key`. -/
  tryLoadRescue : Nat → SqrlUser → SqrlUser
  /-- Effect on the user of the `n`-th call of `tryLoadPassword(action, true)`
  made by one run of `key`. -/
  tryLoadPassword : Nat → SqrlUser → SqrlUser
  /-- Outcome of `SqrlCrypt::genKey(action, hint, length)`. -/
  genKey : SqrlUser → List Nat → Nat → Bool
  /-- Outcome of `SqrlCrypt::doCrypt()` in `hintUnlock`, and the content it
  leaves in the plain-text region (slots, password length, password). -/
  doCrypt : SqrlUser → Bool × List (List Nat) × Nat × List Nat
  /-- The 32 bytes `SqrlCrypt::generateMasterKey` derives from a key. -/
  generateMasterKey : List Nat → List Nat
  /-- The 32 bytes `SqrlCrypt::generateIdentityLockKey` derives from a key. -/
  generateIdentityLockKey : List Nat → List Nat
  /-- The 32 bytes `SqrlCrypt::generateLocalKey` derives from a key. -/
  generateLocalKey : List Nat → List Nat
  /-- The 32 bytes written by `SqrlEntropy::bytes`. -/
  entropyBytes : List Nat
  /-- The content of the 512-byte buffer after `SqrlEntropy::get`. -/
  entropyGet : List Nat
  /-- Whether `malloc( 512 )` in `_keyGen` succeeds. -/
  malloc512 : Bool

namespace SqrlUser

/-- Modelled from the spec: the constant `SQRL_KEY_SIZE`, 32 in the
specification; its definition is not among the sources. -/
def SQRL_KEY_SIZE : Nat := 32

/-- Modelled from the spec: the constant `SQRL_RESCUE_CODE_LENGTH`, 24 in the
specification (and in the `strlen( rc ) != 24` test of `setRescueCode`); its
definition is not among the sources. -/
def SQRL_RESCUE_CODE_LENGTH : Nat := 24

/-- A key slot after `sodium_memzero( key, SQRL_KEY_SIZE )`. -/
def zeroKey : List Nat := List.replicate SQRL_KEY_SIZE 0

/-- The macro `FLAG_SET(f,v)`: `f |= v`. -/
def FLAG_SET (f v : Nat) : Nat := f ||| v

/-- The macro `FLAG_CLEAR(f,v)`: `f &= ~(v)` on a 16-bit flag word. -/
def FLAG_CLEAR (f v : Nat) : Nat := f &&& (v ^^^ 65535)

/-- The macro `FLAG_CHECK(f,v)`: `v == (f & v)`. -/
def FLAG_CHECK (f v : Nat) : Bool := v == (f &&& v)

/-- Member function `SqrlUser::ensureKeysAllocated` (SqrlUser.cpp 57-64); the
allocation is taken to succeed. -/
def ensureKeysAllocated (cfg : Config) (u : SqrlUser) : SqrlUser :=
  match u.keys with
  | some _ => u
  | none =>
    { u with
      keys := some
        { keys := List.replicate cfg.USER_MAX_KEYS zeroKey
          password_len := 0
          password := List.replicate cfg.KEY_PASSWORD_MAX_LEN 0
          scratch := List.replicate cfg.KEY_SCRATCH_SIZE 0 }
      flags := FLAG_CLEAR u.flags cfg.USER_FLAG_MEMLOCKED }

/-- The loop `for( i = 0; i < USER_MAX_KEYS; i++ ) if( lookup[i] == v ) r = i;`
without `break`, run over the entries from index `i` on: the last index holding
`v`, or the initial value `r` when there is none. -/
def scanLast (v : Nat) : List Nat → Nat → Int → Int
  | [], _, r => r
  | x :: xs, i, r => scanLast v xs (i + 1) (if x = v then (i : Int) else r)

/-- The loop `for( i = 0; i < USER_MAX_KEYS; i++ ) if( lookup[i] == v )
{ offset = i; break; }` with `offset` starting at -1, run over the entries from
index `i` on: the first index holding `v`, or -1. -/
def scanFirst (v : Nat) : List Nat → Nat → Int
  | [], _ => -1
  | x :: xs, i => if x = v then (i : Int) else scanFirst v xs (i + 1)

/-- Member function `SqrlUser::hasKey` (SqrlUser.cpp 483-492). -/
def hasKey (u : SqrlUser) (key_type : Nat) : Bool :=
  u.lookup.any fun x => x == key_type

/-- Member function `SqrlUser::newKey` (SqrlUser.cpp 404-431).  The single loop
of the source updates `offset` and `empty` independently.  The result is the
returned pointer (`none` for `NULL`, `some i` for `keys->keys[i]`) and the new
state; the whole result is `none` when `keys->keys[offset]` is zeroed with
`keys` null or `offset` outside the slot array (`offset` is -1 when the table is
full of other identifiers). -/
def newKey (u : SqrlUser) (key_type : Nat) : Option (Option Nat × SqrlUser) :=
  let offset := scanLast key_type u.lookup 0 (-1)
  let empty := scanLast 0 u.lookup 0 (-1)
  let lookup := if offset = -1 ∧ empty > -1 then u.lookup.set empty.toNat key_type else u.lookup
  let offset := if offset = -1 ∧ empty > -1 then empty else offset
  if offset ≠ 0 then
    match u.keys with
    | none => none
    | some k =>
      if 0 ≤ offset ∧ offset.toNat < k.keys.length then
        some (some offset.toNat,
          { u with lookup := lookup
                   keys := some { k with keys := k.keys.set offset.toNat zeroKey } })
      else none
  else some (none, { u with lookup := lookup })

/-- The part of `SqrlUser::key` from the label `LOOP` on (SqrlUser.cpp 442-480).
The first argument is `3 - loop`, the number of passes left before
`loop == 3`; the last argument and last component count the calls of the load
flows.  The pointer returned is `none` for `NULL` and `some i` for
`keys->keys[i]`. -/
def keyLoop (ext : Externals) (cfg : Config) (key_type : Nat) :
    Nat → SqrlUser → Nat → Option Nat × SqrlUser × Nat
  | 0, u, n => (none, u, n)
  | left + 1, u, n =>
    let offset := scanFirst key_type u.lookup 0
    if offset > -1 then (some offset.toNat, u, n)
    else if key_type = cfg.KEY_RESCUE_CODE then (none, u, n)
    else if key_type = cfg.KEY_IUK then
      keyLoop ext cfg key_type left (ext.tryLoadRescue n u) (n + 1)
    else if key_type = cfg.KEY_MK ∨ key_type = cfg.KEY_ILK ∨ key_type = cfg.KEY_PIUK0 ∨
        key_type = cfg.KEY_PIUK1 ∨ key_type = cfg.KEY_PIUK2 ∨ key_type = cfg.KEY_PIUK3 then
      keyLoop ext cfg key_type left (ext.tryLoadPassword n u) (n + 1)
    else (none, u, n)

/-- Member function `SqrlUser::key` (SqrlUser.cpp 433-481): the pointer
returned, the new state, and the number of load-flow calls made. -/
def key (ext : Externals) (cfg : Config) (u : SqrlUser) (action : Option SqrlAction)
    (key_type : Nat) : Option Nat × SqrlUser × Nat :=
  match action with
  | none => (none, u, 0)
  | some a =>
    if a.user ≠ u.addr then (none, u, 0)
    else keyLoop ext cfg key_type 3 u 0

/-- Member function `SqrlUser::removeKey` (SqrlUser.cpp 494-507); `none` when
the slot is zeroed with `keys` null. -/
def removeKey (u : SqrlUser) (key_type : Nat) : Option SqrlUser :=
  let offset := scanLast key_type u.lookup 0 (-1)
  if offset > -1 then
    match u.keys with
    | none => none
    | some k =>
      if offset.toNat < k.keys.length then
        some { u with keys := some { k with keys := k.keys.set offset.toNat zeroKey }
                      lookup := u.lookup.set offset.toNat 0 }
      else none
  else some u

/-- The 32 bytes at a slot pointer; `none` for a null pointer, a null `keys` or
an index outside the slot array. -/
def slotAt (u : SqrlUser) (p : Option Nat) : Option (List Nat) :=
  match p, u.keys with
  | some i, some k => k.keys.get? i
  | _, _ => none

/-- The state after the content of the slot at `p` is replaced by `bytes`;
`none` for a null pointer, a null `keys` or an index outside the slot array. -/
def setSlot (u : SqrlUser) (p : Option Nat) (bytes : List Nat) : Option SqrlUser :=
  match p, u.keys with
  | some i, some k =>
    if i < k.keys.length then some { u with keys := some { k with keys := k.keys.set i bytes } }
    else none
  | _, _ => none

/-- The call `memcpy( dst, src, SQRL_KEY_SIZE )` between two slot pointers. -/
def copySlot (u : SqrlUser) (dst src : Option Nat) : Option SqrlUser :=
  (slotAt u src).bind fun bytes => setSlot u dst bytes

/-- The 64-bit word `tmp[k]` of `bin2rc`: eight bytes of `bin`, least
significant first. -/
def word64 (bin : List Nat) (k : Nat) : Nat :=
  (List.range 8).foldr (fun j acc => bin.getD (8 * k + j) 0 % 256 + 256 * acc) 0

/-- One pass of the inner loop `for( k = 0; k < 8; k++ )` of `bin2rc` on the
eight words: the eight characters written, and the words divided by 10. -/
def bin2rcRound (tmp : List Nat) : List Nat × List Nat :=
  (tmp.map fun w => 48 + w % 10, tmp.map fun w => w / 10)

/-- The function `bin2rc` (SqrlUser.cpp 275-286): the 25 bytes stored in `buf`:
three rounds of eight digits, then NUL. -/
def bin2rc (bin : List Nat) : List Nat :=
  let tmp := (List.range 8).map fun k => word64 bin k
  let r0 := bin2rcRound tmp
  let r1 := bin2rcRound r0.2
  let r2 := bin2rcRound r1.2
  r0.1 ++ r1.1 ++ r2.1 ++ [0]

/-- The pointer `temp[i]` of the `KEY_IUK` case of `_keyGen`:
`hasKey( k ) ? key( action, k ) : newKey( k )`. -/
def obtainKey (ext : Externals) (cfg : Config) (u : SqrlUser) (action : Option SqrlAction)
    (k : Nat) : Option (Option Nat × SqrlUser) :=
  if u.hasKey k then
    some ((key ext cfg u action k).1, (key ext cfg u action k).2.1)
  else newKey u k

/-- Member function `SqrlUser::_keyGen` (SqrlUser.cpp 288-352).  `key` is the
pointer argument (a slot pointer or null); `none` when a null or out-of-range
pointer is written or read. -/
def _keyGen (ext : Externals) (cfg : Config) (u : SqrlUser) (action : Option SqrlAction)
    (key_type : Nat) (key : Option Nat) : Option (Bool × SqrlUser) :=
  match action with
  | none => some (false, u)
  | some a =>
    if a.user ≠ u.addr then some (false, u)
    else if key_type = cfg.KEY_IUK then
      (obtainKey ext cfg u action cfg.KEY_PIUK0).bind fun r0 =>
      (obtainKey ext cfg r0.2 action cfg.KEY_PIUK1).bind fun r1 =>
      (obtainKey ext cfg r1.2 action cfg.KEY_PIUK2).bind fun r2 =>
      (obtainKey ext cfg r2.2 action cfg.KEY_PIUK3).bind fun r3 =>
      (copySlot r3.2 r3.1 r2.1).bind fun u =>
      (copySlot u r2.1 r1.1).bind fun u =>
      (copySlot u r1.1 r0.1).bind fun u =>
      (copySlot u r0.1 key).bind fun u =>
      (setSlot u key ext.entropyBytes).bind fun u =>
      some (true, u)
    else if key_type = cfg.KEY_MK then
      if u.hasKey cfg.KEY_IUK then
        let r := SqrlUser.key ext cfg u action cfg.KEY_IUK
        match r.1 with
        | some t =>
          (slotAt r.2.1 (some t)).bind fun iuk =>
          (setSlot r.2.1 key (ext.generateMasterKey iuk)).bind fun u => some (true, u)
        | none => some (false, r.2.1)
      else some (false, u)
    else if key_type = cfg.KEY_ILK then
      let r := SqrlUser.key ext cfg u action cfg.KEY_IUK
      match r.1 with
      | some t =>
        (slotAt r.2.1 (some t)).bind fun iuk =>
        (setSlot r.2.1 key (ext.generateIdentityLockKey iuk)).bind fun u => some (true, u)
      | none => some (false, r.2.1)
    else if key_type = cfg.KEY_LOCAL then
      let r := SqrlUser.key ext cfg u action cfg.KEY_MK
      match r.1 with
      | some t =>
        (slotAt r.2.1 (some t)).bind fun mk =>
        (setSlot r.2.1 key (ext.generateLocalKey mk)).bind fun u => some (true, u)
      | none => some (false, r.2.1)
    else if key_type = cfg.KEY_RESCUE_CODE then
      if ext.malloc512 then
        (setSlot u key zeroKey).bind fun u =>
        (setSlot u key (memcpy zeroKey 0 (bin2rc ext.entropyGet) 0 25)).bind fun u =>
        some (true, u)
      else some (false, u)
    else some (false, u)

/-- One round of the loop of `regenKeys`: `key = newKey( k ); _keyGen( action,
k, key );` (the value returned by `_keyGen` is not looked at). -/
def regenKey (ext : Externals) (cfg : Config) (u : SqrlUser) (action : Option SqrlAction)
    (k : Nat) : Option SqrlUser :=
  (newKey u k).bind fun r =>
  (_keyGen ext cfg r.2 action k r.1).bind fun g => some g.2

/-- Member function `SqrlUser::regenKeys` (SqrlUser.cpp 354-368). -/
def regenKeys (ext : Externals) (cfg : Config) (u : SqrlUser) (action : Option SqrlAction) :
    Option (Bool × SqrlUser) :=
  match action with
  | none => some (false, u)
  | some a =>
    if a.user ≠ u.addr then some (false, u)
    else
      (regenKey ext cfg u action cfg.KEY_MK).bind fun u =>
      (regenKey ext cfg u action cfg.KEY_ILK).bind fun u =>
      (regenKey ext cfg u action cfg.KEY_LOCAL).bind fun u =>
      some (true, u)

/-- Member function `SqrlUser::rekey` (SqrlUser.cpp 370-402). -/
def rekey (ext : Externals) (cfg : Config) (u : SqrlUser) (action : Option SqrlAction) :
    Option (Bool × SqrlUser) :=
  match action with
  | none => some (false, u)
  | some a =>
    if a.user ≠ u.addr then some (false, u)
    else
      let u := ensureKeysAllocated cfg u
      (if u.hasKey cfg.KEY_IUK then
          some ((SqrlUser.key ext cfg u action cfg.KEY_IUK).1,
            (SqrlUser.key ext cfg u action cfg.KEY_IUK).2.1)
        else newKey u cfg.KEY_IUK).bind fun r =>
      (_keyGen ext cfg r.2 action cfg.KEY_IUK r.1).bind fun g =>
      if !g.1 then some (false, g.2)
      else
        (newKey g.2 cfg.KEY_RESCUE_CODE).bind fun r =>
        (_keyGen ext cfg r.2 action cfg.KEY_RESCUE_CODE r.1).bind fun g =>
        if !g.1 then some (false, g.2)
        else
          (regenKeys ext cfg g.2 action).bind fun g =>
          if !g.1 then some (false, g.2)
          else
            some (true, { g.2 with
              flags := g.2.flags ||| (cfg.USER_FLAG_T1_CHANGED ||| cfg.USER_FLAG_T2_CHANGED) })

/-- Member function `SqrlUser::getRescueCode` (SqrlUser.cpp 509-518): the
pointer returned (`none` for `NULL`) and the new state. -/
def getRescueCode (ext : Externals) (cfg : Config) (u : SqrlUser) (action : Option SqrlAction) :
    Option Nat × SqrlUser :=
  match action with
  | none => (none, u)
  | some a =>
    if a.user ≠ u.addr ∨ !u.hasKey cfg.KEY_RESCUE_CODE then (none, u)
    else
      ((key ext cfg u action cfg.KEY_RESCUE_CODE).1,
        (key ext cfg u action cfg.KEY_RESCUE_CODE).2.1)

/-- Member function `SqrlUser::setRescueCode` (SqrlUser.cpp 520-532) on the
memory `rc` (read up to its first NUL, or its end).  The comparisons
`rc[i] < '0' || rc[i] > '9'` reject every byte outside `'0'..'9'` whatever the
signedness of `char`.  The result is `none` when `newKey` has no result or when
`memcpy` writes through the null pointer it returned. -/
def setRescueCode (cfg : Config) (u : SqrlUser) (rc : List Nat) : Option (Bool × SqrlUser) :=
  if SqrlUrlEncode.strlen rc ≠ 24 then some (false, u)
  else if (rc.take SQRL_RESCUE_CODE_LENGTH).any (fun c => c < 48 || c > 57) then some (false, u)
  else
    (newKey u cfg.KEY_RESCUE_CODE).bind fun r =>
    (slotAt r.2 r.1).bind fun old =>
    (setSlot r.2 r.1 (memcpy old 0 rc 0 SQRL_RESCUE_CODE_LENGTH)).bind fun u => some (true, u)


/-- Member function `SqrlUser::isHintLocked` (SqrlUser.cpp 228-232). -/
def isHintLocked (u : SqrlUser) : Bool :=
  if u.hint_iterations = 0 then false else true

/-- The call `sodium_memzero( crypt.plain_text, crypt.text_len )` of
`hintUnlock`: everything in the key region except the scratch area becomes
zero. -/
def zeroPlainText (k : Sqrl_Keys) : Sqrl_Keys :=
  { k with keys := k.keys.map fun _ => zeroKey
           password_len := 0
           password := k.password.map fun _ => 0 }

/-- Member function `SqrlUser::hintUnlock` (SqrlUser.cpp 234-273).  `hint` is
`none` for a null pointer.  The request sent to the client when no hint is
given leaves the user as it is.  `doCrypt` is only called when `genKey`
succeeded.  The result is `none` when `keys` is null. -/
def hintUnlock (ext : Externals) (cfg : Config) (u : SqrlUser) (action : Option SqrlAction)
    (hint : Option (List Nat)) (length : Nat) : Option SqrlUser :=
  match hint with
  | none => some u
  | some h =>
    if length = 0 then some u
    else
      match action with
      | none => some u
      | some a =>
        if a.user ≠ u.addr ∨ !u.isHintLocked then some u
        else
          match u.keys with
          | none => none
          | some k =>
            let k :=
              if !ext.genKey u h length then zeroPlainText k
              else
                let r := ext.doCrypt u
                let k := { k with keys := r.2.1, password_len := r.2.2.1, password := r.2.2.2 }
                if !r.1 then zeroPlainText k else k
            let scratch := memcpy k.scratch 32 zeroKey 0 SQRL_KEY_SIZE
            let scratch := memset scratch 0 cfg.KEY_SCRATCH_SIZE
            some { u with hint_iterations := 0, keys := some { k with scratch := scratch } }

/-- Member function `SqrlUser::getFlags` (SqrlUser.cpp 622-625). -/
def getFlags (u : SqrlUser) : Nat := u.options.flags

/-- Member function `SqrlUser::checkFlags` (SqrlUser.cpp 627-632). -/
def checkFlags (u : SqrlUser) (flags : Nat) : Nat := u.options.flags &&& flags

/-- Member function `SqrlUser::setFlags` (SqrlUser.cpp 634-640). -/
def setFlags (cfg : Config) (u : SqrlUser) (flags : Nat) : SqrlUser :=
  if (u.options.flags &&& flags) ≠ flags then
    { u with
      options := { u.options with flags := u.options.flags ||| flags }
      flags := FLAG_SET u.flags cfg.USER_FLAG_T1_CHANGED }
  else u

/-- Member function `SqrlUser::clearFlags` (SqrlUser.cpp 642-648).  The test
reads the transient flag word `this->flags`; `options.flags &= ~flags` is taken
on the 16-bit option word. -/
def clearFlags (cfg : Config) (u : SqrlUser) (flags : Nat) : SqrlUser :=
  if (u.flags &&& flags) ≠ 0 then
    { u with
      options := { u.options with flags := u.options.flags &&& (flags ^^^ 65535) }
      flags := FLAG_SET u.flags cfg.USER_FLAG_T1_CHANGED }
  else u

/-- Static function `SqrlUser::defaultOptions` (SqrlUser.cpp 650-655). -/
def defaultOptions (cfg : Config) : Sqrl_User_Options :=
  { flags := cfg.SQRL_DEFAULT_FLAGS
    hintLength := cfg.SQRL_DEFAULT_HINT_LENGTH
    enscryptSeconds := cfg.SQRL_DEFAULT_ENSCRYPT_SECONDS
    timeoutMinutes := cfg.SQRL_DEFAULT_TIMEOUT_MINUTES }

/-- The C string stored in a buffer: the bytes before its first NUL. -/
def cstr (buf : List Nat) : List Nat := buf.takeWhile fun c => c ≠ 0

/-- Member function `SqrlUser::uniqueIdMatches` (SqrlUser.cpp 664-677);
`unique_id` is `none` for a null pointer. -/
def uniqueIdMatches (u : SqrlUser) (unique_id : Option (List Nat)) : Bool :=
  match unique_id with
  | none => u.uniqueId.getD 0 0 == 0
  | some s => cstr s == cstr u.uniqueId

end SqrlUser

/-- The process-wide user registry in a sequential run: the nodes of
`SQRL_USER_LIST` in list order, each given with the state of the user it points
to, and the addresses handed to `delete`, most recent first. -/
structure Registry where
  /-- The list `SQRL_USER_LIST`. -/
  list : List SqrlUser
  /-- The users deleted so far. -/
  deleted : List Nat
deriving DecidableEq

namespace SqrlUser

/-- The functions `SqrlUser::create()` and `SqrlUser::initialize`
(SqrlUser.cpp 39-43, 85-97): `fresh` is the new object as `malloc` delivers it
(its address and the members the constructor does not set). -/
def create (cfg : Config) (r : Registry) (fresh : SqrlUser) : Registry :=
  { r with list := { fresh with options := defaultOptions cfg, referenceCount := 1 } :: r.list }

/-- The loop of `SqrlUser::hold` over the list: the count of the first node
whose user is `this` is incremented. -/
def holdList (this : Nat) : List SqrlUser → List SqrlUser
  | [] => []
  | c :: cs =>
    if c.addr = this then { c with referenceCount := c.referenceCount + 1 } :: cs
    else c :: holdList this cs

/-- Member function `SqrlUser::hold` (SqrlUser.cpp 118-134) of the user at
address `this`. -/
def hold (r : Registry) (this : Nat) : Registry :=
  { r with list := holdList this r.list }

/-- The search and update of `SqrlUser::release` over the list: the new list
and the value of `shouldFreeThis`. -/
def releaseList (this : Nat) : List SqrlUser → List SqrlUser × Bool
  | [] => ([], true)
  | c :: cs =>
    if c.addr = this then
      if c.referenceCount - 1 > 0 then
        ({ c with referenceCount := c.referenceCount - 1 } :: cs, false)
      else (cs, true)
    else ((c :: (releaseList this cs).1), (releaseList this cs).2)

/-- Member function `SqrlUser::release` (SqrlUser.cpp 136-193) of the user at
address `this`. -/
def release (r : Registry) (this : Nat) : Registry :=
  { list := (releaseList this r.list).1
    deleted := if (releaseList this r.list).2 then this :: r.deleted else r.deleted }

/-- Static function `SqrlUser::find` (SqrlUser.cpp 66-83): the pointer returned
(`none` for `NULL`) and the new registry. -/
def find (r : Registry) (unique_id : Option (List Nat)) : Option Nat × Registry :=
  match r.list.find? fun u => u.uniqueIdMatches unique_id with
  | some user => (some user.addr, hold r user.addr)
  | none => (none, r)

end SqrlUser

/-! ## Predicates used in the properties of SqrlUser -/

namespace SqrlUser

/-- Every non-zero key identifier labels at most one slot of the lookup array. -/
def UniqueLabels (lookup : List Nat) : Prop :=
  ∀ id ∈ lookup, id ≠ 0 → lookup.count id ≤ 1

instance (lookup : List Nat) : Decidable (UniqueLabels lookup) := by
  unfold UniqueLabels; infer_instance

/-- The shape `setRescueCode` accepts: the C string in `rc` has length exactly
24 and each of its characters is a decimal digit `'0'..'9'`. -/
def IsRescueCodeShape (rc : List Nat) : Prop :=
  SqrlUrlEncode.strlen rc = 24 ∧ ∀ c ∈ rc.take 24, 48 ≤ c ∧ c ≤ 57

instance (rc : List Nat) : Decidable (IsRescueCodeShape rc) := by
  unfold IsRescueCodeShape; infer_instance

/-- The key region is allocated and has one slot per entry of the lookup
array. -/
def KeysAllocated (u : SqrlUser) : Prop :=
  (u.keys.map fun k => k.keys.length) = some u.lookup.length

instance (u : SqrlUser) : Decidable (KeysAllocated u) := by
  unfold KeysAllocated; infer_instance

/-- The load flows, whose code is not among the sources, keep the labels
unique. -/
def LoadsKeepLabels (ext : Externals) : Prop :=
  ∀ n u, UniqueLabels u.lookup →
    UniqueLabels (ext.tryLoadRescue n u).lookup ∧ UniqueLabels (ext.tryLoadPassword n u).lookup

/-- The nine key identifiers that `rekey` uses are pairwise distinct and
non-zero. -/
def DistinctIds (cfg : Config) : Prop :=
  [cfg.KEY_IUK, cfg.KEY_PIUK0, cfg.KEY_PIUK1, cfg.KEY_PIUK2, cfg.KEY_PIUK3,
    cfg.KEY_RESCUE_CODE, cfg.KEY_MK, cfg.KEY_ILK, cfg.KEY_LOCAL].Nodup ∧
  0 ∉ [cfg.KEY_IUK, cfg.KEY_PIUK0, cfg.KEY_PIUK1, cfg.KEY_PIUK2, cfg.KEY_PIUK3,
    cfg.KEY_RESCUE_CODE, cfg.KEY_MK, cfg.KEY_ILK, cfg.KEY_LOCAL]

instance (cfg : Config) : Decidable (DistinctIds cfg) := by
  unfold DistinctIds; infer_instance

/-- The bytes of the key labelled `id`: the content of the first slot labelled
`id`, or 32 zero bytes when no slot is labelled `id` (or the key region is not
allocated). -/
def keyBytes (u : SqrlUser) (id : Nat) : List Nat :=
  if id ∈ u.lookup then (slotAt u (some (u.lookup.indexOf id))).getD zeroKey else zeroKey

end SqrlUser

/-! ## Concrete states used in the scenarios -/

/-- The block of scenario S1 after its eight bytes were written and the cursor
was moved back to 0: type 1, length 8, bytes `01 02 03 04 05 06 07 08`. -/
def s1Block : SqrlBlock := ⟨8, 1, 0, [1, 2, 3, 4, 5, 6, 7, 8]⟩

/-- An 8-byte block of type 1 with the cursor at offset 2. -/
def midBlock : SqrlBlock := ⟨8, 1, 2, [0, 0, 0, 0, 0, 0, 0, 0]⟩

/-- The S1 block with the cursor at offset 3. -/
def overrunBlock : SqrlBlock := ⟨8, 1, 3, [1, 2, 3, 4, 5, 6, 7, 8]⟩

/-- The S1 block with the cursor at offset 5. -/
def seekBlock : SqrlBlock := ⟨8, 1, 5, [1, 2, 3, 4, 5, 6, 7, 8]⟩

/-- The S1 block with the cursor at offset 2. -/
def backBlock : SqrlBlock := ⟨8, 1, 2, [1, 2, 3, 4, 5, 6, 7, 8]⟩

/-- A configuration with 16 key slots, a 96-byte scratch region and pairwise
distinct non-zero key identifiers. -/
def demoConfig : Config :=
  { USER_MAX_KEYS := 16, KEY_SCRATCH_SIZE := 96, KEY_PASSWORD_MAX_LEN := 8
    KEY_IUK := 7, KEY_MK := 1, KEY_ILK := 2, KEY_LOCAL := 8, KEY_RESCUE_CODE := 9
    KEY_PIUK0 := 3, KEY_PIUK1 := 4, KEY_PIUK2 := 5, KEY_PIUK3 := 6
    USER_FLAG_MEMLOCKED := 1, USER_FLAG_T1_CHANGED := 2, USER_FLAG_T2_CHANGED := 4
    SQRL_DEFAULT_FLAGS := 0, SQRL_DEFAULT_HINT_LENGTH := 4
    SQRL_DEFAULT_ENSCRYPT_SECONDS := 5, SQRL_DEFAULT_TIMEOUT_MINUTES := 15 }

/-- Collaborators whose load flows never populate anything, whose key
derivations add 1, 2, 3 to every byte, whose entropy source delivers `EE` bytes
and whose decryption succeeds leaving the plain-text region as it is. -/
def quietExternals : Externals :=
  { tryLoadRescue := fun _ u => u
    tryLoadPassword := fun _ u => u
    genKey := fun _ _ _ => true
    doCrypt := fun u =>
      match u.keys with
      | some k => (true, k.keys, k.password_len, k.password)
      | none => (true, [], 0, [])
    generateMasterKey := fun k => k.map fun b => (b + 1) % 256
    generateIdentityLockKey := fun k => k.map fun b => (b + 2) % 256
    generateLocalKey := fun k => k.map fun b => (b + 3) % 256
    entropyBytes := List.replicate 32 0xEE
    entropyGet := List.replicate 512 7
    malloc512 := true }

/-- Collaborators whose password flow fails on its first two calls and, on the
third call (index 2), stores the master key in slot 15. -/
def lateExternals : Externals :=
  { quietExternals with
    tryLoadPassword := fun n u =>
      if n = 2 then { u with lookup := u.lookup.set 15 1 } else u }

/-- Collaborators whose password flow stores the master key in slot 15 on its
second call (index 1). -/
def secondExternals : Externals :=
  { quietExternals with
    tryLoadPassword := fun n u =>
      if n = 1 then { u with lookup := u.lookup.set 15 1 } else u }

/-- A user at address 100 with an allocated, all-zero key region of 16 slots
and no key stored. -/
def freshUser : SqrlUser :=
  { addr := 100, lookup := List.replicate 16 0
    keys := some
      { keys := List.replicate 16 SqrlUser.zeroKey, password_len := 0
        password := List.replicate 8 0, scratch := List.replicate 96 0 }
    hint_iterations := 0, flags := 0, options := ⟨0, 4, 5, 15⟩
    referenceCount := 1, uniqueId := [] }

/-- An action bound to the user at address 100. -/
def demoAction : SqrlAction := ⟨100⟩

/-- The fresh user with slots 1..15 holding the identifiers 101..115: slot 0 is
the only free slot. -/
def slotZeroFreeUser : SqrlUser :=
  { freshUser with lookup := 0 :: (List.range 15).map fun i => 101 + i }

/-- The fresh user with the rescue code labelled in slot 0 and every other
slot free. -/
def slotZeroHeldUser : SqrlUser :=
  { freshUser with lookup := 9 :: List.replicate 15 0 }

/-- The fresh user with all 16 slots holding the identifiers 101..116. -/
def fullTableUser : SqrlUser :=
  { freshUser with lookup := (List.range 16).map fun i => 101 + i }

/-- A 4-byte allocation as `malloc` may deliver it: not zeroed. -/
def dirtyAllocation : List Nat := [0xDE, 0xAD, 0xBE, 0xEF]

/-- The rescue code of scenario S6, `"123456789012345678901234"`. -/
def s6RescueCode : List Nat :=
  [49, 50, 51, 52, 53, 54, 55, 56, 57, 48, 49, 50, 51, 52, 53, 54, 55, 56, 57, 48, 49, 50, 51, 52]

/-- The 23-digit string of scenario S6, `"12345678901234567890123"`. -/
def s6ShortCode : List Nat :=
  [49, 50, 51, 52, 53, 54, 55, 56, 57, 48, 49, 50, 51, 52, 53, 54, 55, 56, 57, 48, 49, 50, 51]

/-- A hint-locked user: 5 hint iterations, slot 15 and the scratch area filled
with non-zero bytes. -/
def hintLockedUser : SqrlUser :=
  { freshUser with
    hint_iterations := 5
    lookup := List.replicate 15 0 ++ [7]
    keys := some
      { keys := List.replicate 15 SqrlUser.zeroKey ++ [List.replicate 32 0x5A]
        password_len := 3, password := [1, 2, 3, 0, 0, 0, 0, 0]
        scratch := List.replicate 96 0xAB } }

/-- Collaborators whose key derivation `genKey` fails. -/
def failingExternals : Externals :=
  { quietExternals with genKey := fun _ _ _ => false }

/-- A registry holding one user (address 7, count 2, unique id `"abc"`), with
nothing deleted so far. -/
def demoRegistry : Registry :=
  { list := [{ freshUser with addr := 7, referenceCount := 2, uniqueId := [97, 98, 99, 0] }]
    deleted := [] }

/-- A new user object at address 100 whose unique id buffer holds `"xyz"`. -/
def newcomer : SqrlUser := { freshUser with uniqueId := [120, 121, 122, 0] }

/-- A user holding the identity unlock key and the four previous keys in slots
1..5 with the byte patterns `11`, `22`, `33`, `44`, `55`; the other slots are
free. -/
def rotatingUser : SqrlUser :=
  { freshUser with
    lookup := [0, 7, 3, 4, 5, 6] ++ List.replicate 10 0
    keys := some
      { keys := [SqrlUser.zeroKey, List.replicate 32 0x11, List.replicate 32 0x22,
          List.replicate 32 0x33, List.replicate 32 0x44, List.replicate 32 0x55] ++
          List.replicate 10 SqrlUser.zeroKey
        password_len := 0, password := List.replicate 8 0, scratch := List.replicate 96 0 } }

/-- The fresh user with slots 3 and 9 free and the other slots held by the
identifiers 101..116. -/
def twoFreeUser : SqrlUser :=
  { freshUser with
    lookup := (List.range 16).map fun i => if i = 3 ∨ i = 9 then 0 else 101 + i }

/-- The fresh user with option flag `0x0001` set and an empty transient flag
word. -/
def optionSetUser : SqrlUser :=
  { freshUser with options := ⟨1, 4, 5, 15⟩, flags := 0 }

/-- The fresh user with no option flag set and bit `0x0001` set in the
transient flag word. -/
def transientSetUser : SqrlUser :=
  { freshUser with options := ⟨0, 4, 5, 15⟩, flags := 1 }

/-! ## Auxiliary facts -/

theorem or_shiftLeft_eq_add {a k : Nat} (b : Nat) (h : a < 2 ^ k) :
    a ||| (b <<< k) = a + b * 2 ^ k := by
  rw [Nat.shiftLeft_eq, Nat.or_comm, Nat.mul_comm b, ← Nat.mul_add_lt_is_or h, Nat.add_comm]

theorem getD_set_self (l : List Nat) (i a d : Nat) (h : i < l.length) :
    (l.set i a).getD i d = a := by
  simp [List.getD_eq_getElem?_getD, List.getElem?_set, h]

theorem getD_set_ne (l : List Nat) (i j a d : Nat) (h : i ≠ j) :
    (l.set i a).getD j d = l.getD j d := by
  simp [List.getD_eq_getElem?_getD, List.getElem?_set, h]

theorem getD_lt_of_forall_lt (l : List Nat) (i : Nat) (h : ∀ x ∈ l, x < 256) :
    l.getD i 0 < 256 := by
  rw [List.getD_eq_getElem?_getD]
  cases hi : l[i]? with
  | none => simp
  | some x => simpa using h x (List.getElem?_mem hi)

@[simp] theorem length_memset (dst : List Nat) (c n : Nat) :
    (memset dst c n).length = dst.length := by
  simp [memset]

@[simp] theorem length_memcpy (dst : List Nat) (doff : Nat) (src : List Nat) (soff n : Nat) :
    (memcpy dst doff src soff n).length = dst.length := by
  simp [memcpy]

theorem getD_memset (dst : List Nat) (c n i : Nat) (hi : i < dst.length) :
    (memset dst c n).getD i 0 = if i < n then c else dst.getD i 0 := by
  simp [memset, List.getElem?_map, List.getElem?_range, hi]

theorem getD_memcpy (dst : List Nat) (doff : Nat) (src : List Nat) (soff n i : Nat)
    (hi : i < dst.length) :
    (memcpy dst doff src soff n).getD i 0 =
      if doff ≤ i ∧ i < doff + n then src.getD (soff + (i - doff)) 0 else dst.getD i 0 := by
  simp [memcpy, List.getElem?_map, List.getElem?_range, hi]

namespace SqrlBlock

/-- Little-endian value of the two bytes `b0 b1`, as `readInt16` assembles it. -/
theorem le16_eq (b0 b1 : Nat) (h0 : b0 < 256) (h1 : b1 < 256) :
    (b0 ||| (b1 <<< 8)) % 65536 = b0 + 2 ^ 8 * b1 := by
  rw [or_shiftLeft_eq_add b1 (by simpa using h0)]
  omega

/-- Little-endian value of four bytes, as `readInt32` assembles it. -/
theorem le32_eq (b0 b1 b2 b3 : Nat) (h0 : b0 < 256) (h1 : b1 < 256) (h2 : b2 < 256)
    (h3 : b3 < 256) :
    b0 ||| ((b1 <<< 8) % 2 ^ 32) ||| ((b2 <<< 16) % 2 ^ 32) ||| ((b3 <<< 24) % 2 ^ 32)
      = b0 + 2 ^ 8 * b1 + 2 ^ 16 * b2 + 2 ^ 24 * b3 := by
  have e1 : (b1 <<< 8) % 2 ^ 32 = b1 <<< 8 := by
    rw [Nat.shiftLeft_eq]; omega
  have e2 : (b2 <<< 16) % 2 ^ 32 = b2 <<< 16 := by
    rw [Nat.shiftLeft_eq]; omega
  have e3 : (b3 <<< 24) % 2 ^ 32 = b3 <<< 24 := by
    rw [Nat.shiftLeft_eq]; omega
  rw [e1, e2, e3, or_shiftLeft_eq_add b1 (by simpa using h0),
    or_shiftLeft_eq_add b2 (show b0 + b1 * 2 ^ 8 < 2 ^ 16 by omega),
    or_shiftLeft_eq_add b3 (show b0 + b1 * 2 ^ 8 + b2 * 2 ^ 16 < 2 ^ 24 by omega)]
  omega

/-- Effect of `readInt8` inside the block. -/
theorem readInt8_eq (b : SqrlBlock) (hL : b.blockLength < 65536)
    (h : b.cur + 1 ≤ b.blockLength) :
    b.readInt8 = (b.data.getD b.cur 0, { b with cur := b.cur + 1 }) := by
  have hm : (b.cur + 1) % 65536 = b.cur + 1 := by omega
  simp [readInt8, hm, show ¬ b.blockLength < b.cur + 1 by omega]

/-- Effect of `readInt16` inside the block. -/
theorem readInt16_eq (b : SqrlBlock) (hwf : b.WF) (h : b.cur + 2 ≤ b.blockLength) :
    b.readInt16 =
      (b.data.getD b.cur 0 + 2 ^ 8 * b.data.getD (b.cur + 1) 0, { b with cur := b.cur + 2 }) := by
  obtain ⟨hL, -, -, -, hb⟩ := hwf
  have hm : (b.cur + 2) % 65536 = b.cur + 2 := by omega
  have e := le16_eq _ _ (getD_lt_of_forall_lt b.data b.cur hb)
    (getD_lt_of_forall_lt b.data (b.cur + 1) hb)
  simp only [readInt16, show ¬ b.cur + 2 > b.blockLength by omega, if_false, hm, e]

/-- Effect of `readInt32` inside the block. -/
theorem readInt32_eq (b : SqrlBlock) (hwf : b.WF) (h : b.cur + 4 ≤ b.blockLength) :
    b.readInt32 =
      (b.data.getD b.cur 0 + 2 ^ 8 * b.data.getD (b.cur + 1) 0
        + 2 ^ 16 * b.data.getD (b.cur + 2) 0 + 2 ^ 24 * b.data.getD (b.cur + 3) 0,
        { b with cur := b.cur + 4 }) := by
  obtain ⟨hL, -, -, -, hb⟩ := hwf
  have m1 : (b.cur + 1) % 65536 = b.cur + 1 := by omega
  have m2 : (b.cur + 1 + 1) % 65536 = b.cur + 2 := by omega
  have m3 : (b.cur + 2 + 1) % 65536 = b.cur + 3 := by omega
  have m4 : (b.cur + 3 + 1) % 65536 = b.cur + 4 := by omega
  have e := le32_eq _ _ _ _ (getD_lt_of_forall_lt b.data b.cur hb)
    (getD_lt_of_forall_lt b.data (b.cur + 1) hb) (getD_lt_of_forall_lt b.data (b.cur + 2) hb)
    (getD_lt_of_forall_lt b.data (b.cur + 3) hb)
  simp only [readInt32, show ¬ b.cur + 4 > b.blockLength by omega, if_false, m1, m2, m3, m4, e]

/-- Storing a byte keeps the representation invariant. -/
theorem WF_set (b : SqrlBlock) (hwf : b.WF) (i a c : Nat) (ha : a < 256) (hc : c < 65536) :
    WF { b with data := b.data.set i a, cur := c } := by
  obtain ⟨hL, hT, -, hlen, hb⟩ := hwf
  refine ⟨hL, hT, hc, by simpa using hlen, ?_⟩
  intro x hx
  rcases List.mem_or_eq_of_mem_set hx with h | h
  · exact hb x h
  · exact h ▸ ha

/-- Effect of `writeInt8` inside the block. -/
theorem writeInt8_eq (b : SqrlBlock) (v : Nat) (hL : b.blockLength < 65536)
    (h : b.cur + 1 ≤ b.blockLength) :
    b.writeInt8 v = (true, { b with data := b.data.set b.cur v, cur := b.cur + 1 }) := by
  have hm : (b.cur + 1) % 65536 = b.cur + 1 := by omega
  simp [writeInt8, hm, show ¬ b.blockLength < b.cur + 1 by omega]

/-- Effect of `writeInt16` inside the block. -/
theorem writeInt16_eq (b : SqrlBlock) (v : Nat) (hL : b.blockLength < 65536)
    (h : b.cur + 2 ≤ b.blockLength) :
    b.writeInt16 v =
      (true, { b with data := (b.data.set b.cur (v % 256)).set (b.cur + 1) (v / 256 % 256),
                      cur := b.cur + 2 }) := by
  have m1 : (b.cur + 1) % 65536 = b.cur + 1 := by omega
  have m2 : (b.cur + 1 + 1) % 65536 = b.cur + 2 := by omega
  have e1 : v &&& 255 = v % 256 := Nat.and_pow_two_sub_one_eq_mod v 8
  have e2 : v >>> 8 = v / 256 := Nat.shiftRight_eq_div_pow v 8
  simp only [writeInt16, show ¬ b.cur + 2 > b.blockLength by omega, if_false, m1, m2, e1, e2,
    Nat.mod_mod]

/-- Effect of `writeInt32` inside the block. -/
theorem writeInt32_eq (b : SqrlBlock) (v : Nat) (hL : b.blockLength < 65536)
    (h : b.cur + 4 ≤ b.blockLength) :
    b.writeInt32 v =
      (true, { b with
        data := (((b.data.set b.cur (v % 256)).set (b.cur + 1) (v / 2 ^ 8 % 256)).set
          (b.cur + 2) (v / 2 ^ 16 % 256)).set (b.cur + 3) (v / 2 ^ 24 % 256),
        cur := b.cur + 4 }) := by
  have m1 : (b.cur + 1) % 65536 = b.cur + 1 := by omega
  have m2 : (b.cur + 1 + 1) % 65536 = b.cur + 2 := by omega
  have m3 : (b.cur + 2 + 1) % 65536 = b.cur + 3 := by omega
  have m4 : (b.cur + 3 + 1) % 65536 = b.cur + 4 := by omega
  simp only [writeInt32, show ¬ b.cur + 4 > b.blockLength by omega, if_false, m1, m2, m3, m4,
    Nat.shiftRight_eq_div_pow]

/-- An absolute `seek` to a position below the length moves the cursor there. -/
theorem seek_abs_eq (b : SqrlBlock) (dest : Nat) (h : dest < b.blockLength) :
    b.seek dest false = (dest, { b with cur := dest }) := by
  simp [seek, h]

/-- Write then read back, 8 bits. -/
theorem roundTrip8 (b : SqrlBlock) (hwf : b.WF) (v : Nat)
    (h : b.cur + 1 ≤ b.blockLength) :
    (b.writeInt8 v).1 = true ∧ (b.writeInt8 v).2.cur = b.cur + 1 ∧
      (((b.writeInt8 v).2.seek b.cur false).2.readInt8).1 = v := by
  obtain ⟨hL, -, -, hlen, -⟩ := hwf
  rw [writeInt8_eq b v hL h]
  refine ⟨rfl, rfl, ?_⟩
  rw [seek_abs_eq _ _ (by show b.cur < b.blockLength; omega)]
  show (readInt8 { b with data := b.data.set b.cur v, cur := b.cur }).1 = v
  rw [readInt8_eq { b with data := b.data.set b.cur v, cur := b.cur } hL h]
  exact getD_set_self _ _ _ _ (by omega)

/-- Write then read back, 16 bits. -/
theorem roundTrip16 (b : SqrlBlock) (hwf : b.WF) (v : Nat) (hv : v < 2 ^ 16)
    (h : b.cur + 2 ≤ b.blockLength) :
    (b.writeInt16 v).1 = true ∧ (b.writeInt16 v).2.cur = b.cur + 2 ∧
      (((b.writeInt16 v).2.seek b.cur false).2.readInt16).1 = v := by
  have hwf0 := hwf
  obtain ⟨hL, -, hC, hlen, -⟩ := hwf
  rw [writeInt16_eq b v hL h]
  refine ⟨rfl, rfl, ?_⟩
  rw [seek_abs_eq _ _ (by show b.cur < b.blockLength; omega)]
  have hw : WF { b with
      data := (b.data.set b.cur (v % 256)).set (b.cur + 1) (v / 256 % 256), cur := b.cur } :=
    WF_set { b with data := b.data.set b.cur (v % 256) }
      (WF_set b hwf0 _ _ b.cur (by omega) hC) _ _ _ (by omega) hC
  rw [readInt16_eq _ hw h]
  show ((b.data.set b.cur (v % 256)).set (b.cur + 1) (v / 256 % 256)).getD b.cur 0
    + 2 ^ 8 * ((b.data.set b.cur (v % 256)).set (b.cur + 1) (v / 256 % 256)).getD (b.cur + 1) 0 = v
  rw [getD_set_ne _ _ _ _ _ (by omega), getD_set_self _ _ _ _ (by omega),
    getD_set_self _ _ _ _ (by simp; omega)]
  omega

/-- Write then read back, 32 bits. -/
theorem roundTrip32 (b : SqrlBlock) (hwf : b.WF) (v : Nat) (hv : v < 2 ^ 32)
    (h : b.cur + 4 ≤ b.blockLength) :
    (b.writeInt32 v).1 = true ∧ (b.writeInt32 v).2.cur = b.cur + 4 ∧
      (((b.writeInt32 v).2.seek b.cur false).2.readInt32).1 = v := by
  have hwf0 := hwf
  obtain ⟨hL, -, hC, hlen, -⟩ := hwf
  rw [writeInt32_eq b v hL h]
  refine ⟨rfl, rfl, ?_⟩
  rw [seek_abs_eq _ _ (by show b.cur < b.blockLength; omega)]
  have w1 := WF_set b hwf0 b.cur (v % 256) b.cur (by omega) hC
  have w2 := WF_set _ w1 (b.cur + 1) (v / 2 ^ 8 % 256) b.cur (by omega) hC
  have w3 := WF_set _ w2 (b.cur + 2) (v / 2 ^ 16 % 256) b.cur (by omega) hC
  have w4 := WF_set _ w3 (b.cur + 3) (v / 2 ^ 24 % 256) b.cur (by omega) hC
  rw [readInt32_eq _ w4 h]
  show ((((b.data.set b.cur (v % 256)).set (b.cur + 1) (v / 2 ^ 8 % 256)).set
          (b.cur + 2) (v / 2 ^ 16 % 256)).set (b.cur + 3) (v / 2 ^ 24 % 256)).getD b.cur 0
    + 2 ^ 8 * ((((b.data.set b.cur (v % 256)).set (b.cur + 1) (v / 2 ^ 8 % 256)).set
          (b.cur + 2) (v / 2 ^ 16 % 256)).set (b.cur + 3) (v / 2 ^ 24 % 256)).getD (b.cur + 1) 0
    + 2 ^ 16 * ((((b.data.set b.cur (v % 256)).set (b.cur + 1) (v / 2 ^ 8 % 256)).set
          (b.cur + 2) (v / 2 ^ 16 % 256)).set (b.cur + 3) (v / 2 ^ 24 % 256)).getD (b.cur + 2) 0
    + 2 ^ 24 * ((((b.data.set b.cur (v % 256)).set (b.cur + 1) (v / 2 ^ 8 % 256)).set
          (b.cur + 2) (v / 2 ^ 16 % 256)).set (b.cur + 3) (v / 2 ^ 24 % 256)).getD (b.cur + 3) 0
      = v
  rw [getD_set_ne _ _ _ _ _ (show b.cur + 3 ≠ b.cur by omega),
    getD_set_ne _ _ _ _ _ (show b.cur + 2 ≠ b.cur by omega),
    getD_set_ne _ _ _ _ _ (show b.cur + 1 ≠ b.cur by omega),
    getD_set_self _ _ _ _ (by omega),
    getD_set_ne _ _ _ _ _ (show b.cur + 3 ≠ b.cur + 1 by omega),
    getD_set_ne _ _ _ _ _ (show b.cur + 2 ≠ b.cur + 1 by omega),
    getD_set_self _ _ _ _ (by simp; omega),
    getD_set_ne _ _ _ _ _ (show b.cur + 3 ≠ b.cur + 2 by omega),
    getD_set_self _ _ _ _ (by simp; omega),
    getD_set_self _ _ _ _ (by simp; omega)]
  omega

/-- A block just created by a successful `init` satisfies the representation
invariant and has its cursor at 0. -/
theorem WF_init (b : SqrlBlock) (t n : Nat) (mem : List Nat) (ht : t < 65536) (hn : n < 65536)
    (hlen : mem.length = n) (hmem : ∀ x ∈ mem, x < 256) :
    (b.init t n (some mem)).2.WF ∧ (b.init t n (some mem)).2.cur = 0 ∧
      (b.init t n (some mem)).2.blockLength = n :=
  ⟨⟨hn, ht, show (0 : Nat) < 65536 by decide, hlen, hmem⟩, rfl, rfl⟩

/-- C1 (block integer round trip).  For each width 8, 16, 32 and each value `v`
of that width: when the cursor `c` of a well-formed block satisfies
`c + width/8 ≤ length`, `writeIntW v` returns `true`, advances the cursor by
`width/8`, and after `seek(c)` the call `readIntW` returns `v`.  In particular,
on a block freshly created by a successful `init` (whatever bytes the allocation
holds), writing `v`, seeking to 0 and reading gives `v` back. -/
theorem block_int_round_trip (b : SqrlBlock) (hwf : b.WF) (v : Nat) :
    (v < 2 ^ 8 → b.cur + 1 ≤ b.blockLength →
      (b.writeInt8 v).1 = true ∧ (b.writeInt8 v).2.cur = b.cur + 1 ∧
        (((b.writeInt8 v).2.seek b.cur false).2.readInt8).1 = v) ∧
    (v < 2 ^ 16 → b.cur + 2 ≤ b.blockLength →
      (b.writeInt16 v).1 = true ∧ (b.writeInt16 v).2.cur = b.cur + 2 ∧
        (((b.writeInt16 v).2.seek b.cur false).2.readInt16).1 = v) ∧
    (v < 2 ^ 32 → b.cur + 4 ≤ b.blockLength →
      (b.writeInt32 v).1 = true ∧ (b.writeInt32 v).2.cur = b.cur + 4 ∧
        (((b.writeInt32 v).2.seek b.cur false).2.readInt32).1 = v) ∧
    ∀ (t n : Nat) (mem : List Nat), t < 65536 → n < 65536 → mem.length = n →
      (∀ x ∈ mem, x < 256) →
      (v < 2 ^ 8 → 1 ≤ n →
        ((((b.init t n (some mem)).2.writeInt8 v).2.seek 0 false).2.readInt8).1 = v) ∧
      (v < 2 ^ 16 → 2 ≤ n →
        ((((b.init t n (some mem)).2.writeInt16 v).2.seek 0 false).2.readInt16).1 = v) ∧
      (v < 2 ^ 32 → 4 ≤ n →
        ((((b.init t n (some mem)).2.writeInt32 v).2.seek 0 false).2.readInt32).1 = v) := by
  refine ⟨fun _ h => roundTrip8 b hwf v h, fun hv h => roundTrip16 b hwf v hv h,
    fun hv h => roundTrip32 b hwf v hv h, ?_⟩
  intro t n mem ht hn hlen hmem
  obtain ⟨hw, hc, hl⟩ := WF_init b t n mem ht hn hlen hmem
  refine ⟨fun _ h => ?_, fun hv h => ?_, fun hv h => ?_⟩
  · have := (roundTrip8 _ hw v (by rw [hc, hl]; omega)).2.2
    rwa [hc] at this
  · have := (roundTrip16 _ hw v hv (by rw [hc, hl]; omega)).2.2
    rwa [hc] at this
  · have := (roundTrip32 _ hw v hv (by rw [hc, hl]; omega)).2.2
    rwa [hc] at this

/-- Witness for C1: the three widths on an 8-byte block with the cursor at 2. -/
theorem block_int_round_trip_witness :
    midBlock.WF ∧
    (((midBlock.writeInt8 0xAB).2.seek 2 false).2.readInt8).1 = 0xAB ∧
    (((midBlock.writeInt16 0xBEEF).2.seek 2 false).2.readInt16).1 = 0xBEEF ∧
    (((midBlock.writeInt32 0xDEADBEEF).2.seek 2 false).2.readInt32).1 = 0xDEADBEEF :=
  ⟨by decide,
    ((block_int_round_trip midBlock (by decide) 0xAB).1 (by decide) (by decide)).2.2,
    ((block_int_round_trip midBlock (by decide) 0xBEEF).2.1 (by decide) (by decide)).2.2,
    ((block_int_round_trip midBlock (by decide) 0xDEADBEEF).2.2.1 (by decide) (by decide)).2.2⟩

/-- C5 (typed block reads are little-endian).  On a well-formed block with
cursor `c`: if `c + 4 ≤ length`, `readInt32` returns
`data[c] + 2^8 data[c+1] + 2^16 data[c+2] + 2^24 data[c+3]` and only advances
the cursor by 4; if `c + 2 ≤ length`, `readInt16` returns
`data[c] + 2^8 data[c+1]` and only advances the cursor by 2; if
`c + 1 ≤ length`, `readInt8` returns `data[c]` and only advances the cursor
by 1. -/
theorem typed_reads_little_endian (b : SqrlBlock) (hwf : b.WF) :
    (b.cur + 4 ≤ b.blockLength →
      b.readInt32 =
        (b.data.getD b.cur 0 + 2 ^ 8 * b.data.getD (b.cur + 1) 0
          + 2 ^ 16 * b.data.getD (b.cur + 2) 0 + 2 ^ 24 * b.data.getD (b.cur + 3) 0,
          { b with cur := b.cur + 4 })) ∧
    (b.cur + 2 ≤ b.blockLength →
      b.readInt16 =
        (b.data.getD b.cur 0 + 2 ^ 8 * b.data.getD (b.cur + 1) 0, { b with cur := b.cur + 2 })) ∧
    (b.cur + 1 ≤ b.blockLength →
      b.readInt8 = (b.data.getD b.cur 0, { b with cur := b.cur + 1 })) :=
  ⟨readInt32_eq b hwf, readInt16_eq b hwf, readInt8_eq b hwf.1⟩

/-- Witness for C5 (scenario S1): on the block `01 02 03 04 05 06 07 08` with
cursor 0 the successive reads `readInt32`, `readInt16`, `readInt8` return
`0x04030201`, `0x0605`, `0x07`. -/
theorem typed_reads_little_endian_witness :
    s1Block.WF ∧
    s1Block.readInt32 = (0x04030201, ⟨8, 1, 4, [1, 2, 3, 4, 5, 6, 7, 8]⟩) ∧
    s1Block.readInt32.2.readInt16 = (0x0605, ⟨8, 1, 6, [1, 2, 3, 4, 5, 6, 7, 8]⟩) ∧
    s1Block.readInt32.2.readInt16.2.readInt8 = (0x07, ⟨8, 1, 7, [1, 2, 3, 4, 5, 6, 7, 8]⟩) :=
  ⟨by decide,
    (typed_reads_little_endian s1Block (by decide)).1 (by decide),
    (typed_reads_little_endian s1Block.readInt32.2 (by decide)).2.1 (by decide),
    (typed_reads_little_endian s1Block.readInt32.2.readInt16.2 (by decide)).2.2 (by decide)⟩

/-- Effect of `resize` when both allocations succeed and the size really changes. -/
theorem resize_eq (b : SqrlBlock) (new_size : Nat) (buf d : List Nat) (h0 : new_size ≠ 0)
    (hne : new_size ≠ b.blockLength) :
    b.resize new_size (some buf) (some d) =
      some (false,
        { b with
          data := memcpy d 0
            (if new_size < b.blockLength then memcpy buf 0 b.data 0 new_size
              else memcpy (memset buf 0 new_size) 0 b.data 0 b.blockLength) 0 new_size,
          blockLength := new_size % 65536,
          cur := if b.cur ≥ new_size % 65536
            then Int.toNat ((((new_size % 65536 : Nat) : Int) - 1) % 65536) else b.cur }) := by
  simp [resize, h0, hne]

/-- C9 (resize effect).  For a well-formed block of length `L` and a
`new_size` with `0 < new_size ≤ 65535`, `new_size ≠ L`, when both allocations
succeed: the length becomes `new_size`, the type is unchanged, the new data has
`new_size` bytes, byte `i` is the old byte `i` for `i < min L new_size`, byte `i`
is zero for `L ≤ i < new_size`, the cursor is unchanged if it was below
`new_size` and is `new_size - 1` if it was above.  Whatever the allocator does,
`resize(L)` leaves the block unchanged and `resize(0)` returns `false` leaving
the block unchanged. -/
theorem resize_effect (b : SqrlBlock) (hwf : b.WF) (new_size : Nat) (buf d : List Nat)
    (hbuf : buf.length = new_size) (hd : d.length = new_size) :
    (0 < new_size → new_size ≤ 65535 → new_size ≠ b.blockLength →
      ∃ r b', b.resize new_size (some buf) (some d) = some (r, b') ∧
        b'.blockLength = new_size ∧ b'.blockType = b.blockType ∧
        b'.data.length = new_size ∧
        (∀ i, i < min b.blockLength new_size → b'.data.getD i 0 = b.data.getD i 0) ∧
        (∀ i, b.blockLength ≤ i → i < new_size → b'.data.getD i 0 = 0) ∧
        (b.cur < new_size → b'.cur = b.cur) ∧
        (new_size < b.cur → b'.cur = new_size - 1)) ∧
    (∀ m1 m2 : Option (List Nat), ∃ r, b.resize b.blockLength m1 m2 = some (r, b)) ∧
    (∀ m1 m2 : Option (List Nat), b.resize 0 m1 m2 = some (false, b)) := by
  obtain ⟨hL, -, hC, hlen, -⟩ := hwf
  refine ⟨?_, ?_, ?_⟩
  · intro hpos hmax hne
    have hm : new_size % 65536 = new_size := by omega
    refine ⟨_, _, resize_eq b new_size buf d (by omega) hne, ?_, rfl, ?_, ?_, ?_, ?_, ?_⟩
    · exact hm
    · simp [hd]
    · intro i hi
      have hin : i < new_size := lt_of_lt_of_le hi (min_le_right _ _)
      have hiL : i < b.blockLength := lt_of_lt_of_le hi (min_le_left _ _)
      show (memcpy d 0 _ 0 new_size).getD i 0 = _
      rw [getD_memcpy _ _ _ _ _ _ (by omega), if_pos (by omega)]
      by_cases hs : new_size < b.blockLength
      · rw [if_pos hs, getD_memcpy _ _ _ _ _ _ (by simp; omega), if_pos (by omega)]
        simp
      · rw [if_neg hs, getD_memcpy _ _ _ _ _ _ (by simp; omega), if_pos (by omega)]
        simp
    · intro i hLi hin
      show (memcpy d 0 _ 0 new_size).getD i 0 = _
      rw [getD_memcpy _ _ _ _ _ _ (by omega), if_pos (by omega),
        if_neg (show ¬ new_size < b.blockLength by omega),
        getD_memcpy _ _ _ _ _ _ (by simp; omega), if_neg (by omega),
        getD_memset _ _ _ _ (by omega)]
      simp
      omega
    · intro hlt
      show (if b.cur ≥ new_size % 65536 then _ else b.cur) = b.cur
      rw [hm, if_neg (by omega)]
    · intro hgt
      show (if b.cur ≥ new_size % 65536 then _ else b.cur) = new_size - 1
      rw [hm, if_pos (by omega)]
      omega
  · intro m1 m2
    by_cases h0 : b.blockLength = 0
    · exact ⟨false, by simp [resize, h0]⟩
    · exact ⟨true, by simp [resize, h0]⟩
  · intro m1 m2
    simp [resize]

/-- Witness for C9: growing the S1 block to 12 bytes and shrinking it to 4. -/
theorem resize_effect_witness :
    s1Block.WF ∧
    (∃ r b', s1Block.resize 12 (some (List.replicate 12 0xAA)) (some (List.replicate 12 0xBB))
        = some (r, b') ∧
      b'.blockLength = 12 ∧ b'.blockType = s1Block.blockType ∧ b'.data.length = 12 ∧
      (∀ i, i < min s1Block.blockLength 12 → b'.data.getD i 0 = s1Block.data.getD i 0) ∧
      (∀ i, s1Block.blockLength ≤ i → i < 12 → b'.data.getD i 0 = 0) ∧
      (s1Block.cur < 12 → b'.cur = s1Block.cur) ∧
      (12 < s1Block.cur → b'.cur = 12 - 1)) ∧
    s1Block.resize 12 (some (List.replicate 12 0xAA)) (some (List.replicate 12 0xBB))
      = some (false, ⟨12, 1, 0, [1, 2, 3, 4, 5, 6, 7, 8, 0, 0, 0, 0]⟩) :=
  ⟨by decide,
    (resize_effect s1Block (by decide) 12 (List.replicate 12 0xAA) (List.replicate 12 0xBB)
      (by decide) (by decide)).1 (by decide) (by decide) (by decide),
    by decide⟩

/-! ### Overrun guards -/

/-- The guards of `read` and `write` reject an overrun as long as the sum
`cur + data_len` is representable in `size_t`. -/
theorem overrun_guard_no_wrap (sizeBits : Nat) (b : SqrlBlock) (src : List Nat) (n : Nat)
    (hw : b.cur + n < 2 ^ sizeBits) (h : b.cur + n > b.blockLength) :
    b.read sizeBits n = some (-1, b, []) ∧ b.write sizeBits src n = some (-1, b) := by
  have hm : (b.cur + n) % 2 ^ sizeBits = b.cur + n := Nat.mod_eq_of_lt hw
  simp [read, write, hm, h]

/-- Inside the block `read` and `write` succeed: they return the count, advance
the cursor by it, and `read` delivers the bytes under the cursor. -/
theorem read_write_in_bounds (sizeBits : Nat) (b : SqrlBlock) (hwf : b.WF) (src : List Nat)
    (n : Nat) (hs : 16 ≤ sizeBits) (h : b.cur + n ≤ b.blockLength) (hsrc : n ≤ src.length) :
    b.read sizeBits n
      = some ((n : Int), { b with cur := b.cur + n }, (b.data.drop b.cur).take n) ∧
    b.write sizeBits src n
      = some ((n : Int), { b with data := memcpy b.data b.cur src 0 n, cur := b.cur + n }) := by
  obtain ⟨hL, -, hC, hlen, -⟩ := hwf
  have hp : 2 ^ 16 ≤ 2 ^ sizeBits := Nat.pow_le_pow_right (by decide) hs
  have hm : (b.cur + n) % 2 ^ sizeBits = b.cur + n := Nat.mod_eq_of_lt (by omega)
  have hc : (b.cur + n % 65536) % 65536 = b.cur + n := by omega
  have ht : toInt32 n = (n : Int) := by
    unfold toInt32
    have : n % 2 ^ 32 = n := by omega
    rw [this, if_pos (by omega)]
  simp [read, write, hm, hc, ht, hlen, h, hsrc, show ¬ b.blockLength < b.cur + n by omega]

/-- The guards of the typed reads and writes reject every overrun. -/
theorem overrun_guard_int (b : SqrlBlock) :
    (b.cur + 1 > b.blockLength → b.readInt8 = (0, b) ∧ ∀ v, b.writeInt8 v = (false, b)) ∧
    (b.cur + 2 > b.blockLength →
      b.readInt16 = (0, b) ∧ ∀ v, b.writeInt16 v = (false, b)) ∧
    (b.cur + 4 > b.blockLength →
      b.readInt32 = (0, b) ∧ ∀ v, b.writeInt32 v = (false, b)) := by
  refine ⟨fun h => ?_, fun h => ?_, fun h => ?_⟩
  · simp [readInt8, writeInt8, h]
  · simp [readInt16, writeInt16, h]
  · simp [readInt32, writeInt32, h]

/-- C2 (block overrun), evaluation at the failing input.  With a 64-bit
`size_t`, on the 8-byte block with cursor 3 the count `2^64 - 2` overruns the
block (`3 + (2^64 - 2) > 8`), but the guard `cur + data_len > blockLength` is
computed modulo `2^64`, gives `1 > 8`, and does not fire: instead of returning
the failure sentinel with the block untouched, `read` and `write` go on to a
`memcpy` of `2^64 - 2` bytes that leaves the block. -/
theorem read_write_guard_wraps :
    overrunBlock.WF ∧ overrunBlock.CursorInv ∧
    overrunBlock.cur + (2 ^ 64 - 2) > overrunBlock.blockLength ∧
    ¬ ((overrunBlock.cur + (2 ^ 64 - 2)) % 2 ^ 64 > overrunBlock.blockLength) ∧
    overrunBlock.read 64 (2 ^ 64 - 2) = none ∧
    overrunBlock.read 64 (2 ^ 64 - 2) ≠ some (-1, overrunBlock, []) ∧
    overrunBlock.write 64 (List.replicate (2 ^ 64 - 2) 0) (2 ^ 64 - 2) = none ∧
    overrunBlock.write 64 (List.replicate (2 ^ 64 - 2) 0) (2 ^ 64 - 2)
      ≠ some (-1, overrunBlock) := by
  decide

/-! ### seek and seekBack -/

/-- What `seek` does: the absolute form follows the contract for every `dest`;
the relative form follows it as long as `cur + dest` fits in 16 bits; the value
returned is always the resulting cursor. -/
theorem seek_spec (b : SqrlBlock) (dest : Nat) :
    b.seek dest false = (if dest < b.blockLength then (dest, { b with cur := dest })
      else (b.cur, b)) ∧
    (b.cur + dest < 65536 →
      b.seek dest true = (if b.cur + dest < b.blockLength
        then (b.cur + dest, { b with cur := b.cur + dest }) else (b.cur, b))) ∧
    ∀ offset, (b.seek dest offset).1 = (b.seek dest offset).2.cur := by
  refine ⟨?_, ?_, fun _ => rfl⟩
  · by_cases h : dest < b.blockLength <;> simp [seek, h]
  · intro hlt
    have hm : (dest + b.cur) % 65536 = b.cur + dest := by omega
    by_cases h : b.cur + dest < b.blockLength <;> simp [seek, hm, h]

/-- When the 16-bit sum `cur + dest` overflows, the relative `seek` always moves
the cursor, backwards, to `cur + dest - 65536`. -/
theorem seek_overflow (b : SqrlBlock) (hwf : b.WF) (hinv : b.CursorInv) (dest : Nat)
    (hd : dest < 65536) (h : 65536 ≤ b.cur + dest) :
    b.seek dest true = (b.cur + dest - 65536, { b with cur := b.cur + dest - 65536 }) := by
  obtain ⟨hL, -, hC, -, -⟩ := hwf
  unfold CursorInv at hinv
  have hm : (dest + b.cur) % 65536 = b.cur + dest - 65536 := by omega
  simp [seek, hm, show b.cur + dest - 65536 < b.blockLength by omega]

/-- C7 (seek contract), evaluation at the failing input.  On the 8-byte block
with cursor 5, `seek(65535, true)` has the integer target `5 + 65535 = 65540`,
which is not below the length 8, so the cursor should stay at 5; the 16-bit sum
wraps to 4 and the cursor moves to 4. -/
theorem seek_relative_wraps :
    seekBlock.WF ∧ seekBlock.CursorInv ∧
    ¬ (seekBlock.cur + 65535 < seekBlock.blockLength) ∧
    seekBlock.seek 65535 true = (4, { seekBlock with cur := 4 }) := by
  decide

/-- What `seekBack` does when the subtraction does not go below zero: the
cursor moves to `length - dest` (absolute) or `cur - dest` (relative) exactly
when that target is positive, and the resulting cursor is returned. -/
theorem seekBack_spec (b : SqrlBlock) (dest : Nat) :
    (dest ≤ b.blockLength → b.blockLength < 65536 →
      b.seekBack dest false = (if 0 < b.blockLength - dest
        then (b.blockLength - dest, { b with cur := b.blockLength - dest }) else (b.cur, b))) ∧
    (dest ≤ b.cur → b.cur < 65536 →
      b.seekBack dest true = (if 0 < b.cur - dest
        then (b.cur - dest, { b with cur := b.cur - dest }) else (b.cur, b))) ∧
    ∀ offset, (b.seekBack dest offset).1 = (b.seekBack dest offset).2.cur := by
  refine ⟨?_, ?_, fun _ => rfl⟩
  · intro hle hL
    have e : Int.toNat (((b.blockLength : Int) - (dest : Int)) % 65536)
        = b.blockLength - dest := by
      omega
    by_cases h : 0 < b.blockLength - dest <;> simp [seekBack, e, h]
  · intro hle hC
    have e : Int.toNat (((b.cur : Int) - (dest : Int)) % 65536) = b.cur - dest := by
      omega
    by_cases h : 0 < b.cur - dest <;> simp [seekBack, e, h]

/-- When `dest` exceeds the cursor (relative) or the length (absolute), the
16-bit difference wraps and `seekBack` moves the cursor to it. -/
theorem seekBack_underflow (b : SqrlBlock) (hwf : b.WF) (dest : Nat) (hd : dest < 65536) :
    (b.cur < dest →
      b.seekBack dest true = (b.cur + 65536 - dest, { b with cur := b.cur + 65536 - dest })) ∧
    (b.blockLength < dest →
      b.seekBack dest false
        = (b.blockLength + 65536 - dest, { b with cur := b.blockLength + 65536 - dest })) := by
  obtain ⟨hL, -, hC, -, -⟩ := hwf
  constructor
  · intro h
    have e : Int.toNat (((b.cur : Int) - (dest : Int)) % 65536) = b.cur + 65536 - dest := by
      omega
    simp [seekBack, e, show 0 < b.cur + 65536 - dest by omega]
  · intro h
    have e : Int.toNat (((b.blockLength : Int) - (dest : Int)) % 65536)
        = b.blockLength + 65536 - dest := by
      omega
    simp [seekBack, e, show 0 < b.blockLength + 65536 - dest by omega]

/-- C8 (seekBack contract), evaluation at the failing inputs.  On the 8-byte
block with cursor 2, `seekBack(3, true)` has the integer target `2 - 3 = -1` and
`seekBack(9, false)` the integer target `8 - 9 = -1`; neither is greater than
zero, so the cursor should stay at 2.  Stored in the `uint16_t dest` both
targets become 65535, the test `dest > 0` succeeds and the cursor becomes
65535. -/
theorem seekBack_wraps :
    backBlock.WF ∧ backBlock.CursorInv ∧
    ¬ ((backBlock.cur : Int) - 3 > 0) ∧
    backBlock.seekBack 3 true = (65535, { backBlock with cur := 65535 }) ∧
    ¬ ((backBlock.blockLength : Int) - 9 > 0) ∧
    backBlock.seekBack 9 false = (65535, { backBlock with cur := 65535 }) := by
  decide

/-! ### The cursor invariant -/

/-- The operations that keep `cur ≤ blockLength`: `clear`, `init`, `seek`,
`read` and `write` (whenever they return), the typed reads and writes,
`resize` to at most 65535 bytes, and `seekBack` when `dest` does not exceed the
length (absolute) or the cursor (relative). -/
theorem cursorInv_preserved (b : SqrlBlock) (hwf : b.WF) (hinv : b.CursorInv) :
    b.clear.CursorInv ∧
    (∀ t n mem, (b.init t n mem).2.CursorInv) ∧
    (∀ dest offset, (b.seek dest offset).2.CursorInv) ∧
    (∀ sizeBits src n r w, (b.read sizeBits n = some r → r.2.1.CursorInv) ∧
      (b.write sizeBits src n = some w → w.2.CursorInv)) ∧
    (b.readInt8.2.CursorInv ∧ b.readInt16.2.CursorInv ∧ b.readInt32.2.CursorInv) ∧
    (∀ v, (b.writeInt8 v).2.CursorInv ∧ (b.writeInt16 v).2.CursorInv ∧
      (b.writeInt32 v).2.CursorInv) ∧
    (∀ new_size m1 m2 r b', new_size ≤ 65535 → b.resize new_size m1 m2 = some (r, b') →
      b'.CursorInv) ∧
    (∀ dest, dest ≤ b.blockLength → (b.seekBack dest false).2.CursorInv) ∧
    (∀ dest, dest ≤ b.cur → (b.seekBack dest true).2.CursorInv) := by
  obtain ⟨hL, -, hC, hlen, -⟩ := hwf
  unfold CursorInv at hinv ⊢
  refine ⟨Nat.le_refl 0, ?_, ?_, ?_, ?_, ?_, ?_, ?_, ?_⟩
  · intro t n mem
    cases mem with
    | none => exact Nat.le_refl 0
    | some m => exact Nat.zero_le n
  · intro dest offset
    simp only [seek]
    split_ifs <;> first | omega | (dsimp only; omega)
  · intro sizeBits src n r w
    constructor
    · intro hr
      simp only [read] at hr
      split_ifs at hr with h1 h2
      · rw [← Option.some.inj hr]; exact hinv
      · rw [← Option.some.inj hr]
        show (b.cur + n % 65536) % 65536 ≤ b.blockLength
        omega
    · intro hr
      simp only [write] at hr
      split_ifs at hr with h1 h2
      · rw [← Option.some.inj hr]; exact hinv
      · rw [← Option.some.inj hr]
        show (b.cur + n % 65536) % 65536 ≤ b.blockLength
        omega
  · refine ⟨?_, ?_, ?_⟩
    · simp only [readInt8]; split_ifs <;> first | omega | (dsimp only; omega)
    · simp only [readInt16]; split_ifs <;> first | omega | (dsimp only; omega)
    · simp only [readInt32]; split_ifs <;> first | omega | (dsimp only; omega)
  · intro v
    refine ⟨?_, ?_, ?_⟩
    · simp only [writeInt8]; split_ifs <;> first | omega | (dsimp only; omega)
    · simp only [writeInt16]; split_ifs <;> first | omega | (dsimp only; omega)
    · simp only [writeInt32]; split_ifs <;> first | omega | (dsimp only; omega)
  · intro new_size m1 m2 r b' hmax hres
    by_cases h0 : new_size = 0
    · simp [resize, h0] at hres
      rw [← hres.2]; exact hinv
    by_cases hne : new_size = b.blockLength
    · simp [resize, h0, ← hne] at hres
      rw [← hres.2]; omega
    cases m1 with
    | none =>
      simp [resize, h0, hne] at hres
      rw [← hres.2]; exact hinv
    | some buf =>
      cases m2 with
      | none => simp [resize, h0, hne] at hres
      | some d =>
        rw [resize_eq b new_size buf d h0 hne] at hres
        have hb := (Prod.mk.inj (Option.some.inj hres)).2
        rw [← hb]
        have hm : new_size % 65536 = new_size := by omega
        show (if b.cur ≥ new_size % 65536 then _ else b.cur) ≤ new_size % 65536
        rw [hm]
        split_ifs <;> omega
  · intro dest hle
    rw [(seekBack_spec b dest).1 hle hL]
    split_ifs <;> first | omega | (dsimp only; omega)
  · intro dest hle
    rw [(seekBack_spec b dest).2.1 hle hC]
    split_ifs <;> first | omega | (dsimp only; omega)

/-- C6 (block cursor invariant), evaluation at the failing inputs.  The S1
block satisfies `0 ≤ cur ≤ length` (cursor 0, length 8).  `seekBack(1, true)`
and `seekBack(9, false)` both leave the cursor at 65535, beyond the length 8;
`resize(65536)` with successful allocations leaves length 0 and cursor 65535. -/
theorem cursor_invariant_broken :
    s1Block.WF ∧ s1Block.CursorInv ∧
    (s1Block.seekBack 1 true).2.cur = 65535 ∧ ¬ (s1Block.seekBack 1 true).2.CursorInv ∧
    (s1Block.seekBack 9 false).2.cur = 65535 ∧ ¬ (s1Block.seekBack 9 false).2.CursorInv ∧
    (s1Block.resize 65536 (some (List.replicate 65536 0)) (some (List.replicate 65536 0))).map
      (fun r => (r.2.blockLength, r.2.cur, decide r.2.CursorInv)) = some (0, 65535, false) := by
  refine ⟨by decide, by decide, by decide, by decide, by decide, by decide, ?_⟩
  rw [resize_eq _ _ _ _ (by decide) (by decide)]
  decide

/-! ### The value returned by resize -/

/-- C10 (resize reports success truthfully), evaluation at the failing input.
Growing the 8-byte S1 block to 16 bytes with both allocations succeeding
performs the resize (length 16, old bytes kept, new bytes zero) and returns
`false`, the value that also reports a failed allocation. -/
theorem resize_returns_false_on_success :
    s1Block.resize 16 (some (List.replicate 16 0xAA)) (some (List.replicate 16 0xBB))
      = some (false, ⟨16, 1, 0, [1, 2, 3, 4, 5, 6, 7, 8, 0, 0, 0, 0, 0, 0, 0, 0]⟩) ∧
    s1Block.resize 16 none (some (List.replicate 16 0xBB)) = some (false, s1Block) := by
  decide

end SqrlBlock

namespace SqrlUrlEncode

/-! ### Agreement with the reference encoder on text -/

/-- The table `hex` holds the uppercase hexadecimal digits. -/
theorem hexAt_eq_ref (n : Nat) (h : n < 16) : hexAt (n : Int) = some (hexDigitRef n) := by
  have key : ∀ m, m < 16 → hex.get? m = some (hexDigitRef m) := by decide
  simp only [hexAt, Int.toNat_ofNat, Int.ofNat_nonneg, if_true]
  exact key n h

/-- A byte below `0x80`, or any byte when `char` is unsigned, is its own `char` value. -/
theorem charVal_eq (cs : Bool) (c : Nat) (h : cs = true → c < 128) :
    charVal cs c = (c : Int) := by
  unfold charVal
  rw [if_neg]
  rintro ⟨h1, h2⟩
  have := h h1
  omega

/-- One round of the loop of `encode` on a non-NUL byte with a non-negative
`char` value appends the reference encoding of that byte. -/
theorem encodeLoop_cons (cs : Bool) (c : Nat) (p : List Nat) (h0 : 0 < c) (h256 : c < 256)
    (hs : cs = true → c < 128) :
    encodeLoop cs (c :: p) = (encodeLoop cs p).map fun out => encodeByteRef c ++ out := by
  have hv := charVal_eq cs c hs
  have e1 : ((c : Int) >>> 4) = ((c / 16 : Nat) : Int) := by
    show ((c >>> 4 : Nat) : Int) = _
    rw [Nat.shiftRight_eq_div_pow]
  have e2 : c &&& 15 = c % 16 := Nat.and_pow_two_sub_one_eq_mod c 4
  have k1 := hexAt_eq_ref (c / 16) (by omega)
  have k2 := hexAt_eq_ref (c % 16) (by omega)
  simp only [encodeLoop, hv, e1, e2, k1, k2]
  rw [if_neg (by omega)]
  by_cases h32 : c = 32
  · subst h32
    simp [encodeByteRef, isAlnumRef]
  · rw [if_neg (by omega)]
    by_cases ha : (48 ≤ c ∧ c ≤ 57) ∨ (65 ≤ c ∧ c ≤ 90) ∨ (97 ≤ c ∧ c ≤ 122)
    · have hb : isAlnumRef c = true := by
        simp only [isAlnumRef, Bool.or_eq_true, Bool.and_eq_true, decide_eq_true_eq]
        omega
      rw [if_pos (by omega)]
      simp [encodeByteRef, hb]
    · have hb : isAlnumRef c = false := by
        rw [← Bool.not_eq_true]
        simp only [isAlnumRef, Bool.or_eq_true, Bool.and_eq_true, decide_eq_true_eq]
        omega
      rw [if_neg (by omega)]
      simp [encodeByteRef, hb, h32]

/-- On NUL-free memory that ends with the input, whose bytes all have a
non-negative `char` value, the loop of `encode` produces the reference
encoding of the whole input. -/
theorem encodeLoop_eq_ref (cs : Bool) (src : List Nat)
    (h : ∀ c ∈ src, 0 < c ∧ c < 256 ∧ (cs = true → c < 128)) :
    encodeLoop cs src = some (encodeRef src src.length) := by
  induction src with
  | nil => rfl
  | cons c p ih =>
    have hc := h c (List.mem_cons_self c p)
    rw [encodeLoop_cons cs c p hc.1 hc.2.1 hc.2.2,
      ih (fun x hx => h x (List.mem_cons_of_mem c hx))]
    simp [encodeRef]

/-- Where the first NUL of the memory sits exactly at `src_len` and no byte has a
negative `char` value, `encode` agrees with the reference definition. -/
theorem encode_eq_ref (cs : Bool) (src : List Nat)
    (h : ∀ c ∈ src, 0 < c ∧ c < 256 ∧ (cs = true → c < 128)) :
    encode cs none src src.length false = some (encodeRef src src.length) := by
  simp [encode, startDest, encodeLoop_eq_ref cs src h]

/-! ### NUL termination instead of `src_len` -/

/-- C3 (URL encode/decode inverse), evaluation at the failing inputs.  Whatever
the signedness of `char`: on the one-byte sequence `00` the loop of `encode`
stops at once, the encoding is empty and `decode(encode(s))` is the empty
sequence, not `00`; on `41 00 42` the encoding is `"A"` and the round trip
returns `41` only.  Where `char` is signed, the byte `FF` makes `encode` read
`hex[-1]`, outside the table, so no round trip is obtained for it either. -/
theorem decode_encode_drops_nul :
    (∀ charSigned, encode charSigned none [0x00] 1 false = some [] ∧
      decodeEncode charSigned [0x00] = some [] ∧
      decodeEncode charSigned [0x41, 0x00, 0x42] = some [0x41]) ∧
    decodeEncode true [0xFF] = none := by
  refine ⟨fun charSigned => ?_, by decide⟩
  cases charSigned <;> decide

/-- C4 (URL encode equals its reference definition), evaluation at the failing
inputs.  The reference encoding of the three bytes `00 FF 20` is `"%00%FF+"`,
while `encode` with `src_len = 3` returns the empty string because the first
byte is NUL.  On the memory `61 62 63 00` with `src_len = 2` the reference
encoding is `"ab"`, while `encode` returns `"abc"`: the loop runs to the first
NUL byte and never looks at `src_len`. -/
theorem encode_ignores_src_len (charSigned : Bool) :
    encodeRef [0x00, 0xFF, 0x20] 3 = [37, 48, 48, 37, 70, 70, 43] ∧
    encode charSigned none [0x00, 0xFF, 0x20] 3 false = some [] ∧
    encodeRef [0x61, 0x62, 0x63, 0x00] 2 = [0x61, 0x62] ∧
    encode charSigned none [0x61, 0x62, 0x63, 0x00] 2 false = some [0x61, 0x62, 0x63] := by
  cases charSigned <;> decide

end SqrlUrlEncode

namespace SqrlBlock

/-! ### Creation -/

/-- What a successful `init` establishes: type, length, cursor 0, and as data
the bytes of the allocation exactly as `malloc` returned them. -/
theorem init_eq (b : SqrlBlock) (t n : Nat) (mem : List Nat) :
    b.init t n (some mem) = (true, ⟨n, t, 0, mem⟩) ∧
    b.init t n none = (false, ⟨0, 0, 0, []⟩) :=
  ⟨rfl, rfl⟩

/-- C11 (block creation postcondition), evaluation at the failing input.  When
`malloc(4)` returns the bytes `DE AD BE EF`, `init(1, 4)` succeeds with type 1,
length 4, cursor 0, and the data bytes are `DE AD BE EF`, not zeros: reading the
freshly created block with `readInt32` gives `0xEFBEADDE`. -/
theorem init_does_not_zero :
    s1Block.init 1 4 (some dirtyAllocation) = (true, ⟨4, 1, 0, [0xDE, 0xAD, 0xBE, 0xEF]⟩) ∧
    (s1Block.init 1 4 (some dirtyAllocation)).2.readInt32.1 = 0xEFBEADDE := by
  decide

end SqrlBlock

namespace SqrlUrlEncode

/-! ### Malformed escapes -/

/-- C20 (decode of a malformed escape), evaluation at the failing inputs.  The
text `%41%zz` decodes to `41 41` where `char` is unsigned (the byte of the
preceding escape is emitted again) and to `41 FF` where `char` is signed; the
text `%zz` alone decodes to `FF` where `char` is signed, and `%4z` decodes to
`40` where it is unsigned.  In none of these cases is the byte contributed by
the malformed escape `00`. -/
theorem decode_malformed_escape :
    decode false none [37, 52, 49, 37, 122, 122] 6 false = [0x41, 0x41] ∧
    decode true none [37, 52, 49, 37, 122, 122] 6 false = [0x41, 0xFF] ∧
    decode true none [37, 122, 122] 3 false = [0xFF] ∧
    decode false none [37, 52, 122] 3 false = [0x40] := by
  decide

end SqrlUrlEncode

/-! ## Auxiliary facts about the key table -/

namespace SqrlUser

theorem uniqueLabels_iff (l : List Nat) :
    UniqueLabels l ↔ ∀ id, id ≠ 0 → l.count id ≤ 1 := by
  constructor
  · intro h id hid
    by_cases hm : id ∈ l
    · exact h id hm hid
    · rw [List.count_eq_zero.2 hm]; exact Nat.zero_le 1
  · intro h id _ hid
    exact h id hid

theorem scanLast_of_not_mem (v : Nat) (l : List Nat) (i : Nat) (r : Int) (h : v ∉ l) :
    scanLast v l i r = r := by
  induction l generalizing i r with
  | nil => rfl
  | cons x xs ih =>
    have hx : x ≠ v := fun e => h (e ▸ List.mem_cons_self x xs)
    have hxs : v ∉ xs := fun e => h (List.mem_cons_of_mem x e)
    simp only [scanLast, if_neg hx]
    exact ih (i + 1) r hxs

theorem scanLast_of_mem (v : Nat) (l : List Nat) (i : Nat) (r : Int) (h : v ∈ l) :
    ∃ j, j < l.length ∧ scanLast v l i r = ((i + j : Nat) : Int) ∧ l[j]? = some v ∧
      ∀ j', j < j' → l[j']? ≠ some v := by
  induction l generalizing i r with
  | nil => exact absurd h (List.not_mem_nil v)
  | cons x xs ih =>
    simp only [scanLast]
    by_cases hxs : v ∈ xs
    · obtain ⟨j, hj, he, hg, hlast⟩ := ih (i + 1) (if x = v then (i : Int) else r) hxs
      refine ⟨j + 1, by simp; omega, ?_, by simpa using hg, ?_⟩
      · rw [he]; congr 1; omega
      · intro j' hj'
        obtain ⟨m, rfl⟩ : ∃ m, j' = m + 1 := ⟨j' - 1, by omega⟩
        simpa using hlast m (by omega)
    · have hx : x = v := by
        rcases List.mem_cons.1 h with e | e
        · exact e.symm
        · exact absurd e hxs
      rw [scanLast_of_not_mem v xs (i + 1) _ hxs, if_pos hx]
      refine ⟨0, by simp, by simp, by simp [hx], ?_⟩
      intro j' hj'
      obtain ⟨m, rfl⟩ : ∃ m, j' = m + 1 := ⟨j' - 1, by omega⟩
      intro e
      exact hxs (List.getElem?_mem (by simpa using e))

theorem scanFirst_of_not_mem (v : Nat) (l : List Nat) (i : Nat) (h : v ∉ l) :
    scanFirst v l i = -1 := by
  induction l generalizing i with
  | nil => rfl
  | cons x xs ih =>
    have hx : x ≠ v := fun e => h (e ▸ List.mem_cons_self x xs)
    have hxs : v ∉ xs := fun e => h (List.mem_cons_of_mem x e)
    simp only [scanFirst, if_neg hx]
    exact ih (i + 1) hxs

theorem scanFirst_of_mem (v : Nat) (l : List Nat) (i : Nat) (h : v ∈ l) :
    scanFirst v l i = ((i + l.indexOf v : Nat) : Int) := by
  induction l generalizing i with
  | nil => exact absurd h (List.not_mem_nil v)
  | cons x xs ih =>
    simp only [scanFirst]
    by_cases hx : x = v
    · subst hx; simp
    · have hxs : v ∈ xs := by
        rcases List.mem_cons.1 h with e | e
        · exact absurd e.symm hx
        · exact e
      rw [if_neg hx, ih (i + 1) hxs, List.indexOf_cons_ne _ hx]
      congr 1; omega

end SqrlUser

namespace SqrlUser

/-- The result of `newKey` for a selected slot `j` and new lookup array. -/
theorem newKey_of_scan (u : SqrlUser) (id : Nat) (off emp : Int)
    (ho : scanLast id u.lookup 0 (-1) = off) (he : scanLast 0 u.lookup 0 (-1) = emp) :
    newKey u id =
      (if (if off = -1 ∧ emp > -1 then emp else off) ≠ 0 then
        match u.keys with
        | none => none
        | some k =>
          if 0 ≤ (if off = -1 ∧ emp > -1 then emp else off) ∧
              (if off = -1 ∧ emp > -1 then emp else off).toNat < k.keys.length then
            some (some (if off = -1 ∧ emp > -1 then emp else off).toNat,
              { u with
                lookup := if off = -1 ∧ emp > -1 then u.lookup.set emp.toNat id else u.lookup
                keys := some { k with
                  keys := k.keys.set (if off = -1 ∧ emp > -1 then emp else off).toNat zeroKey } })
          else none
      else some (none,
        { u with
          lookup := if off = -1 ∧ emp > -1 then u.lookup.set emp.toNat id else u.lookup })) := by
  subst ho he
  rfl

/-- The three cases of `newKey`: the table is full of other identifiers, or a
slot `j` is selected: the last slot labelled `id`, or else the last free slot,
which is then labelled `id`. -/
theorem newKey_spec (u : SqrlUser) (id : Nat) :
    (id ∉ u.lookup ∧ 0 ∉ u.lookup ∧ newKey u id = none) ∨
    ∃ j lookup', j < u.lookup.length ∧
      ((u.lookup[j]? = some id ∧ (∀ j', j < j' → u.lookup[j']? ≠ some id) ∧
          lookup' = u.lookup) ∨
        (id ∉ u.lookup ∧ u.lookup[j]? = some 0 ∧ (∀ j', j < j' → u.lookup[j']? ≠ some 0) ∧
          lookup' = u.lookup.set j id)) ∧
      newKey u id =
        if j = 0 then some (none, { u with lookup := lookup' })
        else
          match u.keys with
          | none => none
          | some k =>
            if j < k.keys.length then
              some (some j,
                { u with lookup := lookup'
                         keys := some { k with keys := k.keys.set j zeroKey } })
            else none := by
  by_cases hid : id ∈ u.lookup
  · obtain ⟨j, hj, he, hg, hlast⟩ := scanLast_of_mem id u.lookup 0 (-1) hid
    refine Or.inr ⟨j, u.lookup, hj, Or.inl ⟨hg, hlast, rfl⟩, ?_⟩
    rw [newKey_of_scan u id _ _ he rfl]
    have h1 : ¬ (((0 + j : Nat) : Int) = -1 ∧ scanLast 0 u.lookup 0 (-1) > -1) := by omega
    simp only [h1, if_false]
    by_cases hj0 : j = 0
    · subst hj0; simp
    · have h2 : ((0 + j : Nat) : Int) ≠ 0 := by omega
      have h3 : (0 : Int) ≤ ((0 + j : Nat) : Int) := by omega
      simp [h2, h3, hj0]
  · by_cases hz : 0 ∈ u.lookup
    · obtain ⟨j, hj, he, hg, hlast⟩ := scanLast_of_mem 0 u.lookup 0 (-1) hz
      refine Or.inr ⟨j, u.lookup.set j id, hj, Or.inr ⟨hid, hg, hlast, rfl⟩, ?_⟩
      rw [newKey_of_scan u id _ _ (scanLast_of_not_mem id u.lookup 0 (-1) hid) he]
      have h1 : ((-1 : Int) = -1 ∧ ((0 + j : Nat) : Int) > -1) := ⟨rfl, by omega⟩
      simp only [h1, if_true]
      by_cases hj0 : j = 0
      · subst hj0; simp
      · have h2 : ((0 + j : Nat) : Int) ≠ 0 := by omega
        have h3 : (0 : Int) ≤ ((0 + j : Nat) : Int) := by omega
        simp [h2, h3, hj0]
    · refine Or.inl ⟨hid, hz, ?_⟩
      rw [newKey_of_scan u id _ _ (scanLast_of_not_mem id u.lookup 0 (-1) hid)
        (scanLast_of_not_mem 0 u.lookup 0 (-1) hz)]
      cases hk : u.keys <;> simp

end SqrlUser

namespace SqrlUser

/-- Labelling a free slot with an identifier that labels no slot keeps the
labels unique. -/
theorem uniqueLabels_set_new (l : List Nat) (j id : Nat) (hj : j < l.length) (hid : id ∉ l)
    (h0 : l[j]? = some 0) (h : UniqueLabels l) : UniqueLabels (l.set j id) := by
  rw [uniqueLabels_iff] at h ⊢
  intro id' hid'
  have hg : l[j] = 0 := by
    have := List.getElem?_eq_getElem hj
    rw [this] at h0
    exact Option.some.inj h0
  rw [List.count_set id id' l j hj, hg]
  have h1 : ((0 : Nat) == id') = false := by
    simp only [beq_eq_false_iff_ne, ne_eq]
    exact fun e => hid' e.symm
  simp only [h1, Bool.false_eq_true, if_false, Nat.sub_zero]
  by_cases he : id = id'
  · subst he
    simp [List.count_eq_zero.2 hid]
  · have h2 : (id == id') = false := by simpa using he
    simp only [h2, Bool.false_eq_true, if_false, Nat.add_zero]
    exact h id' hid'

/-- Freeing a slot keeps the labels unique. -/
theorem uniqueLabels_set_zero (l : List Nat) (j : Nat) (h : UniqueLabels l) :
    UniqueLabels (l.set j 0) := by
  by_cases hj : j < l.length
  · rw [uniqueLabels_iff] at h ⊢
    intro id' hid'
    rw [List.count_set 0 id' l j hj]
    have h1 : ((0 : Nat) == id') = false := by
      simp only [beq_eq_false_iff_ne, ne_eq]
      exact fun e => hid' e.symm
    simp only [h1, Bool.false_eq_true, if_false, Nat.add_zero]
    exact le_trans (Nat.sub_le _ _) (h id' hid')
  · rw [List.set_eq_of_length_le (by omega)]
    exact h

/-- With unique labels, a slot labelled `id` is the first slot labelled `id`. -/
theorem indexOf_eq_of_unique (l : List Nat) (j id : Nat) (h : UniqueLabels l) (hid : id ≠ 0)
    (hj : l[j]? = some id) : l.indexOf id = j := by
  induction l generalizing j with
  | nil => simp at hj
  | cons x xs ih =>
    rw [uniqueLabels_iff] at h
    have hc := h id hid
    cases j with
    | zero =>
      have hx : x = id := by simpa using hj
      subst hx
      simp
    | succ m =>
      have hm : xs[m]? = some id := by simpa using hj
      have hmem : id ∈ xs := List.getElem?_mem hm
      have hx : x ≠ id := by
        intro e
        subst e
        have : 0 < List.count x xs := List.count_pos_iff.2 hmem
        simp at hc
        omega
      have hu : UniqueLabels xs := by
        rw [uniqueLabels_iff]
        intro id' hid'
        have := h id' hid'
        rw [List.count_cons] at this
        omega
      rw [List.indexOf_cons_ne _ hx, ih m hu hm]

/-- Inversion of a `newKey` call that returns: the selected slot, the new
lookup array and the new state. -/
theorem newKey_some (u : SqrlUser) (id : Nat) (p : Option Nat) (u' : SqrlUser)
    (h : newKey u id = some (p, u')) :
    ∃ j lookup', j < u.lookup.length ∧
      ((u.lookup[j]? = some id ∧ lookup' = u.lookup) ∨
        (id ∉ u.lookup ∧ u.lookup[j]? = some 0 ∧ lookup' = u.lookup.set j id)) ∧
      ((j = 0 ∧ p = none ∧ u' = { u with lookup := lookup' }) ∨
        (j ≠ 0 ∧ p = some j ∧ ∃ k, u.keys = some k ∧ j < k.keys.length ∧
          u' = { u with lookup := lookup'
                        keys := some { k with keys := k.keys.set j zeroKey } })) := by
  rcases newKey_spec u id with ⟨-, -, hn⟩ | ⟨j, lookup', hj, hsel, he⟩
  · rw [hn] at h; exact absurd h (by simp)
  · refine ⟨j, lookup', hj, ?_, ?_⟩
    · rcases hsel with ⟨a, -, c⟩ | ⟨a, b, -, d⟩
      · exact Or.inl ⟨a, c⟩
      · exact Or.inr ⟨a, b, d⟩
    · rw [he] at h
      by_cases hj0 : j = 0
      · rw [if_pos hj0] at h
        have := Option.some.inj h
        exact Or.inl ⟨hj0, (Prod.mk.inj this).1.symm, (Prod.mk.inj this).2.symm⟩
      · rw [if_neg hj0] at h
        cases hk : u.keys with
        | none => rw [hk] at h; exact absurd h (by simp)
        | some k =>
          rw [hk] at h
          by_cases hlt : j < k.keys.length
          · simp only [hlt, if_true] at h
            have := Option.some.inj h
            exact Or.inr ⟨hj0, (Prod.mk.inj this).1.symm, k, rfl, hlt,
              (Prod.mk.inj this).2.symm⟩
          · simp only [hlt, if_false] at h
            exact absurd h (by simp)

/-- The lookup array after `newKey`: `newKey` keeps the labels unique. -/
theorem newKey_unique (u : SqrlUser) (id : Nat) (r : Option Nat × SqrlUser)
    (hu : UniqueLabels u.lookup) (h : newKey u id = some r) : UniqueLabels r.2.lookup := by
  obtain ⟨p, u'⟩ := r
  obtain ⟨j, lookup', hj, hsel, hres⟩ := newKey_some u id p u' h
  have hl : u'.lookup = lookup' := by
    rcases hres with ⟨-, -, e⟩ | ⟨-, -, k, -, -, e⟩ <;> rw [e]
  show UniqueLabels u'.lookup
  rw [hl]
  rcases hsel with ⟨-, e⟩ | ⟨hid, h0, e⟩
  · rw [e]; exact hu
  · rw [e]; exact uniqueLabels_set_new _ _ _ hj hid h0 hu

/-- Inversion of a `removeKey` call that returns: nothing changes, or the last
slot labelled `key_type` is zeroed and freed. -/
theorem removeKey_some (u : SqrlUser) (id : Nat) (u' : SqrlUser)
    (h : removeKey u id = some u') :
    (id ∉ u.lookup ∧ u' = u) ∨
    ∃ j k, j < u.lookup.length ∧ u.lookup[j]? = some id ∧ u.keys = some k ∧
      j < k.keys.length ∧
      u' = { u with keys := some { k with keys := k.keys.set j zeroKey }
                    lookup := u.lookup.set j 0 } := by
  unfold removeKey at h
  by_cases hid : id ∈ u.lookup
  · obtain ⟨j, hj, he, hg, -⟩ := scanLast_of_mem id u.lookup 0 (-1) hid
    rw [he] at h
    have h1 : ((0 + j : Nat) : Int) > -1 := by omega
    simp only [h1, if_true, Int.toNat_ofNat] at h
    cases hk : u.keys with
    | none => rw [hk] at h; exact absurd h (by simp)
    | some k =>
      rw [hk] at h
      simp only [Nat.zero_add] at h
      by_cases hlt : j < k.keys.length
      · simp only [hlt, if_true] at h
        exact Or.inr ⟨j, k, hj, hg, rfl, hlt, (Option.some.inj h).symm⟩
      · simp only [hlt, if_false] at h
        exact absurd h (by simp)
  · rw [scanLast_of_not_mem id u.lookup 0 (-1) hid] at h
    simp only [gt_iff_lt, lt_self_iff_false, if_false] at h
    exact Or.inl ⟨hid, (Option.some.inj h).symm⟩

end SqrlUser

namespace SqrlUser

/-! ### newKey and slot 0 -/

/-- C13 (newKey returns null exactly when the table is full), evaluation at the
failing inputs.  With slot 0 the only free slot, `newKey(7)` labels slot 0 with
7 and returns `NULL` although a free slot existed.  With the rescue code (9)
labelled in slot 0, `newKey(9)` returns `NULL` although a slot is labelled 9.
With all 16 slots held by other identifiers, `offset` stays -1, the test
`if( offset )` succeeds and `keys->keys[-1]` is zeroed: there is no `NULL`
result. -/
theorem newKey_slot_zero :
    (newKey slotZeroFreeUser 7).map (fun r => (r.1, r.2.lookup, r.2.keys))
      = some (none, 7 :: (List.range 15).map (fun i => 101 + i), slotZeroFreeUser.keys) ∧
    (newKey slotZeroHeldUser 9).map (fun r => (r.1, r.2.lookup, r.2.keys))
      = some (none, slotZeroHeldUser.lookup, slotZeroHeldUser.keys) ∧
    newKey fullTableUser 7 = none := by
  decide

/-! ### The retry loop of key -/

/-- C12 (key succeeds as soon as a load cycle populates the slot), evaluation
at the failing input.  On a user without master key whose password flow
populates the master-key slot on its third call, `key(action, KEY_MK)` calls the
flow three times and returns `NULL`, although the slot labelled `KEY_MK` is
populated when it returns: after the third call `loop` is 3 and the function
leaves without looking at the table again.  When the second call populates the
slot, the pointer to slot 15 is returned after two calls. -/
theorem key_ignores_third_load :
    freshUser.hasKey demoConfig.KEY_MK = false ∧
    (key lateExternals demoConfig freshUser (some demoAction) demoConfig.KEY_MK).1 = none ∧
    (key lateExternals demoConfig freshUser (some demoAction) demoConfig.KEY_MK).2.2 = 3 ∧
    (key lateExternals demoConfig freshUser (some demoAction) demoConfig.KEY_MK).2.1.hasKey
      demoConfig.KEY_MK = true ∧
    (key secondExternals demoConfig freshUser (some demoAction) demoConfig.KEY_MK).1 = some 15 ∧
    (key secondExternals demoConfig freshUser (some demoAction) demoConfig.KEY_MK).2.2 = 2 := by
  decide

end SqrlUser

namespace SqrlUser

/-! ### hintUnlock -/

/-- C18 (hintUnlock always leaves the user un-hint-locked with wiped scratch).
For a hint-locked user (`hint_iterations > 0`) whose key region is allocated
with a scratch area of `KEY_SCRATCH_SIZE` bytes, an action bound to it and a
non-null hint of non-zero length, whatever `genKey` and `doCrypt` do:
`hintUnlock` returns, `hint_iterations` is 0, every byte of the scratch area is
zero, and if `genKey` or `doCrypt` failed every byte of the plain-text region
(all key slots, the password and its length) is zero. -/
theorem hintUnlock_wipes (ext : Externals) (cfg : Config) (u : SqrlUser) (a : SqrlAction)
    (hint : List Nat) (length : Nat) (k : Sqrl_Keys) (hk : u.keys = some k)
    (hs : k.scratch.length = cfg.KEY_SCRATCH_SIZE) (hl : 0 < u.hint_iterations)
    (hb : a.user = u.addr) (hlen : 0 < length) :
    ∃ u' k', hintUnlock ext cfg u (some a) (some hint) length = some u' ∧
      u'.hint_iterations = 0 ∧ u'.keys = some k' ∧
      k'.scratch.length = cfg.KEY_SCRATCH_SIZE ∧ (∀ b ∈ k'.scratch, b = 0) ∧
      ((ext.genKey u hint length = false ∨ (ext.doCrypt u).1 = false) →
        (∀ s ∈ k'.keys, ∀ b ∈ s, b = 0) ∧ k'.password_len = 0 ∧ ∀ b ∈ k'.password, b = 0) := by
  have hlock : u.isHintLocked = true := by
    unfold isHintLocked
    rw [if_neg (by omega)]
  have hz : ∀ q : Sqrl_Keys, (∀ s ∈ (zeroPlainText q).keys, ∀ b ∈ s, b = 0) ∧
      (zeroPlainText q).password_len = 0 ∧ ∀ b ∈ (zeroPlainText q).password, b = 0 := by
    intro q
    refine ⟨?_, rfl, ?_⟩
    · intro s hs b hb
      simp only [zeroPlainText, List.mem_map] at hs
      obtain ⟨_, -, rfl⟩ := hs
      exact List.eq_of_mem_replicate hb
    · intro b hb
      simp only [zeroPlainText, List.mem_map] at hb
      obtain ⟨_, -, rfl⟩ := hb
      rfl
  have hsz : ∀ q : Sqrl_Keys, (zeroPlainText q).scratch = q.scratch := fun _ => rfl
  have hzero : ∀ sc : List Nat, sc.length = cfg.KEY_SCRATCH_SIZE →
      ∀ b ∈ memset (memcpy sc 32 zeroKey 0 SQRL_KEY_SIZE) 0 cfg.KEY_SCRATCH_SIZE, b = 0 := by
    intro sc hsc b hb
    simp only [memset, List.mem_map, List.mem_range, length_memcpy] at hb
    obtain ⟨i, hi, rfl⟩ := hb
    rw [if_pos (by omega)]
  simp only [hintUnlock, hb, hlock, hk, ne_eq, not_true_eq_false, Bool.not_true,
    Bool.false_eq_true, or_self, if_false, show ¬ length = 0 by omega]
  by_cases hg : ext.genKey u hint length = true
  · by_cases hd : (ext.doCrypt u).1 = true
    · refine ⟨_, _, rfl, rfl, rfl, ?_, ?_, ?_⟩
      · simp [hg, hd, hs]
      · simp only [hg, hd, Bool.not_true, Bool.false_eq_true, if_false]
        exact hzero _ hs
      · intro hf
        rcases hf with hf | hf
        · rw [hg] at hf; exact absurd hf (by simp)
        · rw [hd] at hf; exact absurd hf (by simp)
    · have hd' : (ext.doCrypt u).1 = false := by simpa using hd
      refine ⟨_, _, rfl, rfl, rfl, ?_, ?_, ?_⟩
      · simp [hg, hd', hsz, hs]
      · simp only [hg, hd', Bool.not_true, Bool.false_eq_true, if_false, Bool.not_false,
          if_true, hsz]
        exact hzero _ hs
      · intro _
        simp only [hg, hd', Bool.not_true, Bool.false_eq_true, if_false, Bool.not_false,
          if_true]
        exact hz _
  · have hg' : ext.genKey u hint length = false := by simpa using hg
    refine ⟨_, _, rfl, rfl, rfl, ?_, ?_, ?_⟩
    · simp [hg', hsz, hs]
    · simp only [hg', Bool.not_false, if_true, hsz]
      exact hzero _ hs
    · intro _
      simp only [hg', Bool.not_false, if_true]
      exact hz _

end SqrlUser

namespace SqrlUser

/-! ### The user registry -/

/-- A registry without a user of the given unique id: `find` returns null and
changes nothing. -/
theorem find_none (r : Registry) (uid : Option (List Nat))
    (h : ∀ o ∈ r.list, o.uniqueIdMatches uid = false) : find r uid = (none, r) := by
  unfold find
  have : r.list.find? (fun u => u.uniqueIdMatches uid) = none := by
    rw [List.find?_eq_none]
    intro o ho
    simp [h o ho]
  rw [this]

/-- C19 (reference-count safety, sequential runs).  For every registry and every
new object: after `create` the new user is the head of the registry with count
1; after `create`, `hold`, `release` the registry is the same (the user is
registered with count 1) and nothing was deleted; a second `release` removes
exactly that node, leaving the other entries and their order as they were, and
deletes the user once; and after `create`, `release`, `find` with the user's
unique id returns null when no other registered user matches that id. -/
theorem refcount_safety (cfg : Config) (r : Registry) (fresh : SqrlUser) :
    create cfg r fresh =
      { list := { fresh with options := defaultOptions cfg, referenceCount := 1 } :: r.list
        deleted := r.deleted } ∧
    release (hold (create cfg r fresh) fresh.addr) fresh.addr =
      { list := { fresh with options := defaultOptions cfg, referenceCount := 1 } :: r.list
        deleted := r.deleted } ∧
    release (release (hold (create cfg r fresh) fresh.addr) fresh.addr) fresh.addr =
      { list := r.list, deleted := fresh.addr :: r.deleted } ∧
    release (create cfg r fresh) fresh.addr =
      { list := r.list, deleted := fresh.addr :: r.deleted } ∧
    ((∀ o ∈ r.list, o.uniqueIdMatches (some fresh.uniqueId) = false) →
      find (release (create cfg r fresh) fresh.addr) (some fresh.uniqueId) =
        (none, { list := r.list, deleted := fresh.addr :: r.deleted })) := by
  have h1 : release (hold (create cfg r fresh) fresh.addr) fresh.addr =
      { list := { fresh with options := defaultOptions cfg, referenceCount := 1 } :: r.list
        deleted := r.deleted } := by
    simp [release, hold, create, holdList, releaseList]
  have h2 : release (create cfg r fresh) fresh.addr =
      { list := r.list, deleted := fresh.addr :: r.deleted } := by
    simp [release, create, releaseList]
  refine ⟨rfl, h1, ?_, h2, ?_⟩
  · rw [h1]
    simp [release, releaseList]
  · intro h
    rw [h2]
    exact find_none _ _ h

end SqrlUser

namespace SqrlUser

/-! ### setRescueCode and getRescueCode -/

/-- The two tests at the start of `setRescueCode` pass exactly for the accepted
shape. -/
theorem shape_iff (rc : List Nat) :
    IsRescueCodeShape rc ↔
      ¬ SqrlUrlEncode.strlen rc ≠ 24 ∧
        ¬ (rc.take SQRL_RESCUE_CODE_LENGTH).any (fun c => c < 48 || c > 57) = true := by
  unfold IsRescueCodeShape SQRL_RESCUE_CODE_LENGTH
  simp only [ne_eq, not_not, List.any_eq_true, Bool.or_eq_true, decide_eq_true_eq, not_exists,
    not_and, not_or, not_lt]

/-- A string of another shape is rejected and nothing changes. -/
theorem setRescueCode_of_not_shape (cfg : Config) (u : SqrlUser) (rc : List Nat)
    (h : ¬ IsRescueCodeShape rc) : setRescueCode cfg u rc = some (false, u) := by
  rw [shape_iff] at h
  unfold setRescueCode
  by_cases h1 : SqrlUrlEncode.strlen rc ≠ 24
  · rw [if_pos h1]
  · rw [if_neg h1]
    have h2 : (rc.take SQRL_RESCUE_CODE_LENGTH).any (fun c => c < 48 || c > 57) = true := by
      by_contra hc
      exact h ⟨h1, hc⟩
    rw [if_pos h2]

/-- For a string of the accepted shape `setRescueCode` goes on to `newKey` and
the copy. -/
theorem setRescueCode_of_shape (cfg : Config) (u : SqrlUser) (rc : List Nat)
    (h : IsRescueCodeShape rc) :
    setRescueCode cfg u rc =
      (newKey u cfg.KEY_RESCUE_CODE).bind fun r =>
      (slotAt r.2 r.1).bind fun old =>
      (setSlot r.2 r.1 (memcpy old 0 rc 0 SQRL_RESCUE_CODE_LENGTH)).bind fun u =>
        some (true, u) := by
  rw [shape_iff] at h
  unfold setRescueCode
  rw [if_neg h.1, if_neg h.2]

/-- A C string of length 24 fills the first 24 bytes of the buffer that holds
it. -/
theorem strlen_le_length (rc : List Nat) : SqrlUrlEncode.strlen rc ≤ rc.length := by
  unfold SqrlUrlEncode.strlen
  exact (List.takeWhile_sublist _).length_le

/-- Copying 24 bytes of `rc` into a zeroed slot gives those bytes followed by 8
zero bytes. -/
theorem memcpy_zeroKey (rc : List Nat) (h : 24 ≤ rc.length) :
    memcpy zeroKey 0 rc 0 SQRL_RESCUE_CODE_LENGTH = rc.take 24 ++ List.replicate 8 0 := by
  apply List.ext_getElem?
  intro i
  by_cases hi : i < 32
  · have e1 : (memcpy zeroKey 0 rc 0 SQRL_RESCUE_CODE_LENGTH)[i]?
        = some ((memcpy zeroKey 0 rc 0 SQRL_RESCUE_CODE_LENGTH).getD i 0) := by
      rw [List.getD_eq_getElem?_getD,
        List.getElem?_eq_getElem (by simpa [zeroKey, SQRL_KEY_SIZE] using hi)]
      rfl
    rw [e1, getD_memcpy _ _ _ _ _ _ (by simpa [zeroKey, SQRL_KEY_SIZE] using hi)]
    by_cases h24 : i < 24
    · rw [if_pos ⟨Nat.zero_le _, by simpa [SQRL_RESCUE_CODE_LENGTH] using h24⟩]
      rw [List.getElem?_append_left (by simp; omega), List.getElem?_take_of_lt h24]
      simp only [Nat.zero_add, Nat.sub_zero, List.getD_eq_getElem?_getD]
      rw [List.getElem?_eq_getElem (by omega)]
      rfl
    · rw [if_neg (by simp [SQRL_RESCUE_CODE_LENGTH]; omega)]
      rw [List.getElem?_append_right (by simp; omega)]
      simp only [List.length_take, List.getD_eq_getElem?_getD, zeroKey, SQRL_KEY_SIZE]
      rw [List.getElem?_replicate, List.getElem?_replicate]
      simp only [hi, if_true, Option.getD_some]
      rw [if_pos (by omega)]
  · rw [List.getElem?_eq_none (by simp [zeroKey, SQRL_KEY_SIZE]; omega),
      List.getElem?_eq_none (by simp; omega)]

/-- When the string has the accepted shape and `newKey` delivers slot `j`,
`setRescueCode` returns `true` and the slot holds the 24 characters followed by
8 zero bytes. -/
theorem setRescueCode_success (cfg : Config) (u : SqrlUser) (rc : List Nat)
    (h : IsRescueCodeShape rc) (j : Nat) (v : SqrlUser)
    (hn : newKey u cfg.KEY_RESCUE_CODE = some (some j, v)) :
    ∃ k, v.keys = some k ∧ j < k.keys.length ∧
      setRescueCode cfg u rc = some (true,
        { v with keys := some { k with
          keys := k.keys.set j (rc.take 24 ++ List.replicate 8 0) } }) := by
  obtain ⟨j', lookup', hj', -, hres⟩ := newKey_some u _ _ _ hn
  rcases hres with ⟨-, hp, -⟩ | ⟨-, hp, k, hk, hlt, hv⟩
  · exact absurd hp (by simp)
  · have hjj : j = j' := Option.some.inj hp
    subst hjj
    have hlen : 24 ≤ rc.length := h.1 ▸ strlen_le_length rc
    refine ⟨{ k with keys := k.keys.set j zeroKey }, by rw [hv], by simpa using hlt, ?_⟩
    rw [setRescueCode_of_shape cfg u rc h, hn]
    simp only [Option.bind_eq_bind, Option.some_bind]
    have hs : slotAt v (some j) = some zeroKey := by
      rw [hv]
      simp [slotAt, hlt]
    rw [hs]
    simp only [Option.some_bind, memcpy_zeroKey rc hlen]
    rw [hv]
    simp [setSlot, hlt]

end SqrlUser

namespace SqrlUser

/-- The test of `hasKey` is membership in the lookup array. -/
theorem hasKey_iff (u : SqrlUser) (id : Nat) : u.hasKey id = true ↔ id ∈ u.lookup := by
  simp [hasKey]

/-- When a slot is labelled `id`, the loop of `key` returns the first such slot
at once, without calling a load flow. -/
theorem keyLoop_present (ext : Externals) (cfg : Config) (id n : Nat) (u : SqrlUser) (c : Nat)
    (h : id ∈ u.lookup) :
    keyLoop ext cfg id (n + 1) u c = (some (u.lookup.indexOf id), u, c) := by
  unfold keyLoop
  rw [scanFirst_of_mem id u.lookup 0 h]
  have h1 : ((u.lookup.indexOf id : Nat) : Int) > -1 := by omega
  simp only [Nat.zero_add, h1, if_true, Int.toNat_ofNat]

/-- When a slot is labelled `id` and the action is bound to the user, `key`
returns the first such slot, leaves the user unchanged and calls no load
flow. -/
theorem key_present (ext : Externals) (cfg : Config) (u : SqrlUser) (a : SqrlAction) (id : Nat)
    (hb : a.user = u.addr) (h : id ∈ u.lookup) :
    key ext cfg u (some a) id = (some (u.lookup.indexOf id), u, 0) := by
  simp only [key, hb, ne_eq, not_true_eq_false, if_false]
  exact keyLoop_present ext cfg id 2 u 0 h

/-- The slot delivered by `newKey` is labelled with the identifier and holds 32
zero bytes; the address of the user does not change. -/
theorem newKey_label (u : SqrlUser) (id j : Nat) (v : SqrlUser)
    (h : newKey u id = some (some j, v)) :
    v.lookup[j]? = some id ∧ v.addr = u.addr ∧ slotAt v (some j) = some zeroKey := by
  obtain ⟨j', lookup', hj', hsel, hres⟩ := newKey_some u _ _ _ h
  rcases hres with ⟨-, hp, -⟩ | ⟨-, hp, k, hk, hlt, hv⟩
  · exact absurd hp (by simp)
  · have hjj : j = j' := Option.some.inj hp
    subst hjj
    refine ⟨?_, by rw [hv], by rw [hv]; simp [slotAt, hlt]⟩
    rw [hv]
    show lookup'[j]? = some id
    rcases hsel with ⟨a, e⟩ | ⟨-, -, e⟩
    · rw [e]; exact a
    · rw [e]; simp [hj']

/-- The C string held by a buffer that starts with the 24 non-NUL characters
of `rc` followed by a zero byte is the C string `rc`. -/
theorem cstr_slot (rc : List Nat) (h : IsRescueCodeShape rc) :
    cstr (rc.take 24 ++ List.replicate 8 0) = cstr rc ∧ cstr rc = rc.take 24 := by
  have hnz : ∀ c ∈ rc.take 24, (decide (c ≠ 0)) = true := by
    intro c hc
    have := h.2 c hc
    simp only [ne_eq, decide_eq_true_eq]
    omega
  have h2 : cstr rc = rc.take 24 := by
    have hlen : (cstr rc).length = 24 := h.1
    have hp : cstr rc = rc.take (cstr rc).length := by
      unfold cstr
      exact (List.prefix_iff_eq_take.1 (List.takeWhile_prefix _))
    rw [hlen] at hp
    exact hp
  refine ⟨?_, h2⟩
  rw [h2]
  unfold cstr
  rw [List.takeWhile_append_of_pos hnz]
  simp [List.takeWhile]

/-- C17 (rescue code set/get round trip).  For a user whose labels are unique,
a non-zero identifier `KEY_RESCUE_CODE`, an action bound to the user, a string
`rc` of exactly 24 decimal digits and a table that holds the rescue code or has
a free slot: whenever `setRescueCode(rc)` returns `true`, `getRescueCode`
returns a non-null pointer, leaves the user unchanged, and the 32-byte slot it
points to holds the 24 characters of `rc` followed by zero bytes, so the C
string read there is `rc`.  Moreover `setRescueCode(rc)` does return `true`
whenever `newKey` delivers a slot. -/
theorem rescueCode_round_trip (ext : Externals) (cfg : Config) (u : SqrlUser) (a : SqrlAction)
    (rc : List Nat) (hu : UniqueLabels u.lookup) (hid : cfg.KEY_RESCUE_CODE ≠ 0)
    (hb : a.user = u.addr) (hshape : IsRescueCodeShape rc)
    (htable : cfg.KEY_RESCUE_CODE ∈ u.lookup ∨ 0 ∈ u.lookup) :
    (∀ u', setRescueCode cfg u rc = some (true, u') →
      ∃ p, getRescueCode ext cfg u' (some a) = (some p, u') ∧
        slotAt u' (some p) = some (cstr rc ++ List.replicate 8 0) ∧
        (slotAt u' (some p)).map cstr = some (cstr rc)) ∧
    (∀ j v, newKey u cfg.KEY_RESCUE_CODE = some (some j, v) →
      ∃ u', setRescueCode cfg u rc = some (true, u')) := by
  constructor
  · intro u' hset
    rw [setRescueCode_of_shape cfg u rc hshape] at hset
    cases hn : newKey u cfg.KEY_RESCUE_CODE with
    | none => rw [hn] at hset; exact absurd hset (by simp)
    | some r =>
      obtain ⟨p, v⟩ := r
      cases p with
      | none =>
        rw [hn] at hset
        simp [slotAt] at hset
      | some j =>
        obtain ⟨k, hk, hlt, he⟩ := setRescueCode_success cfg u rc hshape j v hn
        rw [setRescueCode_of_shape cfg u rc hshape] at he
        rw [he] at hset
        have hu' : u' = { v with keys := some { k with
            keys := k.keys.set j (rc.take 24 ++ List.replicate 8 0) } } :=
          ((Prod.mk.inj (Option.some.inj hset)).2).symm
        obtain ⟨hlab, haddr, -⟩ := newKey_label u _ j v hn
        have huv : UniqueLabels v.lookup := newKey_unique u _ (some j, v) hu hn
        have hidx : v.lookup.indexOf cfg.KEY_RESCUE_CODE = j :=
          indexOf_eq_of_unique v.lookup j _ huv hid hlab
        have hmem : cfg.KEY_RESCUE_CODE ∈ v.lookup := List.getElem?_mem hlab
        have hl' : u'.lookup = v.lookup := by rw [hu']
        have ha' : a.user = u'.addr := by rw [hu', hb]; exact haddr.symm
        have hslot : slotAt u' (some j) = some (rc.take 24 ++ List.replicate 8 0) := by
          rw [hu']; simp [slotAt, hlt]
        obtain ⟨c1, c2⟩ := cstr_slot rc hshape
        refine ⟨j, ?_, ?_, ?_⟩
        · have hk' : u'.hasKey cfg.KEY_RESCUE_CODE = true := by
            rw [hasKey_iff, hl']; exact hmem
          simp only [getRescueCode, ha', hk', ne_eq, not_true_eq_false, Bool.not_true,
            Bool.false_eq_true, or_self, if_false]
          rw [key_present ext cfg u' a _ ha' (by rw [hl']; exact hmem), hl', hidx]
        · rw [hslot, c2]
        · rw [hslot]
          simp only [Option.map_some', c1]
  · intro j v hn
    obtain ⟨k, -, -, he⟩ := setRescueCode_success cfg u rc hshape j v hn
    exact ⟨_, he⟩

end SqrlUser

namespace SqrlUser

/-- Witness for C18: a hint-locked user, a two-character hint and a failing key
derivation. -/
theorem hintUnlock_wipes_witness :
    ∃ u' k', hintUnlock failingExternals demoConfig hintLockedUser (some demoAction)
        (some [0x31, 0x32]) 2 = some u' ∧
      u'.hint_iterations = 0 ∧ u'.keys = some k' ∧
      k'.scratch.length = demoConfig.KEY_SCRATCH_SIZE ∧ (∀ b ∈ k'.scratch, b = 0) ∧
      ((failingExternals.genKey hintLockedUser [0x31, 0x32] 2 = false ∨
          (failingExternals.doCrypt hintLockedUser).1 = false) →
        (∀ s ∈ k'.keys, ∀ b ∈ s, b = 0) ∧ k'.password_len = 0 ∧ ∀ b ∈ k'.password, b = 0) :=
  hintUnlock_wipes failingExternals demoConfig hintLockedUser demoAction [0x31, 0x32] 2 _ rfl
    (by decide) (by decide) rfl (by decide)

/-- Witness for C19: a registry with one other user and a newcomer with another
unique id. -/
theorem refcount_safety_witness :
    (∀ o ∈ demoRegistry.list, o.uniqueIdMatches (some newcomer.uniqueId) = false) ∧
    find (release (create demoConfig demoRegistry newcomer) newcomer.addr)
        (some newcomer.uniqueId) =
      (none, { list := demoRegistry.list, deleted := newcomer.addr :: demoRegistry.deleted }) :=
  ⟨by decide, (refcount_safety demoConfig demoRegistry newcomer).2.2.2.2 (by decide)⟩

/-- Witness for C17 (scenario S6): on the fresh user, setting
`"123456789012345678901234"` returns `true` and reading it back gives slot 15,
which holds the 24 characters followed by 8 zero bytes. -/
theorem rescueCode_round_trip_witness :
    UniqueLabels freshUser.lookup ∧ IsRescueCodeShape s6RescueCode ∧
    (∃ u', setRescueCode demoConfig freshUser s6RescueCode = some (true, u')) ∧
    ∀ u', setRescueCode demoConfig freshUser s6RescueCode = some (true, u') →
      ∃ p, getRescueCode quietExternals demoConfig u' (some demoAction) = (some p, u') ∧
        slotAt u' (some p) = some (cstr s6RescueCode ++ List.replicate 8 0) ∧
        (slotAt u' (some p)).map cstr = some (cstr s6RescueCode) :=
  ⟨by decide, by decide,
    (rescueCode_round_trip quietExternals demoConfig freshUser demoAction s6RescueCode
      (by decide) (by decide) rfl (by decide) (by decide)).2 15
      ((newKey freshUser demoConfig.KEY_RESCUE_CODE).getD (none, freshUser)).2 (by decide),
    (rescueCode_round_trip quietExternals demoConfig freshUser demoAction s6RescueCode
      (by decide) (by decide) rfl (by decide) (by decide)).1⟩

/-- C16 (setRescueCode validates shape), as amended.  For every user and every
string `rc`: if `rc` is not exactly 24 decimal digits, `setRescueCode` returns
`false` and the user (labels and key bytes included) is unchanged; it returns
`true` only for strings of exactly 24 decimal digits; whenever it returns
`false` the user is unchanged; and for a string of exactly 24 decimal digits it
does return `true` whenever `newKey( KEY_RESCUE_CODE )` delivers a slot. -/
theorem setRescueCode_validates (cfg : Config) (u : SqrlUser) (rc : List Nat) :
    (¬ IsRescueCodeShape rc → setRescueCode cfg u rc = some (false, u)) ∧
    (∀ u', setRescueCode cfg u rc = some (true, u') → IsRescueCodeShape rc) ∧
    (∀ u', setRescueCode cfg u rc = some (false, u') → u' = u) ∧
    (IsRescueCodeShape rc → ∀ j v, newKey u cfg.KEY_RESCUE_CODE = some (some j, v) →
      ∃ u', setRescueCode cfg u rc = some (true, u')) := by
  refine ⟨setRescueCode_of_not_shape cfg u rc, ?_, ?_, ?_⟩
  · intro u' h
    by_contra hs
    rw [setRescueCode_of_not_shape cfg u rc hs] at h
    exact absurd (Prod.mk.inj (Option.some.inj h)).1 (by decide)
  · intro u' h
    by_cases hs : IsRescueCodeShape rc
    · rw [setRescueCode_of_shape cfg u rc hs] at h
      simp only [Option.bind_eq_bind, Option.bind_eq_some] at h
      obtain ⟨_, -, _, -, _, -, h⟩ := h
      exact absurd (Prod.mk.inj (Option.some.inj h)).1 (by decide)
    · rw [setRescueCode_of_not_shape cfg u rc hs] at h
      exact ((Prod.mk.inj (Option.some.inj h)).2).symm
  · intro hs j v hn
    obtain ⟨k, -, -, he⟩ := setRescueCode_success cfg u rc hs j v hn
    exact ⟨_, he⟩

/-- Witness for the amended C16 (scenario S6): the 23-digit string is rejected,
and the 24-digit string is accepted on the fresh user. -/
theorem setRescueCode_validates_witness :
    ¬ IsRescueCodeShape s6ShortCode ∧
    setRescueCode demoConfig freshUser s6ShortCode = some (false, freshUser) ∧
    IsRescueCodeShape s6RescueCode ∧
    ∃ u', setRescueCode demoConfig freshUser s6RescueCode = some (true, u') :=
  ⟨by decide,
    (setRescueCode_validates demoConfig freshUser s6ShortCode).1 (by decide),
    by decide,
    (setRescueCode_validates demoConfig freshUser s6RescueCode).2.2.2 (by decide) 15
      ((newKey freshUser demoConfig.KEY_RESCUE_CODE).getD (none, freshUser)).2 (by decide)⟩

/-- C16, counterexample.  The string `"123456789012345678901234"` has exactly
24 decimal digits, but on the user whose 16 slots are all held by other
identifiers, and on the user whose only free slot is slot 0, `setRescueCode`
does not return `true`: `newKey` delivers no slot to copy into and the call has
no result. -/
theorem setRescueCode_no_slot :
    IsRescueCodeShape s6RescueCode ∧
    setRescueCode demoConfig fullTableUser s6RescueCode = none ∧
    setRescueCode demoConfig slotZeroFreeUser s6RescueCode = none ∧
    ¬ (IsRescueCodeShape s6RescueCode →
      ∃ u', setRescueCode demoConfig fullTableUser s6RescueCode = some (true, u')) := by
  have h1 : setRescueCode demoConfig fullTableUser s6RescueCode = none := by decide
  refine ⟨by decide, h1, by decide, ?_⟩
  intro h
  obtain ⟨u', hu'⟩ := h (by decide)
  rw [h1] at hu'
  exact absurd hu' (by simp)

/-! ### Uniqueness of the labels -/

/-- The lookup array after `setRescueCode` is the one `newKey` leaves. -/
theorem setRescueCode_unique (cfg : Config) (u : SqrlUser) (rc : List Nat)
    (r : Bool × SqrlUser) (hu : UniqueLabels u.lookup) (h : setRescueCode cfg u rc = some r) :
    UniqueLabels r.2.lookup := by
  by_cases hs : IsRescueCodeShape rc
  · rw [setRescueCode_of_shape cfg u rc hs] at h
    simp only [Option.bind_eq_bind, Option.bind_eq_some] at h
    obtain ⟨r1, hn, old, -, w, hw, h⟩ := h
    have h1 := newKey_unique u _ r1 hu hn
    have hr : r.2 = w := by rw [← Option.some.inj h]
    rw [hr]
    obtain ⟨p, v⟩ := r1
    cases p with
    | none => simp [setSlot] at hw
    | some j =>
      unfold setSlot at hw
      cases hk : v.keys with
      | none => rw [hk] at hw; simp at hw
      | some k =>
        rw [hk] at hw
        simp only at hw
        split_ifs at hw
        rw [← Option.some.inj hw]
        exact h1
  · rw [setRescueCode_of_not_shape cfg u rc hs] at h
    rw [← Option.some.inj h]
    exact hu

end SqrlUser

namespace SqrlUser

/-! ### Preservation of the unique labels -/

theorem keysAllocated_iff (u : SqrlUser) :
    KeysAllocated u ↔ ∃ k, u.keys = some k ∧ k.keys.length = u.lookup.length := by
  unfold KeysAllocated
  cases u.keys <;> simp

/-- With an allocated key region, `newKey` returns whenever the table holds the
identifier or a free slot. -/
theorem newKey_returns (u : SqrlUser) (id : Nat) (ha : KeysAllocated u)
    (h : id ∈ u.lookup ∨ 0 ∈ u.lookup) : ∃ r, newKey u id = some r := by
  obtain ⟨k, hk, hlen⟩ := (keysAllocated_iff u).1 ha
  rcases newKey_spec u id with ⟨h1, h2, -⟩ | ⟨j, lookup', hj, -, he⟩
  · rcases h with h | h
    · exact absurd h h1
    · exact absurd h h2
  · rw [he, hk]
    by_cases hj0 : j = 0
    · exact ⟨_, if_pos hj0⟩
    · rw [if_neg hj0]
      simp only
      rw [if_pos (by omega)]
      exact ⟨_, rfl⟩

/-- With an allocated key region, `removeKey` returns. -/
theorem removeKey_returns (u : SqrlUser) (id : Nat) (ha : KeysAllocated u) :
    ∃ u', removeKey u id = some u' := by
  obtain ⟨k, hk, hlen⟩ := (keysAllocated_iff u).1 ha
  unfold removeKey
  by_cases hid : id ∈ u.lookup
  · obtain ⟨j, hj, he, -, -⟩ := scanLast_of_mem id u.lookup 0 (-1) hid
    rw [he, hk]
    have h1 : ((j : Nat) : Int) > -1 := by omega
    simp only [Nat.zero_add, h1, if_true, Int.toNat_ofNat]
    exact ⟨_, if_pos (by omega)⟩
  · rw [scanLast_of_not_mem id u.lookup 0 (-1) hid]
    simp

/-- The lookup array after `removeKey`: `removeKey` keeps the labels unique. -/
theorem removeKey_unique (u : SqrlUser) (id : Nat) (u' : SqrlUser)
    (hu : UniqueLabels u.lookup) (h : removeKey u id = some u') : UniqueLabels u'.lookup := by
  rcases removeKey_some u id u' h with ⟨-, e⟩ | ⟨j, k, -, -, -, -, e⟩
  · rw [e]; exact hu
  · rw [e]; exact uniqueLabels_set_zero _ _ hu

/-- Inversion of a write through a slot pointer. -/
theorem setSlot_some (u : SqrlUser) (p : Option Nat) (b : List Nat) (v : SqrlUser)
    (h : setSlot u p b = some v) :
    ∃ i k, p = some i ∧ u.keys = some k ∧ i < k.keys.length ∧
      v = { u with keys := some { k with keys := k.keys.set i b } } := by
  unfold setSlot at h
  cases p with
  | none => simp at h
  | some i =>
    cases hk : u.keys with
    | none => rw [hk] at h; simp at h
    | some k =>
      rw [hk] at h
      simp only at h
      by_cases hlt : i < k.keys.length
      · rw [if_pos hlt] at h
        exact ⟨i, k, rfl, rfl, hlt, (Option.some.inj h).symm⟩
      · rw [if_neg hlt] at h
        exact absurd h (by simp)

theorem setSlot_lookup (u : SqrlUser) (p : Option Nat) (b : List Nat) (v : SqrlUser)
    (h : setSlot u p b = some v) : v.lookup = u.lookup ∧ v.addr = u.addr := by
  obtain ⟨i, k, -, -, -, e⟩ := setSlot_some u p b v h
  rw [e]
  exact ⟨rfl, rfl⟩

theorem copySlot_lookup (u : SqrlUser) (d s : Option Nat) (v : SqrlUser)
    (h : copySlot u d s = some v) : v.lookup = u.lookup ∧ v.addr = u.addr := by
  unfold copySlot at h
  simp only [Option.bind_eq_bind, Option.bind_eq_some] at h
  obtain ⟨b, -, h⟩ := h
  exact setSlot_lookup u d b v h

theorem keyLoop_unique (ext : Externals) (cfg : Config) (id : Nat) (hl : LoadsKeepLabels ext)
    (n : Nat) (u : SqrlUser) (c : Nat) (hu : UniqueLabels u.lookup) :
    UniqueLabels (keyLoop ext cfg id n u c).2.1.lookup := by
  induction n generalizing u c with
  | zero => exact hu
  | succ n ih =>
    unfold keyLoop
    simp only
    split_ifs
    · exact hu
    · exact hu
    · exact ih _ _ (hl c u hu).1
    · exact ih _ _ (hl c u hu).2
    · exact hu

theorem key_unique (ext : Externals) (cfg : Config) (hl : LoadsKeepLabels ext) (u : SqrlUser)
    (action : Option SqrlAction) (id : Nat) (hu : UniqueLabels u.lookup) :
    UniqueLabels (key ext cfg u action id).2.1.lookup := by
  unfold key
  cases action with
  | none => exact hu
  | some a =>
    simp only
    split_ifs
    · exact hu
    · exact keyLoop_unique ext cfg id hl 3 u 0 hu

theorem obtainKey_unique (ext : Externals) (cfg : Config) (hl : LoadsKeepLabels ext)
    (u : SqrlUser) (action : Option SqrlAction) (id : Nat) (r : Option Nat × SqrlUser)
    (hu : UniqueLabels u.lookup) (h : obtainKey ext cfg u action id = some r) :
    UniqueLabels r.2.lookup := by
  unfold obtainKey at h
  split_ifs at h
  · rw [← Option.some.inj h]
    exact key_unique ext cfg hl u action id hu
  · exact newKey_unique u id r hu h

/-- The lookup array after a key derivation written through `key`. -/
theorem derive_lookup (w : SqrlUser) (t key : Option Nat) (f : List Nat → List Nat)
    (r : Bool × SqrlUser)
    (h : (match t with
      | some t =>
        (slotAt w (some t)).bind fun iuk =>
        (setSlot w key (f iuk)).bind fun u => some (true, u)
      | none => some (false, w)) = some r) :
    r.2.lookup = w.lookup ∧ r.2.addr = w.addr := by
  cases t with
  | none =>
    simp only at h
    rw [← Option.some.inj h]
    exact ⟨rfl, rfl⟩
  | some t =>
    simp only [Option.bind_eq_bind, Option.bind_eq_some] at h
    obtain ⟨b, -, v, hv, h⟩ := h
    rw [← Option.some.inj h]
    exact setSlot_lookup w key _ v hv

theorem keyGen_unique (ext : Externals) (cfg : Config) (hl : LoadsKeepLabels ext)
    (u : SqrlUser) (action : Option SqrlAction) (kt : Nat) (key : Option Nat)
    (r : Bool × SqrlUser) (hu : UniqueLabels u.lookup)
    (h : _keyGen ext cfg u action kt key = some r) : UniqueLabels r.2.lookup := by
  unfold _keyGen at h
  cases action with
  | none =>
    simp only at h
    rw [← Option.some.inj h]
    exact hu
  | some a =>
    simp only at h
    split_ifs at h
    · rw [← Option.some.inj h]; exact hu
    · simp only [Option.bind_eq_bind, Option.bind_eq_some] at h
      obtain ⟨r0, h0, r1, h1, r2, h2, r3, h3, u1, c1, u2, c2, u3, c3, u4, c4, u5, c5, h⟩ := h
      have e0 := obtainKey_unique ext cfg hl u _ _ r0 hu h0
      have e1 := obtainKey_unique ext cfg hl _ _ _ r1 e0 h1
      have e2 := obtainKey_unique ext cfg hl _ _ _ r2 e1 h2
      have e3 := obtainKey_unique ext cfg hl _ _ _ r3 e2 h3
      rw [← Option.some.inj h]
      show UniqueLabels u5.lookup
      rw [(setSlot_lookup _ _ _ _ c5).1, (copySlot_lookup _ _ _ _ c4).1,
        (copySlot_lookup _ _ _ _ c3).1, (copySlot_lookup _ _ _ _ c2).1,
        (copySlot_lookup _ _ _ _ c1).1]
      exact e3
    · rw [(derive_lookup _ _ _ _ r h).1]
      exact key_unique ext cfg hl u _ _ hu
    · rw [← Option.some.inj h]; exact hu
    · rw [(derive_lookup _ _ _ _ r h).1]
      exact key_unique ext cfg hl u _ _ hu
    · rw [(derive_lookup _ _ _ _ r h).1]
      exact key_unique ext cfg hl u _ _ hu
    · simp only [Option.bind_eq_bind, Option.bind_eq_some] at h
      obtain ⟨u1, c1, u2, c2, h⟩ := h
      rw [← Option.some.inj h]
      show UniqueLabels u2.lookup
      rw [(setSlot_lookup _ _ _ _ c2).1, (setSlot_lookup _ _ _ _ c1).1]
      exact hu
    · rw [← Option.some.inj h]; exact hu
    · rw [← Option.some.inj h]; exact hu

theorem regenKey_unique (ext : Externals) (cfg : Config) (hl : LoadsKeepLabels ext)
    (u : SqrlUser) (action : Option SqrlAction) (k : Nat) (v : SqrlUser)
    (hu : UniqueLabels u.lookup) (h : regenKey ext cfg u action k = some v) :
    UniqueLabels v.lookup := by
  unfold regenKey at h
  simp only [Option.bind_eq_bind, Option.bind_eq_some] at h
  obtain ⟨r, hr, g, hg, h⟩ := h
  rw [← Option.some.inj h]
  exact keyGen_unique ext cfg hl _ _ _ _ g (newKey_unique u k r hu hr) hg

theorem regenKeys_unique (ext : Externals) (cfg : Config) (hl : LoadsKeepLabels ext)
    (u : SqrlUser) (action : Option SqrlAction) (r : Bool × SqrlUser)
    (hu : UniqueLabels u.lookup) (h : regenKeys ext cfg u action = some r) :
    UniqueLabels r.2.lookup := by
  unfold regenKeys at h
  cases action with
  | none =>
    simp only at h
    rw [← Option.some.inj h]
    exact hu
  | some a =>
    simp only at h
    split_ifs at h
    · rw [← Option.some.inj h]; exact hu
    · simp only [Option.bind_eq_bind, Option.bind_eq_some] at h
      obtain ⟨u1, h1, u2, h2, u3, h3, h⟩ := h
      rw [← Option.some.inj h]
      exact regenKey_unique ext cfg hl _ _ _ u3
        (regenKey_unique ext cfg hl _ _ _ u2 (regenKey_unique ext cfg hl _ _ _ u1 hu h1) h2) h3

theorem rekey_unique (ext : Externals) (cfg : Config) (hl : LoadsKeepLabels ext)
    (u : SqrlUser) (action : Option SqrlAction) (r : Bool × SqrlUser)
    (hu : UniqueLabels u.lookup) (h : rekey ext cfg u action = some r) :
    UniqueLabels r.2.lookup := by
  unfold rekey at h
  cases action with
  | none =>
    simp only at h
    rw [← Option.some.inj h]
    exact hu
  | some a =>
    simp only at h
    split_ifs at h with hb hk
    · rw [← Option.some.inj h]; exact hu
    all_goals
      simp only [Option.bind_eq_bind, Option.bind_eq_some] at h
      obtain ⟨r1, hr1, g1, hg1, h⟩ := h
      have e0 : UniqueLabels (ensureKeysAllocated cfg u).lookup := by
        unfold ensureKeysAllocated
        cases u.keys <;> exact hu
      have e1 : UniqueLabels r1.2.lookup := by
        first
          | (rw [← Option.some.inj hr1]; exact key_unique ext cfg hl _ _ _ e0)
          | exact newKey_unique _ _ r1 e0 hr1
      have e2 := keyGen_unique ext cfg hl _ _ _ _ g1 e1 hg1
      split_ifs at h
      · rw [← Option.some.inj h]; exact e2
      · simp only [Option.bind_eq_bind, Option.bind_eq_some] at h
        obtain ⟨r2, hr2, g2, hg2, h⟩ := h
        have e3 := keyGen_unique ext cfg hl _ _ _ _ g2 (newKey_unique _ _ r2 e2 hr2) hg2
        split_ifs at h
        · rw [← Option.some.inj h]; exact e3
        · simp only [Option.bind_eq_bind, Option.bind_eq_some] at h
          obtain ⟨g3, hg3, h⟩ := h
          have e4 := regenKeys_unique ext cfg hl _ _ g3 e3 hg3
          split_ifs at h
          · rw [← Option.some.inj h]; exact e4
          · rw [← Option.some.inj h]; exact e4

end SqrlUser

namespace SqrlUser

/-- C14 (key-table uniqueness invariant).  For every user whose non-zero
identifiers each label at most one slot: the same holds for the state left by
`newKey(id)` and by `removeKey(id)`, for every identifier `id`; with an
allocated key region `removeKey` always returns and `newKey` returns whenever
the table holds `id` or a free slot; the same holds for the state left by
`setRescueCode`; and, when the load flows keep the labels unique, for the states
left by `regenKeys` and by `rekey`. -/
theorem uniqueLabels_preserved (ext : Externals) (cfg : Config) (u : SqrlUser)
    (action : Option SqrlAction) (hu : UniqueLabels u.lookup) :
    (∀ id r, newKey u id = some r → UniqueLabels r.2.lookup) ∧
    (∀ id u', removeKey u id = some u' → UniqueLabels u'.lookup) ∧
    (KeysAllocated u →
      (∀ id, ∃ u', removeKey u id = some u') ∧
      ∀ id, id ∈ u.lookup ∨ 0 ∈ u.lookup → ∃ r, newKey u id = some r) ∧
    (∀ rc r, setRescueCode cfg u rc = some r → UniqueLabels r.2.lookup) ∧
    (LoadsKeepLabels ext →
      (∀ r, regenKeys ext cfg u action = some r → UniqueLabels r.2.lookup) ∧
      ∀ r, rekey ext cfg u action = some r → UniqueLabels r.2.lookup) :=
  ⟨fun id r h => newKey_unique u id r hu h,
    fun id u' h => removeKey_unique u id u' hu h,
    fun ha => ⟨fun id => removeKey_returns u id ha, fun id h => newKey_returns u id ha h⟩,
    fun rc r h => setRescueCode_unique cfg u rc r hu h,
    fun hl => ⟨fun r h => regenKeys_unique ext cfg hl u action r hu h,
      fun r h => rekey_unique ext cfg hl u action r hu h⟩⟩

/-- Witness for C14: on the fresh user, whose labels are unique, `newKey(7)`
returns and leaves unique labels. -/
theorem uniqueLabels_preserved_witness :
    UniqueLabels freshUser.lookup ∧
    ∃ r, newKey freshUser demoConfig.KEY_IUK = some r ∧ UniqueLabels r.2.lookup :=
  ⟨by decide,
    ((uniqueLabels_preserved quietExternals demoConfig freshUser (some demoAction)
      (by decide)).2.2.1 (by decide)).2 demoConfig.KEY_IUK (Or.inr (by decide)) |>.elim
      fun r hr => ⟨r, hr,
        (uniqueLabels_preserved quietExternals demoConfig freshUser (some demoAction)
          (by decide)).1 _ r hr⟩⟩

end SqrlUser

namespace SqrlUser

/-! ### The rotation of the identity unlock keys -/

/-- The position `indexOf` delivers for a member holds that member. -/
theorem getElem?_indexOf_of_mem (l : List Nat) (x : Nat) (h : x ∈ l) :
    l[l.indexOf x]? = some x := by
  induction l with
  | nil => exact absurd h (List.not_mem_nil x)
  | cons y ys ih =>
    by_cases hy : y = x
    · subst hy; simp
    · have hm : x ∈ ys := by
        rcases List.mem_cons.1 h with e | e
        · exact absurd e.symm hy
        · exact e
      rw [List.indexOf_cons_ne _ hy]
      simpa using ih hm

/-- Relabelling a slot that is not labelled `x` with a label other than `x`
changes neither the first position of `x` nor its presence. -/
theorem indexOf_set_ne (l : List Nat) (j b x : Nat) (h1 : l[j]? ≠ some x) (h2 : b ≠ x) :
    (l.set j b).indexOf x = l.indexOf x ∧ (x ∈ l.set j b ↔ x ∈ l) := by
  induction l generalizing j with
  | nil => simp
  | cons y ys ih =>
    cases j with
    | zero =>
      have hy : y ≠ x := by simpa using h1
      refine ⟨?_, ?_⟩
      · rw [List.set_cons_zero, List.indexOf_cons_ne _ hy, List.indexOf_cons_ne _ h2]
      · simp only [List.set_cons_zero, List.mem_cons]
        constructor
        · rintro (e | e)
          · exact absurd e.symm h2
          · exact Or.inr e
        · rintro (e | e)
          · exact absurd e.symm hy
          · exact Or.inr e
    | succ m =>
      have hm : ys[m]? ≠ some x := by simpa using h1
      obtain ⟨i1, i2⟩ := ih m hm
      refine ⟨?_, ?_⟩
      · rw [List.set_cons_succ]
        by_cases hy : y = x
        · subst hy; simp
        · rw [List.indexOf_cons_ne _ hy, List.indexOf_cons_ne _ hy, i1]
      · simp only [List.set_cons_succ, List.mem_cons, i2]

/-- The bytes of a key do not change when its label keeps its first position and
the only slot written is not labelled with it. -/
theorem keyBytes_congr (u v : SqrlUser) (x j : Nat)
    (hmem : x ∈ v.lookup ↔ x ∈ u.lookup) (hidx : v.lookup.indexOf x = u.lookup.indexOf x)
    (hj : u.lookup[j]? ≠ some x)
    (hslots : ∀ i, i ≠ j → slotAt v (some i) = slotAt u (some i)) :
    keyBytes v x = keyBytes u x := by
  unfold keyBytes
  by_cases hx : x ∈ u.lookup
  · rw [if_pos hx, if_pos (hmem.2 hx), hidx]
    have hne : u.lookup.indexOf x ≠ j := by
      intro e
      rw [← e] at hj
      exact hj (getElem?_indexOf_of_mem _ _ hx)
    rw [hslots _ hne]
  · rw [if_neg hx, if_neg (fun e => hx (hmem.1 e))]

/-- With unique labels, the bytes of the key `id` are the content of any slot
labelled `id`. -/
theorem keyBytes_of_pointer (u : SqrlUser) (id p : Nat) (b : List Nat)
    (hu : UniqueLabels u.lookup) (hid : id ≠ 0) (hp : u.lookup[p]? = some id)
    (hs : slotAt u (some p) = some b) : keyBytes u id = b := by
  unfold keyBytes
  rw [if_pos (List.getElem?_mem hp), indexOf_eq_of_unique _ _ _ hu hid hp, hs]
  rfl

/-- The slots after a write through a slot pointer. -/
theorem setSlot_slotAt (u : SqrlUser) (p : Nat) (b : List Nat) (v : SqrlUser)
    (h : setSlot u (some p) b = some v) :
    slotAt v (some p) = some b ∧ ∀ i, i ≠ p → slotAt v (some i) = slotAt u (some i) := by
  obtain ⟨i, k, hp, hk, hlt, e⟩ := setSlot_some u _ b v h
  have hpi : p = i := Option.some.inj hp
  subst hpi
  rw [e]
  refine ⟨by simp [slotAt, hlt], ?_⟩
  intro i hi
  simp only [slotAt, hk, List.get?_eq_getElem?]
  rw [List.getElem?_set_ne (fun e => hi e.symm)]

/-- A write through a pointer to a slot labelled `idp` changes the bytes of no
other key, and with unique labels the key `idp` then has the bytes written. -/
theorem setSlot_keyBytes (u : SqrlUser) (p : Option Nat) (idp : Nat) (b : List Nat)
    (v : SqrlUser) (h : setSlot u p b = some v)
    (hp : ∀ j, p = some j → u.lookup[j]? = some idp) :
    (∀ id, id ≠ idp → keyBytes v id = keyBytes u id) ∧
    (UniqueLabels u.lookup → idp ≠ 0 → keyBytes v idp = b) := by
  obtain ⟨i, k, hpi, hk, hlt, e⟩ := setSlot_some u _ b v h
  subst hpi
  have hl := (setSlot_lookup u _ b v h).1
  obtain ⟨s1, s2⟩ := setSlot_slotAt u i b v h
  have hlab := hp i rfl
  refine ⟨?_, ?_⟩
  · intro id hid
    apply keyBytes_congr u v id i (by rw [hl]) (by rw [hl]) _ s2
    rw [hlab]
    exact fun e => hid (Option.some.inj e).symm
  · intro hu hid
    exact keyBytes_of_pointer v idp i b (by rw [hl]; exact hu) hid (by rw [hl]; exact hlab) s1

/-- A copy between two slot pointers gives the key of the destination the bytes
of the key of the source and changes no other key. -/
theorem copySlot_keyBytes (u : SqrlUser) (d s : Option Nat) (idd ids : Nat) (v : SqrlUser)
    (h : copySlot u d s = some v) (hu : UniqueLabels u.lookup) (hdn : idd ≠ 0) (hsn : ids ≠ 0)
    (hd : ∀ j, d = some j → u.lookup[j]? = some idd)
    (hs : ∀ j, s = some j → u.lookup[j]? = some ids) :
    v.lookup = u.lookup ∧ v.addr = u.addr ∧ keyBytes v idd = keyBytes u ids ∧
    ∀ id, id ≠ idd → keyBytes v id = keyBytes u id := by
  obtain ⟨hl, ha⟩ := copySlot_lookup u d s v h
  unfold copySlot at h
  simp only [Option.bind_eq_bind, Option.bind_eq_some] at h
  obtain ⟨b, hb, h⟩ := h
  obtain ⟨f1, f2⟩ := setSlot_keyBytes u d idd b v h hd
  refine ⟨hl, ha, ?_, f1⟩
  rw [f2 hu hdn]
  cases s with
  | none => simp [slotAt] at hb
  | some j => exact (keyBytes_of_pointer u ids j b hu hsn (hs j rfl) hb).symm

/-- What `newKey(id)` leaves alone: the address, every non-zero label, and the
bytes of every other key; and `id` is labelled afterwards. -/
theorem newKey_frame (u : SqrlUser) (id : Nat) (p : Option Nat) (v : SqrlUser)
    (h : newKey u id = some (p, v)) :
    v.addr = u.addr ∧
    (∀ q x : Nat, x ≠ 0 → u.lookup[q]? = some x → v.lookup[q]? = some x) ∧
    (∀ x, x ≠ id → x ≠ 0 → keyBytes v x = keyBytes u x) ∧
    id ∈ v.lookup := by
  obtain ⟨j, lookup', hj, hsel, hres⟩ := newKey_some u id p v h
  have hl : v.lookup = lookup' := by
    rcases hres with ⟨-, -, e⟩ | ⟨-, -, k, -, -, e⟩ <;> rw [e]
  have ha : v.addr = u.addr := by
    rcases hres with ⟨-, -, e⟩ | ⟨-, -, k, -, -, e⟩ <;> rw [e]
  have hslots : ∀ i, i ≠ j → slotAt v (some i) = slotAt u (some i) := by
    intro i hi
    rcases hres with ⟨-, -, e⟩ | ⟨-, -, k, hk, -, e⟩
    · rw [e]; rfl
    · rw [e]
      simp only [slotAt, hk, List.get?_eq_getElem?]
      rw [List.getElem?_set_ne (fun e => hi e.symm)]
  refine ⟨ha, ?_, ?_, ?_⟩
  · intro q x hx hq
    rw [hl]
    rcases hsel with ⟨-, e⟩ | ⟨-, h0, e⟩
    · rw [e]; exact hq
    · rw [e]
      have hqj : j ≠ q := by
        intro e'
        rw [e', hq] at h0
        exact hx (Option.some.inj h0)
      rw [List.getElem?_set_ne hqj]
      exact hq
  · intro x hxid hx0
    rcases hsel with ⟨hjid, e⟩ | ⟨-, h0, e⟩
    · apply keyBytes_congr u v x j (by rw [hl, e]) (by rw [hl, e]) _ hslots
      rw [hjid]
      exact fun e' => hxid (Option.some.inj e').symm
    · have hjx : u.lookup[j]? ≠ some x := by
        rw [h0]
        exact fun e' => hx0 (Option.some.inj e').symm
      obtain ⟨i1, i2⟩ := indexOf_set_ne u.lookup j id x hjx (fun e' => hxid e'.symm)
      exact keyBytes_congr u v x j (by rw [hl, e]; exact i2) (by rw [hl, e]; exact i1) hjx hslots
  · rw [hl]
    rcases hsel with ⟨hjid, e⟩ | ⟨-, -, e⟩
    · rw [e]; exact List.getElem?_mem hjid
    · rw [e]
      exact List.getElem?_mem (show (u.lookup.set j id)[j]? = some id by simp [hj])

/-- The bytes of a key that labels no slot. -/
theorem keyBytes_absent (u : SqrlUser) (id : Nat) (h : id ∉ u.lookup) :
    keyBytes u id = zeroKey := by
  unfold keyBytes
  rw [if_neg h]

/-- One step `temp[i] = hasKey( k ) ? key( action, k ) : newKey( k )` of the
`KEY_IUK` case: no load flow runs, labels stay, no key changes its bytes, and a
non-null pointer refers to a slot labelled `k`. -/
theorem obtainKey_step (ext : Externals) (cfg : Config) (u : SqrlUser) (a : SqrlAction)
    (id : Nat) (p : Option Nat) (v : SqrlUser) (hb : a.user = u.addr)
    (hu : UniqueLabels u.lookup) (hid : id ≠ 0)
    (h : obtainKey ext cfg u (some a) id = some (p, v)) :
    v.addr = u.addr ∧ UniqueLabels v.lookup ∧
    (∀ q x : Nat, x ≠ 0 → u.lookup[q]? = some x → v.lookup[q]? = some x) ∧
    (∀ x, x ≠ id → x ≠ 0 → keyBytes v x = keyBytes u x) ∧
    (∀ j, p = some j → v.lookup[j]? = some id ∧ keyBytes v id = keyBytes u id) := by
  unfold obtainKey at h
  by_cases hk : u.hasKey id = true
  · rw [if_pos hk] at h
    have hm := (hasKey_iff u id).1 hk
    rw [key_present ext cfg u a id hb hm] at h
    have e := Prod.mk.inj (Option.some.inj h)
    have ev : v = u := e.2.symm
    subst ev
    refine ⟨rfl, hu, fun _ _ _ hq => hq, fun _ _ _ => rfl, ?_⟩
    intro j hj
    rw [← e.1] at hj
    rw [← Option.some.inj hj]
    exact ⟨getElem?_indexOf_of_mem _ _ hm, rfl⟩
  · rw [if_neg hk] at h
    have hm : id ∉ u.lookup := fun e => hk ((hasKey_iff u id).2 e)
    obtain ⟨f1, f2, f3, -⟩ := newKey_frame u id p v h
    have huv := newKey_unique u id (p, v) hu h
    refine ⟨f1, huv, f2, f3, ?_⟩
    intro j hj
    subst hj
    obtain ⟨l1, -, l3⟩ := newKey_label u id j v h
    refine ⟨l1, ?_⟩
    rw [keyBytes_absent u id hm]
    exact keyBytes_of_pointer v id j zeroKey huv hid l1 l3

/-- A copy that has a result went between two non-null pointers. -/
theorem copySlot_pointers (u : SqrlUser) (d s : Option Nat) (v : SqrlUser)
    (h : copySlot u d s = some v) : (∃ j, d = some j) ∧ ∃ j, s = some j := by
  unfold copySlot at h
  simp only [Option.bind_eq_bind, Option.bind_eq_some] at h
  obtain ⟨b, hb, h⟩ := h
  obtain ⟨i, -, hi, -⟩ := setSlot_some u d b v h
  refine ⟨⟨i, hi⟩, ?_⟩
  cases s with
  | none => simp [slotAt] at hb
  | some j => exact ⟨j, rfl⟩

/-- The `KEY_IUK` case of `_keyGen` on a pointer to the slot labelled
`KEY_IUK`: the four previous keys move down by one, the old identity unlock key
becomes `PIUK0`, and the slot receives the fresh bytes. -/
theorem keyGen_iuk (ext : Externals) (cfg : Config) (u : SqrlUser) (a : SqrlAction)
    (pk : Option Nat) (g : Bool × SqrlUser) (hb : a.user = u.addr)
    (hu : UniqueLabels u.lookup) (hd : DistinctIds cfg)
    (hk : ∀ j, pk = some j → u.lookup[j]? = some cfg.KEY_IUK)
    (h : _keyGen ext cfg u (some a) cfg.KEY_IUK pk = some g) :
    (∃ j, pk = some j) ∧ g.2.addr = u.addr ∧ UniqueLabels g.2.lookup ∧
    (∀ q x : Nat, x ≠ 0 → u.lookup[q]? = some x → g.2.lookup[q]? = some x) ∧
    keyBytes g.2 cfg.KEY_IUK = ext.entropyBytes ∧
    keyBytes g.2 cfg.KEY_PIUK0 = keyBytes u cfg.KEY_IUK ∧
    keyBytes g.2 cfg.KEY_PIUK1 = keyBytes u cfg.KEY_PIUK0 ∧
    keyBytes g.2 cfg.KEY_PIUK2 = keyBytes u cfg.KEY_PIUK1 ∧
    keyBytes g.2 cfg.KEY_PIUK3 = keyBytes u cfg.KEY_PIUK2 ∧
    ∀ x ∈ [cfg.KEY_IUK, cfg.KEY_PIUK0, cfg.KEY_PIUK1, cfg.KEY_PIUK2, cfg.KEY_PIUK3],
      x ∈ g.2.lookup := by
  simp only [DistinctIds, List.nodup_cons, List.mem_cons, List.mem_singleton, not_or,
    List.not_mem_nil, List.nodup_nil, not_false_eq_true, and_true] at hd
  obtain ⟨⟨⟨dk0, dk1, dk2, dk3, -⟩, ⟨d01, d02, d03, -⟩, ⟨d12, d13, -⟩, ⟨d23, -⟩, -⟩,
    zk, z0, z1, z2, z3, -⟩ := hd
  unfold _keyGen at h
  simp only [hb, ne_eq, not_true_eq_false, if_false, if_true] at h
  simp only [Option.bind_eq_bind, Option.bind_eq_some] at h
  obtain ⟨r0, h0, r1, h1, r2, h2, r3, h3, u1, c1, u2, c2, u3, c3, u4, c4, u5, c5, h⟩ := h
  obtain ⟨a0, q0, st0, fr0, pt0⟩ :=
    obtainKey_step ext cfg u a _ r0.1 r0.2 hb hu (Ne.symm z0) h0
  obtain ⟨a1, q1, st1, fr1, pt1⟩ :=
    obtainKey_step ext cfg r0.2 a _ r1.1 r1.2 (hb.trans a0.symm) q0 (Ne.symm z1) h1
  obtain ⟨a2, q2, st2, fr2, pt2⟩ :=
    obtainKey_step ext cfg r1.2 a _ r2.1 r2.2 ((hb.trans a0.symm).trans a1.symm) q1
      (Ne.symm z2) h2
  obtain ⟨a3, q3, st3, fr3, pt3⟩ :=
    obtainKey_step ext cfg r2.2 a _ r3.1 r3.2
      (((hb.trans a0.symm).trans a1.symm).trans a2.symm) q2 (Ne.symm z3) h3
  obtain ⟨⟨j3, e3⟩, ⟨j2, e2⟩⟩ := copySlot_pointers _ _ _ _ c1
  obtain ⟨-, ⟨j1, e1⟩⟩ := copySlot_pointers _ _ _ _ c2
  obtain ⟨-, ⟨j0, e0⟩⟩ := copySlot_pointers _ _ _ _ c3
  obtain ⟨-, ⟨jk, ek⟩⟩ := copySlot_pointers _ _ _ _ c4
  -- the labels of the five pointers in the table after the four look-ups
  have lab3 : ∀ j, r3.1 = some j → r3.2.lookup[j]? = some cfg.KEY_PIUK3 :=
    fun j hj => (pt3 j hj).1
  have lab2 : ∀ j, r2.1 = some j → r3.2.lookup[j]? = some cfg.KEY_PIUK2 :=
    fun j hj => st3 _ _ (Ne.symm z2) (pt2 j hj).1
  have lab1 : ∀ j, r1.1 = some j → r3.2.lookup[j]? = some cfg.KEY_PIUK1 :=
    fun j hj => st3 _ _ (Ne.symm z1) (st2 _ _ (Ne.symm z1) (pt1 j hj).1)
  have lab0 : ∀ j, r0.1 = some j → r3.2.lookup[j]? = some cfg.KEY_PIUK0 :=
    fun j hj => st3 _ _ (Ne.symm z0) (st2 _ _ (Ne.symm z0) (st1 _ _ (Ne.symm z0) (pt0 j hj).1))
  have stab : ∀ q x : Nat, x ≠ 0 → u.lookup[q]? = some x → r3.2.lookup[q]? = some x :=
    fun q x hx hq => st3 _ _ hx (st2 _ _ hx (st1 _ _ hx (st0 _ _ hx hq)))
  have labk : ∀ j, pk = some j → r3.2.lookup[j]? = some cfg.KEY_IUK :=
    fun j hj => stab _ _ (Ne.symm zk) (hk j hj)
  -- the bytes of the five keys in that state
  have bk : keyBytes r3.2 cfg.KEY_IUK = keyBytes u cfg.KEY_IUK := by
    rw [fr3 _ dk3 (Ne.symm zk), fr2 _ dk2 (Ne.symm zk), fr1 _ dk1 (Ne.symm zk),
      fr0 _ dk0 (Ne.symm zk)]
  have b0 : keyBytes r3.2 cfg.KEY_PIUK0 = keyBytes u cfg.KEY_PIUK0 := by
    rw [fr3 _ d03 (Ne.symm z0), fr2 _ d02 (Ne.symm z0), fr1 _ d01 (Ne.symm z0),
      (pt0 j0 e0).2]
  have b1 : keyBytes r3.2 cfg.KEY_PIUK1 = keyBytes u cfg.KEY_PIUK1 := by
    rw [fr3 _ d13 (Ne.symm z1), fr2 _ d12 (Ne.symm z1), (pt1 j1 e1).2,
      fr0 _ (Ne.symm d01) (Ne.symm z1)]
  have b2 : keyBytes r3.2 cfg.KEY_PIUK2 = keyBytes u cfg.KEY_PIUK2 := by
    rw [fr3 _ d23 (Ne.symm z2), (pt2 j2 e2).2, fr1 _ (Ne.symm d12) (Ne.symm z2),
      fr0 _ (Ne.symm d02) (Ne.symm z2)]
  -- the four copies and the write of the fresh bytes
  obtain ⟨l1, m1, x1, f1⟩ := copySlot_keyBytes r3.2 r3.1 r2.1 _ _ u1 c1 q3
    (Ne.symm z3) (Ne.symm z2) lab3 lab2
  obtain ⟨l2, m2, x2, f2⟩ := copySlot_keyBytes u1 r2.1 r1.1 _ _ u2 c2 (by rw [l1]; exact q3)
    (Ne.symm z2) (Ne.symm z1) (by rw [l1]; exact lab2) (by rw [l1]; exact lab1)
  obtain ⟨l3, m3, x3, f3⟩ := copySlot_keyBytes u2 r1.1 r0.1 _ _ u3 c3
    (by rw [l2, l1]; exact q3) (Ne.symm z1) (Ne.symm z0) (by rw [l2, l1]; exact lab1)
    (by rw [l2, l1]; exact lab0)
  obtain ⟨l4, m4, x4, f4⟩ := copySlot_keyBytes u3 r0.1 pk _ _ u4 c4
    (by rw [l3, l2, l1]; exact q3) (Ne.symm z0) (Ne.symm zk) (by rw [l3, l2, l1]; exact lab0)
    (by rw [l3, l2, l1]; exact labk)
  obtain ⟨f5, x5⟩ := setSlot_keyBytes u4 pk cfg.KEY_IUK ext.entropyBytes u5 c5
    (by rw [l4, l3, l2, l1]; exact labk)
  obtain ⟨l5, m5⟩ := setSlot_lookup _ _ _ _ c5
  have hl : u5.lookup = r3.2.lookup := by rw [l5, l4, l3, l2, l1]
  have hg : g = (true, u5) := (Option.some.inj h).symm
  subst hg
  refine ⟨⟨jk, ek⟩, ?_, ?_, ?_, ?_, ?_, ?_, ?_, ?_, ?_⟩
  · show u5.addr = u.addr
    rw [m5, m4, m3, m2, m1, a3, a2, a1, a0]
  · show UniqueLabels u5.lookup
    rw [hl]; exact q3
  · intro q x hx hq
    show u5.lookup[q]? = some x
    rw [hl]; exact stab q x hx hq
  · exact x5 (by rw [l4, l3, l2, l1]; exact q3) (Ne.symm zk)
  · show keyBytes u5 cfg.KEY_PIUK0 = keyBytes u cfg.KEY_IUK
    rw [f5 _ (Ne.symm dk0), x4, f3 _ dk1, f2 _ dk2, f1 _ dk3, bk]
  · show keyBytes u5 cfg.KEY_PIUK1 = keyBytes u cfg.KEY_PIUK0
    rw [f5 _ (Ne.symm dk1), f4 _ (Ne.symm d01), x3, f2 _ d02, f1 _ d03, b0]
  · show keyBytes u5 cfg.KEY_PIUK2 = keyBytes u cfg.KEY_PIUK1
    rw [f5 _ (Ne.symm dk2), f4 _ (Ne.symm d02), f3 _ (Ne.symm d12), x2, f1 _ d13, b1]
  · show keyBytes u5 cfg.KEY_PIUK3 = keyBytes u cfg.KEY_PIUK2
    rw [f5 _ (Ne.symm dk3), f4 _ (Ne.symm d03), f3 _ (Ne.symm d13), f2 _ (Ne.symm d23), x1, b2]
  · intro x hx
    show x ∈ u5.lookup
    rw [hl]
    simp only [List.mem_cons, List.mem_singleton, List.not_mem_nil, or_false] at hx
    rcases hx with rfl | rfl | rfl | rfl | rfl
    · exact List.getElem?_mem (labk jk ek)
    · exact List.getElem?_mem (lab0 j0 e0)
    · exact List.getElem?_mem (lab1 j1 e1)
    · exact List.getElem?_mem (lab2 j2 e2)
    · exact List.getElem?_mem (lab3 j3 e3)

/-- A key derivation written through a pointer to a slot labelled `idp` changes
the bytes of no other key. -/
theorem derive_frame (w : SqrlUser) (t key : Option Nat) (f : List Nat → List Nat)
    (r : Bool × SqrlUser) (idp : Nat) (hp : ∀ j, key = some j → w.lookup[j]? = some idp)
    (h : (match t with
      | some t =>
        (slotAt w (some t)).bind fun iuk =>
        (setSlot w key (f iuk)).bind fun u => some (true, u)
      | none => some (false, w)) = some r) :
    r.2.lookup = w.lookup ∧ r.2.addr = w.addr ∧
      ∀ id, id ≠ idp → keyBytes r.2 id = keyBytes w id := by
  obtain ⟨hl, ha⟩ := derive_lookup w t key f r h
  refine ⟨hl, ha, ?_⟩
  cases t with
  | none =>
    simp only at h
    rw [← Option.some.inj h]
    exact fun _ _ => rfl
  | some t =>
    simp only [Option.bind_eq_bind, Option.bind_eq_some] at h
    obtain ⟨b, -, v, hv, h⟩ := h
    rw [← Option.some.inj h]
    exact (setSlot_keyBytes w key idp _ v hv hp).1

/-- The cases of `_keyGen` other than `KEY_IUK`, on a pointer to the slot
labelled with the key type, when the keys they read are present: no load flow
runs, the labels stay and no other key changes its bytes. -/
theorem keyGen_other (ext : Externals) (cfg : Config) (u : SqrlUser) (a : SqrlAction)
    (kt : Nat) (p : Option Nat) (g : Bool × SqrlUser) (hb : a.user = u.addr)
    (hkt : kt ≠ cfg.KEY_IUK) (hiuk : cfg.KEY_IUK ∈ u.lookup)
    (hmk : kt = cfg.KEY_LOCAL → cfg.KEY_MK ∈ u.lookup)
    (hp : ∀ j, p = some j → u.lookup[j]? = some kt)
    (h : _keyGen ext cfg u (some a) kt p = some g) :
    g.2.lookup = u.lookup ∧ g.2.addr = u.addr ∧
      ∀ id, id ≠ kt → keyBytes g.2 id = keyBytes u id := by
  have hsame : ∀ g : Bool × SqrlUser, some (false, u) = some g →
      g.2.lookup = u.lookup ∧ g.2.addr = u.addr ∧
        ∀ id, id ≠ kt → keyBytes g.2 id = keyBytes u id := by
    intro g hg
    rw [← Option.some.inj hg]
    exact ⟨rfl, rfl, fun _ _ => rfl⟩
  unfold _keyGen at h
  simp only [hb, ne_eq, not_true_eq_false, if_false, hkt] at h
  split_ifs at h with c1 c2 c3 c4 c5 c6
  · rw [key_present ext cfg u a _ hb hiuk] at h
    exact derive_frame u (some (u.lookup.indexOf cfg.KEY_IUK)) p ext.generateMasterKey g kt hp h
  · exact hsame g h
  · rw [key_present ext cfg u a _ hb hiuk] at h
    exact derive_frame u (some (u.lookup.indexOf cfg.KEY_IUK)) p ext.generateIdentityLockKey g
      kt hp h
  · rw [key_present ext cfg u a _ hb (hmk c4)] at h
    exact derive_frame u (some (u.lookup.indexOf cfg.KEY_MK)) p ext.generateLocalKey g kt hp h
  · simp only [Option.bind_eq_bind, Option.bind_eq_some] at h
    obtain ⟨u1, s1, u2, s2, h⟩ := h
    obtain ⟨l1, m1⟩ := setSlot_lookup _ _ _ _ s1
    obtain ⟨l2, m2⟩ := setSlot_lookup _ _ _ _ s2
    obtain ⟨f1, -⟩ := setSlot_keyBytes u p kt _ u1 s1 hp
    obtain ⟨f2, -⟩ := setSlot_keyBytes u1 p kt _ u2 s2 (by rw [l1]; exact hp)
    rw [← Option.some.inj h]
    refine ⟨by rw [l2, l1], by rw [m2, m1], ?_⟩
    intro id hid
    show keyBytes u2 id = keyBytes u id
    rw [f2 id hid, f1 id hid]
  · exact hsame g h
  · exact hsame g h

/-- One round `key = newKey( k ); _keyGen( action, k, key );` of `regenKeys`
(and the same two calls for the rescue code in `rekey`) for a key type other
than `KEY_IUK`, when the keys it reads are present: the labels stay, `k` is
labelled afterwards and no other key changes its bytes. -/
theorem regenKey_frame (ext : Externals) (cfg : Config) (u : SqrlUser) (a : SqrlAction)
    (k : Nat) (r : Option Nat × SqrlUser) (g : Bool × SqrlUser) (hb : a.user = u.addr)
    (hu : UniqueLabels u.lookup) (hk : k ≠ cfg.KEY_IUK) (hk0 : cfg.KEY_IUK ≠ 0)
    (hm0 : cfg.KEY_MK ≠ 0) (hiuk : cfg.KEY_IUK ∈ u.lookup)
    (hmk : k = cfg.KEY_LOCAL → cfg.KEY_MK ∈ u.lookup)
    (hr : newKey u k = some r) (hg : _keyGen ext cfg r.2 (some a) k r.1 = some g) :
    g.2.addr = u.addr ∧ UniqueLabels g.2.lookup ∧
    (∀ q x : Nat, x ≠ 0 → u.lookup[q]? = some x → g.2.lookup[q]? = some x) ∧
    (∀ x, x ≠ k → x ≠ 0 → keyBytes g.2 x = keyBytes u x) ∧
    k ∈ g.2.lookup := by
  obtain ⟨f1, f2, f3, f4⟩ := newKey_frame u k r.1 r.2 hr
  have huv := newKey_unique u k r hu hr
  have hmem : ∀ x, x ≠ 0 → x ∈ u.lookup → x ∈ r.2.lookup := by
    intro x hx hxm
    exact List.getElem?_mem (f2 _ x hx (getElem?_indexOf_of_mem _ _ hxm))
  obtain ⟨l, m, f⟩ := keyGen_other ext cfg r.2 a k r.1 g (hb.trans f1.symm) hk
    (hmem _ hk0 hiuk) (fun e => hmem _ hm0 (hmk e))
    (fun j hj => (newKey_label u k j r.2 (by rw [← hj]; exact hr)).1) hg
  refine ⟨by rw [m, f1], by rw [l]; exact huv, ?_, ?_, by rw [l]; exact f4⟩
  · intro q x hx hq
    rw [l]
    exact f2 q x hx hq
  · intro x hxk hx0
    rw [f x hxk, f3 x hxk hx0]

/-- The bytes of every key are the same before and after
`ensureKeysAllocated`: a region allocated by it is all zero. -/
theorem keyBytes_ensure (cfg : Config) (u : SqrlUser) (x : Nat) :
    keyBytes (ensureKeysAllocated cfg u) x = keyBytes u x := by
  unfold ensureKeysAllocated
  cases hk : u.keys with
  | some k => rfl
  | none =>
    simp only [keyBytes, slotAt, hk, List.get?_eq_getElem?, List.getElem?_replicate]
    split_ifs <;> rfl

theorem ensure_lookup (cfg : Config) (u : SqrlUser) :
    (ensureKeysAllocated cfg u).lookup = u.lookup ∧ (ensureKeysAllocated cfg u).addr = u.addr := by
  unfold ensureKeysAllocated
  cases u.keys <;> exact ⟨rfl, rfl⟩

/-- Inversion of one round of `regenKeys`. -/
theorem regenKey_some (ext : Externals) (cfg : Config) (u : SqrlUser)
    (action : Option SqrlAction) (k : Nat) (v : SqrlUser)
    (h : regenKey ext cfg u action k = some v) :
    ∃ r g, newKey u k = some r ∧ _keyGen ext cfg r.2 action k r.1 = some g ∧ v = g.2 := by
  unfold regenKey at h
  simp only [Option.bind_eq_bind, Option.bind_eq_some] at h
  obtain ⟨r, hr, g, hg, h⟩ := h
  exact ⟨r, g, hr, hg, (Option.some.inj h).symm⟩

/-- The inequalities between key identifiers used below. -/
theorem distinctIds_facts (cfg : Config) (hd : DistinctIds cfg) :
    (cfg.KEY_IUK ≠ 0 ∧ cfg.KEY_MK ≠ 0) ∧
    (cfg.KEY_RESCUE_CODE ≠ cfg.KEY_IUK ∧ cfg.KEY_MK ≠ cfg.KEY_IUK ∧
      cfg.KEY_ILK ≠ cfg.KEY_IUK ∧ cfg.KEY_LOCAL ≠ cfg.KEY_IUK ∧
      cfg.KEY_MK ≠ cfg.KEY_LOCAL ∧ cfg.KEY_ILK ≠ cfg.KEY_LOCAL ∧
      cfg.KEY_RESCUE_CODE ≠ cfg.KEY_LOCAL) ∧
    ∀ x ∈ [cfg.KEY_IUK, cfg.KEY_PIUK0, cfg.KEY_PIUK1, cfg.KEY_PIUK2, cfg.KEY_PIUK3],
      x ≠ cfg.KEY_RESCUE_CODE ∧ x ≠ cfg.KEY_MK ∧ x ≠ cfg.KEY_ILK ∧ x ≠ cfg.KEY_LOCAL ∧
        x ≠ 0 := by
  simp only [DistinctIds, List.nodup_cons, List.mem_cons, List.mem_singleton, not_or,
    List.not_mem_nil, List.nodup_nil, not_false_eq_true, and_true] at hd
  obtain ⟨⟨⟨-, -, -, -, kr, km, ki, kl⟩, ⟨-, -, -, p0r, p0m, p0i, p0l⟩,
    ⟨-, -, p1r, p1m, p1i, p1l⟩, ⟨-, p2r, p2m, p2i, p2l⟩, ⟨p3r, p3m, p3i, p3l⟩,
    ⟨-, -, rl⟩, ⟨-, ml⟩, il⟩, zk, z0, z1, z2, z3, -, zm, -, -⟩ := hd
  refine ⟨⟨Ne.symm zk, Ne.symm zm⟩,
    ⟨Ne.symm kr, Ne.symm km, Ne.symm ki, Ne.symm kl, ml, il, rl⟩, ?_⟩
  intro x hx
  simp only [List.mem_cons, List.mem_singleton, List.not_mem_nil, or_false] at hx
  rcases hx with rfl | rfl | rfl | rfl | rfl
  · exact ⟨kr, km, ki, kl, Ne.symm zk⟩
  · exact ⟨p0r, p0m, p0i, p0l, Ne.symm z0⟩
  · exact ⟨p1r, p1m, p1i, p1l, Ne.symm z1⟩
  · exact ⟨p2r, p2m, p2i, p2l, Ne.symm z2⟩
  · exact ⟨p3r, p3m, p3i, p3l, Ne.symm z3⟩

/-- When the identity unlock key is present, `regenKeys` runs no load flow,
keeps the labels and changes the bytes of no key other than `MK`, `ILK` and
`LOCAL`. -/
theorem regenKeys_frame (ext : Externals) (cfg : Config) (u : SqrlUser) (a : SqrlAction)
    (g : Bool × SqrlUser) (hb : a.user = u.addr) (hu : UniqueLabels u.lookup)
    (hd : DistinctIds cfg) (hiuk : cfg.KEY_IUK ∈ u.lookup)
    (h : regenKeys ext cfg u (some a) = some g) :
    UniqueLabels g.2.lookup ∧
    (∀ x, x ≠ 0 → x ∈ u.lookup → x ∈ g.2.lookup) ∧
    ∀ x, x ≠ cfg.KEY_MK → x ≠ cfg.KEY_ILK → x ≠ cfg.KEY_LOCAL → x ≠ 0 →
      keyBytes g.2 x = keyBytes u x := by
  obtain ⟨⟨hk0, hm0⟩, ⟨-, h1, h2, h3, h4, h5, -⟩, -⟩ := distinctIds_facts cfg hd
  unfold regenKeys at h
  simp only [hb, ne_eq, not_true_eq_false, if_false, Option.bind_eq_bind,
    Option.bind_eq_some] at h
  obtain ⟨u1, e1, u2, e2, u3, e3, h⟩ := h
  obtain ⟨r1, g1, n1, k1, v1⟩ := regenKey_some _ _ _ _ _ _ e1
  obtain ⟨r2, g2, n2, k2, v2⟩ := regenKey_some _ _ _ _ _ _ e2
  obtain ⟨r3, g3, n3, k3, v3⟩ := regenKey_some _ _ _ _ _ _ e3
  subst v1 v2 v3
  have mem_of : ∀ (w w' : SqrlUser) (x : Nat), x ≠ 0 →
      (∀ q x : Nat, x ≠ 0 → w.lookup[q]? = some x → w'.lookup[q]? = some x) →
      x ∈ w.lookup → x ∈ w'.lookup := by
    intro w w' x hx st hm
    exact List.getElem?_mem (st _ x hx (getElem?_indexOf_of_mem _ _ hm))
  obtain ⟨a1, q1, s1, f1, m1⟩ := regenKey_frame ext cfg u a _ r1 g1 hb hu h1 hk0 hm0 hiuk
    (fun e => absurd e h4) n1 k1
  obtain ⟨a2, q2, s2, f2, m2⟩ := regenKey_frame ext cfg g1.2 a _ r2 g2 (hb.trans a1.symm) q1 h2
    hk0 hm0 (mem_of _ _ _ hk0 s1 hiuk) (fun e => absurd e h5) n2 k2
  obtain ⟨a3, q3, s3, f3, m3⟩ := regenKey_frame ext cfg g2.2 a _ r3 g3
    ((hb.trans a1.symm).trans a2.symm) q2 h3 hk0 hm0
    (mem_of _ _ _ hk0 s2 (mem_of _ _ _ hk0 s1 hiuk)) (fun _ => mem_of _ _ _ hm0 s2 m1) n3 k3
  rw [← Option.some.inj h]
  refine ⟨q3, ?_, ?_⟩
  · intro x x0 hx
    exact mem_of _ _ _ x0 s3 (mem_of _ _ _ x0 s2 (mem_of _ _ _ x0 s1 hx))
  · intro x x1 x2 x3 x0
    show keyBytes g3.2 x = keyBytes u x
    rw [f3 x x3 x0, f2 x x2 x0, f1 x x1 x0]

/-- C15 (IUK rotation), as amended.  For every configuration whose nine key
identifiers are pairwise distinct and non-zero, every user whose labels are
unique, every action bound to that user and every output of the entropy source:
after a `rekey` that returns `true`, the identifiers `IUK`, `PIUK0`, ..,
`PIUK3` each label a slot (and the labels are unique), the `PIUK0` slot holds
the pre-rekey `IUK` bytes, the `PIUK(k+1)` slot holds the pre-rekey `PIUKk`
bytes for `k` in 0, 1, 2 (a key absent before the call counting as 32 zero
bytes), and the `IUK` slot holds the fresh bytes of the entropy source.  The
`PIUK3` slot thus holds the pre-rekey `PIUK2` bytes: the pre-rekey `PIUK3`
bytes are overwritten, and are still what the slot holds exactly when the two
were equal. -/
theorem rekey_rotates (ext : Externals) (cfg : Config) (u : SqrlUser) (a : SqrlAction)
    (u' : SqrlUser) (hd : DistinctIds cfg) (hu : UniqueLabels u.lookup) (hb : a.user = u.addr)
    (h : rekey ext cfg u (some a) = some (true, u')) :
    (∀ x ∈ [cfg.KEY_IUK, cfg.KEY_PIUK0, cfg.KEY_PIUK1, cfg.KEY_PIUK2, cfg.KEY_PIUK3],
      x ∈ u'.lookup) ∧
    UniqueLabels u'.lookup ∧
    keyBytes u' cfg.KEY_PIUK0 = keyBytes u cfg.KEY_IUK ∧
    keyBytes u' cfg.KEY_PIUK1 = keyBytes u cfg.KEY_PIUK0 ∧
    keyBytes u' cfg.KEY_PIUK2 = keyBytes u cfg.KEY_PIUK1 ∧
    keyBytes u' cfg.KEY_PIUK3 = keyBytes u cfg.KEY_PIUK2 ∧
    keyBytes u' cfg.KEY_IUK = ext.entropyBytes := by
  obtain ⟨⟨hk0, hm0⟩, ⟨hr, -, -, -, -, -, hrl⟩, hfive⟩ := distinctIds_facts cfg hd
  obtain ⟨el, ea⟩ := ensure_lookup cfg u
  unfold rekey at h
  simp only [hb, ne_eq, not_true_eq_false, if_false, Option.bind_eq_bind,
    Option.bind_eq_some] at h
  obtain ⟨r1, hr1, g1, hg1, h⟩ := h
  have hr1' : obtainKey ext cfg (ensureKeysAllocated cfg u) (some a) cfg.KEY_IUK = some r1 := hr1
  obtain ⟨a1, q1, s1, f1, p1⟩ := obtainKey_step ext cfg _ a _ r1.1 r1.2 (hb.trans ea.symm)
    (by rw [el]; exact hu) hk0 hr1'
  obtain ⟨⟨jk, ek⟩, a2, q2, s2, xk, x0, x1, x2, x3, m2⟩ := keyGen_iuk ext cfg r1.2 a r1.1 g1
    ((hb.trans ea.symm).trans a1.symm) q1 hd (fun j hj => (p1 j hj).1) hg1
  have hb2 : a.user = g1.2.addr := by rw [a2, a1, ea]; exact hb
  -- the bytes before the rotation are those of the user before the call
  have o : ∀ x ∈ [cfg.KEY_IUK, cfg.KEY_PIUK0, cfg.KEY_PIUK1, cfg.KEY_PIUK2, cfg.KEY_PIUK3],
      keyBytes r1.2 x = keyBytes u x := by
    intro x hx
    by_cases e : x = cfg.KEY_IUK
    · rw [e, (p1 jk ek).2, keyBytes_ensure]
    · rw [f1 x e (hfive x hx).2.2.2.2, keyBytes_ensure]
  split_ifs at h with c1
  · exact absurd (Prod.mk.inj (Option.some.inj h)).1 (by decide)
  simp only [Option.bind_eq_bind, Option.bind_eq_some] at h
  obtain ⟨r2, hr2, g2, hg2, h⟩ := h
  obtain ⟨a3, q3, s3, f3, m3⟩ := regenKey_frame ext cfg g1.2 a _ r2 g2 hb2 q2 hr hk0 hm0
    (m2 _ (by simp)) (fun e => absurd e hrl) hr2 hg2
  have mem3 : ∀ x, x ≠ 0 → x ∈ g1.2.lookup → x ∈ g2.2.lookup := by
    intro x hx hm
    exact List.getElem?_mem (s3 _ x hx (getElem?_indexOf_of_mem _ _ hm))
  split_ifs at h with c2
  · exact absurd (Prod.mk.inj (Option.some.inj h)).1 (by decide)
  simp only [Option.bind_eq_bind, Option.bind_eq_some] at h
  obtain ⟨g3, hg3, h⟩ := h
  obtain ⟨q4, m4, f4⟩ := regenKeys_frame ext cfg g2.2 a g3 (hb2.trans a3.symm) q3 hd
    (mem3 _ hk0 (m2 _ (by simp))) hg3
  split_ifs at h with c3
  · exact absurd (Prod.mk.inj (Option.some.inj h)).1 (by decide)
  have hu' : u' = { g3.2 with
      flags := g3.2.flags ||| (cfg.USER_FLAG_T1_CHANGED ||| cfg.USER_FLAG_T2_CHANGED) } :=
    ((Prod.mk.inj (Option.some.inj h)).2).symm
  have fin : ∀ x ∈ [cfg.KEY_IUK, cfg.KEY_PIUK0, cfg.KEY_PIUK1, cfg.KEY_PIUK2, cfg.KEY_PIUK3],
      keyBytes u' x = keyBytes g1.2 x ∧ x ∈ u'.lookup := by
    intro x hx
    obtain ⟨y1, y2, y3, y4, y5⟩ := hfive x hx
    constructor
    · rw [hu']
      show keyBytes g3.2 x = keyBytes g1.2 x
      rw [f4 x y2 y3 y4 y5, f3 x y1 y5]
    · rw [hu']
      exact m4 x y5 (mem3 x y5 (m2 x hx))
  refine ⟨fun x hx => (fin x hx).2, by rw [hu']; exact q4, ?_, ?_, ?_, ?_, ?_⟩
  · rw [(fin _ (by simp)).1, x0, o _ (by simp)]
  · rw [(fin _ (by simp)).1, x1, o _ (by simp)]
  · rw [(fin _ (by simp)).1, x2, o _ (by simp)]
  · rw [(fin _ (by simp)).1, x3, o _ (by simp)]
  · rw [(fin _ (by simp)).1, xk]

/-- Witness for the amended C15: a user holding `IUK` and `PIUK0..PIUK3` with
the byte patterns `11`, `22`, `33`, `44`, `55`.  `rekey` returns `true`; the
patterns move down by one and `IUK` receives the `EE` bytes of the entropy
source. -/
theorem rekey_rotates_witness :
    DistinctIds demoConfig ∧ UniqueLabels rotatingUser.lookup ∧
    rekey quietExternals demoConfig rotatingUser (some demoAction) =
      some (true, ((rekey quietExternals demoConfig rotatingUser (some demoAction)).getD
        (false, rotatingUser)).2) ∧
    keyBytes rotatingUser demoConfig.KEY_IUK = List.replicate 32 0x11 ∧
    keyBytes ((rekey quietExternals demoConfig rotatingUser (some demoAction)).getD
        (false, rotatingUser)).2 demoConfig.KEY_PIUK0 = keyBytes rotatingUser demoConfig.KEY_IUK ∧
    keyBytes ((rekey quietExternals demoConfig rotatingUser (some demoAction)).getD
        (false, rotatingUser)).2 demoConfig.KEY_PIUK3 =
      keyBytes rotatingUser demoConfig.KEY_PIUK2 ∧
    keyBytes ((rekey quietExternals demoConfig rotatingUser (some demoAction)).getD
        (false, rotatingUser)).2 demoConfig.KEY_IUK = List.replicate 32 0xEE :=
  ⟨by decide, by decide, by decide, by decide,
    (rekey_rotates quietExternals demoConfig rotatingUser demoAction _ (by decide) (by decide)
      rfl (show rekey quietExternals demoConfig rotatingUser (some demoAction) =
        some (true, ((rekey quietExternals demoConfig rotatingUser (some demoAction)).getD
          (false, rotatingUser)).2) by decide)).2.2.1,
    (rekey_rotates quietExternals demoConfig rotatingUser demoAction _ (by decide) (by decide)
      rfl (show rekey quietExternals demoConfig rotatingUser (some demoAction) =
        some (true, ((rekey quietExternals demoConfig rotatingUser (some demoAction)).getD
          (false, rotatingUser)).2) by decide)).2.2.2.2.2.1,
    (rekey_rotates quietExternals demoConfig rotatingUser demoAction _ (by decide) (by decide)
      rfl (show rekey quietExternals demoConfig rotatingUser (some demoAction) =
        some (true, ((rekey quietExternals demoConfig rotatingUser (some demoAction)).getD
          (false, rotatingUser)).2) by decide)).2.2.2.2.2.2⟩

/-- C15, counterexample.  On the fresh user, which holds no key, `rekey`
returns `true`; the pre-rekey `PIUK3` value is 32 zero bytes (the key is
absent), and after the call the slot labelled `PIUK3` holds 32 zero bytes: the
pre-rekey `PIUK3` value is still stored in the `PIUK3` slot. -/
theorem rekey_piuk3_still_stored :
    ∃ u', rekey quietExternals demoConfig freshUser (some demoAction) = some (true, u') ∧
      demoConfig.KEY_PIUK3 ∈ u'.lookup ∧
      keyBytes freshUser demoConfig.KEY_PIUK3 = zeroKey ∧
      slotAt u' (some (u'.lookup.indexOf demoConfig.KEY_PIUK3)) =
        some (keyBytes freshUser demoConfig.KEY_PIUK3) ∧
      keyBytes u' demoConfig.KEY_PIUK3 = keyBytes freshUser demoConfig.KEY_PIUK3 :=
  ⟨((rekey quietExternals demoConfig freshUser (some demoAction)).getD (false, freshUser)).2,
    by decide, by decide, by decide, by decide, by decide⟩

end SqrlUser

namespace SqrlUser

/-! ### The slot selected by newKey -/

/-- C23 (newKey slot selection), as amended.  For every user with an allocated
key region and every identifier `id` such that the table holds `id` or a free
slot, `newKey(id)` returns and selects a slot `j`.  If some slot is labelled
`id`, `j` is the last slot labelled `id` (the only one when the labels are
unique) and the lookup array is unchanged.  If no slot is labelled `id`, `j` is
the last (highest-index) free slot, which is labelled `id` while every other
label is unchanged.  In both cases the bytes of all other slots are unchanged,
and when `j` is not slot 0 the pointer returned is slot `j`, whose 32 bytes are
zero. -/
theorem newKey_selects_last (u : SqrlUser) (id : Nat) (ha : KeysAllocated u)
    (h : id ∈ u.lookup ∨ 0 ∈ u.lookup) :
    ∃ j p v, newKey u id = some (p, v) ∧ j < u.lookup.length ∧
      ((u.lookup[j]? = some id ∧ (∀ j', j < j' → u.lookup[j']? ≠ some id) ∧
          (UniqueLabels u.lookup → id ≠ 0 → ∀ j', u.lookup[j']? = some id → j' = j) ∧
          v.lookup = u.lookup) ∨
        (id ∉ u.lookup ∧ u.lookup[j]? = some 0 ∧ (∀ j', j < j' → u.lookup[j']? ≠ some 0) ∧
          v.lookup = u.lookup.set j id)) ∧
      (∀ i, i ≠ j → slotAt v (some i) = slotAt u (some i)) ∧
      (j ≠ 0 → p = some j ∧ slotAt v (some j) = some zeroKey) := by
  obtain ⟨k, hk, hlen⟩ := (keysAllocated_iff u).1 ha
  rcases newKey_spec u id with ⟨h1, h2, -⟩ | ⟨j, lookup', hj, hsel, he⟩
  · rcases h with h | h
    · exact absurd h h1
    · exact absurd h h2
  · rw [hk] at he
    have hsel' : (u.lookup[j]? = some id ∧ (∀ j', j < j' → u.lookup[j']? ≠ some id) ∧
          (UniqueLabels u.lookup → id ≠ 0 → ∀ j', u.lookup[j']? = some id → j' = j) ∧
          lookup' = u.lookup) ∨
        (id ∉ u.lookup ∧ u.lookup[j]? = some 0 ∧ (∀ j', j < j' → u.lookup[j']? ≠ some 0) ∧
          lookup' = u.lookup.set j id) := by
      rcases hsel with ⟨a, b, c⟩ | ⟨a, b, c, d⟩
      · refine Or.inl ⟨a, b, ?_, c⟩
        intro hu hid j' hj'
        rw [← indexOf_eq_of_unique _ _ _ hu hid hj', indexOf_eq_of_unique _ _ _ hu hid a]
      · exact Or.inr ⟨a, b, c, d⟩
    by_cases hj0 : j = 0
    · rw [if_pos hj0] at he
      exact ⟨j, _, _, he, hj, hsel', fun i _ => by simp only [slotAt, hk],
        fun e => absurd hj0 e⟩
    · rw [if_neg hj0] at he
      simp only at he
      rw [if_pos (by omega)] at he
      refine ⟨j, _, _, he, hj, hsel', ?_, fun _ => ⟨rfl, ?_⟩⟩
      · intro i hi
        simp only [slotAt, hk, List.get?_eq_getElem?]
        rw [List.getElem?_set_ne (fun e => hi e.symm)]
      · simp only [slotAt, List.get?_eq_getElem?]
        rw [List.getElem?_set_self (by omega)]

/-- Witness for the amended C23: on the user with slots 3 and 9 free,
`newKey(7)` labels slot 9. -/
theorem newKey_selects_last_witness :
    KeysAllocated twoFreeUser ∧
    ∃ j p v, newKey twoFreeUser 7 = some (p, v) ∧ j < twoFreeUser.lookup.length ∧
      ((twoFreeUser.lookup[j]? = some 7 ∧ (∀ j', j < j' → twoFreeUser.lookup[j']? ≠ some 7) ∧
          (UniqueLabels twoFreeUser.lookup → 7 ≠ 0 →
            ∀ j', twoFreeUser.lookup[j']? = some 7 → j' = j) ∧
          v.lookup = twoFreeUser.lookup) ∨
        (7 ∉ twoFreeUser.lookup ∧ twoFreeUser.lookup[j]? = some 0 ∧
          (∀ j', j < j' → twoFreeUser.lookup[j']? ≠ some 0) ∧
          v.lookup = twoFreeUser.lookup.set j 7)) ∧
      (∀ i, i ≠ j → slotAt v (some i) = slotAt twoFreeUser (some i)) ∧
      (j ≠ 0 → p = some j ∧ slotAt v (some j) = some zeroKey) :=
  ⟨by decide, newKey_selects_last twoFreeUser 7 (by decide) (Or.inr (by decide))⟩

/-- C23, counterexample.  On the user whose slots 3 and 9 are free (and no
slot is labelled 7), `newKey(7)` labels slot 9 and returns it; slot 3, the
lowest-index free slot, keeps the label 0.  On the fresh user, where every slot
is free, `newKey(7)` labels slot 15. -/
theorem newKey_labels_last_free :
    twoFreeUser.lookup[3]? = some 0 ∧ twoFreeUser.lookup[9]? = some 0 ∧
    (∀ i, i < 3 → twoFreeUser.lookup[i]? ≠ some 0) ∧ 7 ∉ twoFreeUser.lookup ∧
    (newKey twoFreeUser 7).map (fun r => (r.1, r.2.lookup)) =
      some (some 9, twoFreeUser.lookup.set 9 7) ∧
    (newKey twoFreeUser 7).map (fun r => r.2.lookup[3]?) = some (some 0) ∧
    (newKey freshUser 7).map (fun r => (r.1, r.2.lookup)) =
      some (some 15, freshUser.lookup.set 15 7) := by
  refine ⟨by decide, by decide, ?_, by decide, by decide, by decide, by decide⟩
  intro i hi
  interval_cases i <;> decide

/-! ### Generation of the rescue code -/

theorem range_eight : List.range 8 = [0, 1, 2, 3, 4, 5, 6, 7] := by decide

/-- The 25 bytes written by `bin2rc`, one by one. -/
theorem bin2rc_eq (bin : List Nat) :
    bin2rc bin =
      (List.range 8).map (fun k => 48 + word64 bin k % 10) ++
      (List.range 8).map (fun k => 48 + word64 bin k / 10 % 10) ++
      (List.range 8).map (fun k => 48 + word64 bin k / 10 / 10 % 10) ++ [0] := by
  simp only [bin2rc, bin2rcRound, List.map_map]
  rfl

/-- The word `tmp[k]` is the little-endian value of the bytes `8k .. 8k+7`. -/
theorem word64_eq (bin : List Nat) (k : Nat) :
    word64 bin k =
      ((List.range 8).map fun j => bin.getD (8 * k + j) 0 % 256 * 256 ^ j).sum := by
  simp only [word64, range_eight, List.foldr, List.map, List.sum_cons, List.sum_nil]
  ring

theorem bin2rc_at (bin : List Nat) (i k : Nat) (hi : i < 3) (hk : k < 8) :
    (bin2rc bin)[8 * i + k]? = some (48 + word64 bin k / 10 ^ i % 10) := by
  rw [bin2rc_eq, range_eight]
  interval_cases i <;> interval_cases k <;> simp [Nat.div_div_eq_div_mul]

theorem bin2rc_shape (bin : List Nat) :
    (bin2rc bin).length = 25 ∧ (bin2rc bin)[24]? = some 0 ∧
    (∀ c ∈ (bin2rc bin).take 24, 48 ≤ c ∧ c ≤ 57) ∧ IsRescueCodeShape (bin2rc bin) := by
  have hd : ∀ c ∈ (bin2rc bin).take 24, 48 ≤ c ∧ c ≤ 57 := by
    rw [bin2rc_eq, range_eight]
    intro c hc
    simp only [List.map, List.cons_append, List.nil_append, List.take_succ_cons,
      List.take_zero, List.mem_cons, List.not_mem_nil, or_false] at hc
    rcases hc with h | h | h | h | h | h | h | h | h | h | h | h | h | h | h | h | h | h | h |
      h | h | h | h | h <;> (rw [h]; omega)
  have hl : (bin2rc bin).length = 25 := by
    rw [bin2rc_eq]; simp
  have h24 : (bin2rc bin)[24]? = some 0 := by
    rw [bin2rc_eq, range_eight]; rfl
  have hdrop : (bin2rc bin).drop 24 = [0] := by
    rw [bin2rc_eq, range_eight]; rfl
  have hsplit : bin2rc bin = (bin2rc bin).take 24 ++ [0] := by
    conv_lhs => rw [← List.take_append_drop 24 (bin2rc bin), hdrop]
  have hnz : ∀ c ∈ (bin2rc bin).take 24, (decide (c ≠ 0)) = true := by
    intro c hc
    have := hd c hc
    simp only [ne_eq, decide_eq_true_eq]
    omega
  refine ⟨hl, h24, hd, ?_, hd⟩
  unfold SqrlUrlEncode.strlen
  rw [hsplit, List.takeWhile_append_of_pos hnz]
  simp [List.takeWhile, hl]

/-- Copying a 24-character string and its NUL into a zeroed slot gives the 24
characters followed by 8 zero bytes. -/
theorem memcpy_zeroKey_nul (l : List Nat) (hl : l.length = 25) (h24 : l[24]? = some 0) :
    memcpy zeroKey 0 l 0 25 = l.take 24 ++ List.replicate 8 0 := by
  apply List.ext_getElem?
  intro i
  by_cases hi : i < 32
  · have e1 : (memcpy zeroKey 0 l 0 25)[i]? = some ((memcpy zeroKey 0 l 0 25).getD i 0) := by
      rw [List.getD_eq_getElem?_getD,
        List.getElem?_eq_getElem (by simpa [memcpy, zeroKey, SQRL_KEY_SIZE] using hi)]
      rfl
    rw [e1, getD_memcpy _ _ _ _ _ _ (by simpa [zeroKey, SQRL_KEY_SIZE] using hi)]
    by_cases h24' : i < 24
    · rw [if_pos ⟨Nat.zero_le _, by omega⟩]
      rw [List.getElem?_append_left (by simp; omega), List.getElem?_take_of_lt h24']
      simp only [Nat.zero_add, Nat.sub_zero, List.getD_eq_getElem?_getD]
      rw [List.getElem?_eq_getElem (by omega)]
      rfl
    · have hlen : (List.take 24 l).length = 24 := by simp [hl]
      have hr : (List.take 24 l ++ List.replicate 8 0)[i]? = some 0 := by
        rw [List.getElem?_append_right (by omega), hlen, List.getElem?_replicate,
          if_pos (by omega)]
      rw [hr]
      by_cases h25 : i < 25
      · have hi24 : i = 24 := by omega
        subst hi24
        rw [if_pos ⟨Nat.zero_le _, by omega⟩]
        simp only [Nat.zero_add, Nat.sub_zero, List.getD_eq_getElem?_getD, h24,
          Option.getD_some]
      · rw [if_neg (by omega)]
        simp only [List.getD_eq_getElem?_getD, zeroKey, SQRL_KEY_SIZE,
          List.getElem?_replicate, hi, if_true, Option.getD_some]
  · rw [List.getElem?_eq_none (by simp [memcpy, zeroKey, SQRL_KEY_SIZE]; omega),
      List.getElem?_eq_none (by simp; omega)]

/-- The rescue code differs from the key types tested before it in
`_keyGen`. -/
theorem distinctIds_rescue (cfg : Config) (hd : DistinctIds cfg) :
    cfg.KEY_RESCUE_CODE ≠ cfg.KEY_IUK ∧ cfg.KEY_RESCUE_CODE ≠ cfg.KEY_MK ∧
    cfg.KEY_RESCUE_CODE ≠ cfg.KEY_ILK ∧ cfg.KEY_RESCUE_CODE ≠ cfg.KEY_LOCAL := by
  simp only [DistinctIds, List.nodup_cons, List.mem_cons, List.mem_singleton, not_or,
    List.not_mem_nil, List.nodup_nil, not_false_eq_true, and_true] at hd
  obtain ⟨⟨⟨-, -, -, -, kr, -⟩, -, -, -, -, ⟨rm, ri, rl⟩, -⟩, -⟩ := hd
  exact ⟨Ne.symm kr, rm, ri, rl⟩

/-- The `KEY_RESCUE_CODE` case of `_keyGen` on a valid slot pointer. -/
theorem keyGen_rescue (ext : Externals) (cfg : Config) (u : SqrlUser) (a : SqrlAction)
    (j : Nat) (k : Sqrl_Keys) (hd : DistinctIds cfg) (hb : a.user = u.addr)
    (hm : ext.malloc512 = true) (hk : u.keys = some k) (hj : j < k.keys.length) :
    _keyGen ext cfg u (some a) cfg.KEY_RESCUE_CODE (some j) =
      some (true, { u with keys := some { k with
        keys := k.keys.set j ((bin2rc ext.entropyGet).take 24 ++ List.replicate 8 0) } }) := by
  obtain ⟨h1, h2, h3, h4⟩ := distinctIds_rescue cfg hd
  obtain ⟨hl, h24, -, -⟩ := bin2rc_shape ext.entropyGet
  unfold _keyGen
  simp only [hb, ne_eq, not_true_eq_false, if_false, h1, h2, h3, h4, if_true, hm]
  simp [setSlot, hk, hj, memcpy_zeroKey_nul _ hl h24]

/-- C24 (rescue code generation yields 24 decimal digits).  For every entropy
buffer `bin`, read as the eight little-endian 64-bit words `word64 bin k`:
`bin2rc` writes 25 bytes; byte `8*i + k` (`i < 3`, `k < 8`) is the character
`'0' + (word[k] div 10^i) mod 10`; byte 24 is NUL; the 24 characters lie in
`'0'..'9'`.  Hence, for every user with an allocated slot `j`, every bound
action and every output of the entropy source, when `malloc( 512 )` succeeds
`_keyGen( action, KEY_RESCUE_CODE, slot j )` returns `true` and leaves in the
slot the 24 digits followed by 8 zero bytes: a C string of exactly 24 decimal
digits. -/
theorem rescue_code_digits (ext : Externals) (cfg : Config) (u : SqrlUser) (a : SqrlAction)
    (j : Nat) (k : Sqrl_Keys) (bin : List Nat) (hd : DistinctIds cfg) (hb : a.user = u.addr)
    (hm : ext.malloc512 = true) (hk : u.keys = some k) (hj : j < k.keys.length) :
    (bin2rc bin).length = 25 ∧
    (∀ i w, i < 3 → w < 8 → (bin2rc bin)[8 * i + w]? = some (48 + word64 bin w / 10 ^ i % 10)) ∧
    (∀ w, word64 bin w =
      ((List.range 8).map fun b => bin.getD (8 * w + b) 0 % 256 * 256 ^ b).sum) ∧
    (bin2rc bin)[24]? = some 0 ∧
    (∀ c ∈ (bin2rc bin).take 24, 48 ≤ c ∧ c ≤ 57) ∧
    ∃ u' s, _keyGen ext cfg u (some a) cfg.KEY_RESCUE_CODE (some j) = some (true, u') ∧
      slotAt u' (some j) = some s ∧
      s = (bin2rc ext.entropyGet).take 24 ++ List.replicate 8 0 ∧
      s.length = 32 ∧ IsRescueCodeShape s := by
  obtain ⟨hl, h24, hdig, -⟩ := bin2rc_shape bin
  refine ⟨hl, fun i w hi hw => bin2rc_at bin i w hi hw, fun w => word64_eq bin w, h24, hdig,
    _, _, keyGen_rescue ext cfg u a j k hd hb hm hk hj, by simp [slotAt, hj], rfl, ?_, ?_⟩
  · have := (bin2rc_shape ext.entropyGet).1
    simp [this]
  · obtain ⟨hl', -, hdig', hs'⟩ := bin2rc_shape ext.entropyGet
    obtain ⟨c1, c2⟩ := cstr_slot _ hs'
    constructor
    · show (cstr _).length = 24
      rw [c1, c2]
      simp [hl']
    · intro c hc
      rw [List.take_append_of_le_length (by simp [hl'])] at hc
      rw [List.take_take] at hc
      exact hdig' c (by simpa using hc)

/-- Witness for C24: the fresh user, slot 15 and an entropy buffer of 512 bytes
`07`; each word is `0x0707070707070707 = 506381209866536711`, so the three
rounds write eight times `'1'`, eight times `'1'` and eight times `'7'`. -/
theorem rescue_code_digits_witness :
    DistinctIds demoConfig ∧
    (bin2rc quietExternals.entropyGet).take 24 =
      List.replicate 8 49 ++ List.replicate 8 49 ++ List.replicate 8 55 ∧
    ∃ u' s, _keyGen quietExternals demoConfig freshUser (some demoAction)
        demoConfig.KEY_RESCUE_CODE (some 15) = some (true, u') ∧
      slotAt u' (some 15) = some s ∧
      s = (bin2rc quietExternals.entropyGet).take 24 ++ List.replicate 8 0 ∧
      s.length = 32 ∧ IsRescueCodeShape s :=
  ⟨by decide, by decide,
    (rescue_code_digits quietExternals demoConfig freshUser demoAction 15 _ [] (by decide) rfl
      rfl rfl (by decide)).2.2.2.2.2⟩

/-! ### The option flags -/

/-- C25 (clearFlags decides on the option flags), evaluation at the failing
inputs.  With option flag `0x0001` set and an empty transient flag word,
`clearFlags(0x0001)` changes nothing and `checkFlags(0x0001)` still returns
`0x0001` afterwards.  With no option flag set and bit `0x0001` set in the
transient flag word, `clearFlags(0x0001)` sets `USER_FLAG_T1_CHANGED` although
no bit of the mask was set in `options.flags`.  The sibling `setFlags(0x0001)`
decides on `options.flags`: on that user it sets the option flag and
`USER_FLAG_T1_CHANGED`. -/
theorem clearFlags_reads_transient_flags :
    checkFlags optionSetUser 1 = 1 ∧
    clearFlags demoConfig optionSetUser 1 = optionSetUser ∧
    checkFlags (clearFlags demoConfig optionSetUser 1) 1 = 1 ∧
    checkFlags transientSetUser 1 = 0 ∧
    clearFlags demoConfig transientSetUser 1 =
      { transientSetUser with flags := 1 ||| demoConfig.USER_FLAG_T1_CHANGED } ∧
    setFlags demoConfig transientSetUser 1 =
      { transientSetUser with
        options := ⟨1, 4, 5, 15⟩, flags := 1 ||| demoConfig.USER_FLAG_T1_CHANGED } := by
  decide

end SqrlUser

namespace SqrlUrlEncode

/-! ### Decoding of well-formed text -/

/-- The two passes of the inner loop of `decode` on hexadecimal digits. -/
theorem hexStep_hex (cs : Bool) (tmp h : Nat) (hh : isHexRef h = true) :
    hexStep cs 1 tmp h = 16 * hexValRef h ∧ hexStep cs 2 tmp h = tmp ||| hexValRef h ∧
      hexValRef h < 16 := by
  simp only [isHexRef, Bool.or_eq_true, Bool.and_eq_true, decide_eq_true_eq] at hh
  have h128 : ¬ (cs = true ∧ 128 ≤ h) := by omega
  have hv : charVal cs h = (h : Int) := by simp only [charVal, if_neg h128]
  simp only [hexStep, hv, hexValRef, toChar]
  by_cases r1 : 48 ≤ h ∧ h ≤ 57
  · have i1 : (48 : Int) ≤ h ∧ (h : Int) ≤ 57 := by omega
    simp only [r1, i1, and_self, if_true]
    have e : (((h : Int) - 48) % 256).toNat = h - 48 := by omega
    have l : (h : Int) - 48 < 16 := by omega
    simp only [l, if_true, e, Nat.shiftLeft_eq]
    refine ⟨by simp; omega, by simp, by omega⟩
  · have i1 : ¬ ((48 : Int) ≤ h ∧ (h : Int) ≤ 57) := by omega
    by_cases r2 : 97 ≤ h ∧ h ≤ 102
    · have i2 : (97 : Int) ≤ h ∧ (h : Int) ≤ 102 := by omega
      simp only [r1, i1, r2, i2, and_self, if_true, if_false]
      have e : (((h : Int) - 87) % 256).toNat = h - 87 := by omega
      have l : (h : Int) - 87 < 16 := by omega
      simp only [l, if_true, e, Nat.shiftLeft_eq]
      refine ⟨by simp; omega, by simp, by omega⟩
    · have i2 : ¬ ((97 : Int) ≤ h ∧ (h : Int) ≤ 102) := by omega
      have r3 : 65 ≤ h ∧ h ≤ 70 := by omega
      have i3 : (65 : Int) ≤ h ∧ (h : Int) ≤ 70 := by omega
      simp only [r1, i1, r2, i2, i3, and_self, if_true, if_false]
      have e : (((h : Int) - 55) % 256).toNat = h - 55 := by omega
      have l : (h : Int) - 55 < 16 := by omega
      simp only [l, if_true, e, Nat.shiftLeft_eq]
      refine ⟨by simp; omega, by simp, by omega⟩

/-- The three branches of the loop of `decode`. -/
theorem decodeLoop_plus (cs : Bool) (tmp : Nat) (rest : List Nat) :
    decodeLoop cs tmp (43 :: rest) = 32 :: decodeLoop cs tmp rest := by
  match rest with
  | [] => simp [decodeLoop]
  | [_] => simp [decodeLoop]
  | _ :: _ :: _ => simp [decodeLoop]

theorem decodeLoop_plain (cs : Bool) (tmp c : Nat) (rest : List Nat) (h0 : c ≠ 0)
    (h1 : c ≠ 43) (h2 : c ≠ 37) :
    decodeLoop cs tmp (c :: rest) = c :: decodeLoop cs tmp rest := by
  match rest with
  | [] => simp [decodeLoop, h0, h1]
  | [_] => simp [decodeLoop, h0, h1]
  | _ :: _ :: _ => simp [decodeLoop, h0, h1, h2]

theorem strlen_cons (c : Nat) (p : List Nat) (h : c ≠ 0) : strlen (c :: p) = strlen p + 1 := by
  simp [strlen, List.takeWhile, h]

theorem decodeLoop_escape (cs : Bool) (tmp h1 h2 : Nat) (rest : List Nat)
    (hh1 : isHexRef h1 = true) (hh2 : isHexRef h2 = true) :
    decodeLoop cs tmp (37 :: h1 :: h2 :: rest) =
      (16 * hexValRef h1 + hexValRef h2) ::
        decodeLoop cs (16 * hexValRef h1 + hexValRef h2) rest := by
  have n1 : h1 ≠ 0 := by rintro rfl; simp [isHexRef] at hh1
  have n2 : h2 ≠ 0 := by rintro rfl; simp [isHexRef] at hh2
  have hs : strlen (37 :: h1 :: h2 :: rest) > 2 := by
    rw [strlen_cons _ _ (by decide), strlen_cons _ _ n1, strlen_cons _ _ n2]
    omega
  obtain ⟨a1, -, -⟩ := hexStep_hex cs tmp h1 hh1
  obtain ⟨-, b2, b3⟩ := hexStep_hex cs (16 * hexValRef h1) h2 hh2
  have e : hexStep cs 2 (hexStep cs 1 tmp h1) h2 = 16 * hexValRef h1 + hexValRef h2 := by
    rw [a1, b2]
    exact (Nat.mul_add_lt_is_or (show hexValRef h2 < 2 ^ 4 from b3) (hexValRef h1)).symm
  simp only [decodeLoop, hs, e]
  simp

theorem decodeRef_plain (c : Nat) (rest : List Nat) (h : c ≠ 37) :
    decodeRef (c :: rest) = (if c = 43 then 32 else c) :: decodeRef rest := by
  match rest with
  | [] => simp [decodeRef]
  | [_] => simp [decodeRef]
  | _ :: _ :: _ => simp [decodeRef, h]

theorem decodeRef_escape (h1 h2 : Nat) (rest : List Nat) :
    decodeRef (37 :: h1 :: h2 :: rest) =
      (16 * hexValRef h1 + hexValRef h2) :: decodeRef rest := by
  simp [decodeRef]

/-- The tail of a well-formed text is well formed. -/
theorem wellFormed_tail (c : Nat) (s : List Nat) (h : WellFormedText (c :: s)) :
    WellFormedText s := by
  refine ⟨fun x hx => h.1 x (List.mem_cons_of_mem c hx), ?_⟩
  intro i hi h37
  have := h.2 (i + 1) (by simp; omega) (by simpa using h37)
  simpa using this

/-- In a well-formed text an escape character is followed by two hexadecimal
digits. -/
theorem wellFormed_escape (s : List Nat) (h : WellFormedText (37 :: s)) :
    ∃ h1 h2 t, s = h1 :: h2 :: t ∧ isHexRef h1 = true ∧ isHexRef h2 = true := by
  have h0 := h.2 0 (by simp) (by simp)
  match s, h0 with
  | [], h0 => simp [isHexRef] at h0
  | [_], h0 => simp [isHexRef] at h0
  | h1 :: h2 :: t, h0 => exact ⟨h1, h2, t, rfl, by simpa using h0.1, by simpa using h0.2⟩

/-- On well-formed text the loop of `decode` computes the reference decoding,
whatever the value of `tmp` it starts with. -/
theorem decodeLoop_eq_ref (cs : Bool) (n : Nat) :
    ∀ (s : List Nat) (tmp : Nat), s.length ≤ n → WellFormedText s →
      decodeLoop cs tmp s = decodeRef s := by
  induction n with
  | zero =>
    intro s tmp hl _
    have : s = [] := List.length_eq_zero.1 (by omega)
    subst this
    rfl
  | succ n ih =>
    intro s tmp hl hw
    match s, hl, hw with
    | [], _, _ => rfl
    | c :: rest, hl, hw =>
      have hc0 : c ≠ 0 := hw.1 c (List.mem_cons_self c rest)
      have hwt := wellFormed_tail c rest hw
      have hlt : rest.length ≤ n := by simp at hl; omega
      by_cases h37 : c = 37
      · subst h37
        obtain ⟨h1, h2, t, rfl, hh1, hh2⟩ := wellFormed_escape rest hw
        rw [decodeLoop_escape cs tmp h1 h2 t hh1 hh2, decodeRef_escape]
        rw [ih t _ (by simp at hlt; omega)
          (wellFormed_tail _ _ (wellFormed_tail _ _ hwt))]
      · rw [decodeRef_plain c rest h37]
        by_cases h43 : c = 43
        · subst h43
          rw [decodeLoop_plus, ih rest tmp hlt hwt]
          rfl
        · rw [decodeLoop_plain cs tmp c rest hc0 h43 h37, ih rest tmp hlt hwt, if_neg h43]

/-- C21 (decode of well-formed text equals its reference definition).  For
every text without NUL byte in which every `%` is followed by two hexadecimal
digits, for both kinds of `char`, every destination and every `src_len`:
`decode` returns the destination's starting content followed by the reference
decoding of the text (`+` to `0x20`, `%h1h2` to `16 * val(h1) + val(h2)` with
`val` accepting `0-9`, `a-f` and `A-F`, any other character to itself). -/
theorem decode_eq_ref (cs : Bool) (dest : Option (List Nat)) (src : List Nat) (src_len : Nat)
    (append : Bool) (h : WellFormedText src) :
    decode cs dest src src_len append = startDest dest append ++ decodeRef src := by
  unfold decode
  rw [decodeLoop_eq_ref cs src.length src 0 (Nat.le_refl _) h]

/-- Witness for C21: the texts `a+%2f%2F` and `%41+b` are well formed; the first
decodes to `a //`, with `%2f` and `%2F` giving the same byte. -/
theorem decode_eq_ref_witness :
    WellFormedText [97, 43, 37, 50, 102, 37, 50, 70] ∧
    decode true none [97, 43, 37, 50, 102, 37, 50, 70] 8 false =
      startDest none false ++ decodeRef [97, 43, 37, 50, 102, 37, 50, 70] ∧
    decodeRef [97, 43, 37, 50, 102, 37, 50, 70] = [97, 32, 47, 47] :=
  ⟨by decide, decode_eq_ref true none [97, 43, 37, 50, 102, 37, 50, 70] 8 false (by decide),
    by decide⟩

/-! ### The text round trip -/

theorem hexDigitRef_hex (n : Nat) (h : n < 16) :
    isHexRef (hexDigitRef n) = true ∧ isUpperHexRef (hexDigitRef n) = true ∧
      hexValRef (hexDigitRef n) = n := by
  interval_cases n <;> decide

/-- The reference encoding of a byte is a token. -/
theorem encodeByteRef_token (c : Nat) (h : c < 256) : IsEncodedToken (encodeByteRef c) := by
  unfold encodeByteRef
  by_cases ha : isAlnumRef c = true
  · rw [if_pos ha]
    exact Or.inl ⟨c, rfl, ha⟩
  · rw [if_neg ha]
    by_cases hs : c = 32
    · rw [if_pos hs]
      exact Or.inr (Or.inl rfl)
    · rw [if_neg hs]
      exact Or.inr (Or.inr ⟨_, _, rfl, (hexDigitRef_hex (c / 16) (by omega)).2.1,
        (hexDigitRef_hex (c % 16) (by omega)).2.1⟩)

/-- The loop of `decode` turns the reference encoding of a byte back into that
byte. -/
theorem decodeLoop_encodeByteRef (cs : Bool) (tmp c : Nat) (rest : List Nat) (h0 : 0 < c)
    (h : c < 256) :
    ∃ tmp', decodeLoop cs tmp (encodeByteRef c ++ rest) = c :: decodeLoop cs tmp' rest := by
  unfold encodeByteRef
  by_cases ha : isAlnumRef c = true
  · rw [if_pos ha]
    have hr := ha
    simp only [isAlnumRef, Bool.or_eq_true, Bool.and_eq_true, decide_eq_true_eq] at hr
    exact ⟨tmp, decodeLoop_plain cs tmp c rest (by omega) (by omega) (by omega)⟩
  · rw [if_neg ha]
    by_cases hs : c = 32
    · rw [if_pos hs, hs]
      exact ⟨tmp, decodeLoop_plus cs tmp rest⟩
    · rw [if_neg hs]
      obtain ⟨x1, -, x3⟩ := hexDigitRef_hex (c / 16) (by omega)
      obtain ⟨y1, -, y3⟩ := hexDigitRef_hex (c % 16) (by omega)
      refine ⟨c, ?_⟩
      show decodeLoop cs tmp (37 :: hexDigitRef (c / 16) :: hexDigitRef (c % 16) :: rest) = _
      rw [decodeLoop_escape cs tmp _ _ rest x1 y1, x3, y3]
      have hcc : 16 * (c / 16) + c % 16 = c := by omega
      rw [hcc]

/-- The loop of `decode` turns the reference encoding of NUL-free bytes back
into those bytes. -/
theorem decodeLoop_encodeRef (cs : Bool) (s : List Nat) (h : ∀ c ∈ s, 0 < c ∧ c < 256) :
    ∀ tmp, decodeLoop cs tmp (s.flatMap encodeByteRef) = s := by
  induction s with
  | nil => intro tmp; rfl
  | cons c p ih =>
    intro tmp
    have hc := h c (List.mem_cons_self c p)
    obtain ⟨tmp', e⟩ := decodeLoop_encodeByteRef cs tmp c (p.flatMap encodeByteRef) hc.1 hc.2
    rw [List.flatMap_cons, e, ih (fun x hx => h x (List.mem_cons_of_mem c hx)) tmp']

/-- C22 (text round trip).  For every string `s` whose bytes all lie in
`0x01..0x7F`, for both kinds of `char`: `encode(s)` returns the concatenation
of one token per byte of `s`, each token being an ASCII letter or digit, `+`,
or a triple `%HH` of uppercase hexadecimal digits; and `decode(encode(s))`
returns `s`. -/
theorem text_round_trip (cs : Bool) (s : List Nat) (h : ∀ c ∈ s, 1 ≤ c ∧ c ≤ 127) :
    ∃ e, encode cs none s s.length false = some e ∧
      e = s.flatMap encodeByteRef ∧ (∀ c ∈ s, IsEncodedToken (encodeByteRef c)) ∧
      decode cs none e e.length false = s ∧ decodeEncode cs s = some s := by
  have h1 : ∀ c ∈ s, 0 < c ∧ c < 256 ∧ (cs = true → c < 128) := by
    intro c hc
    have := h c hc
    exact ⟨by omega, by omega, fun _ => by omega⟩
  have he := encode_eq_ref cs s h1
  have hr : encodeRef s s.length = s.flatMap encodeByteRef := by
    simp [encodeRef]
  have hd : ∀ n, decode cs none (s.flatMap encodeByteRef) n false = s := by
    intro n
    simp only [decode, startDest, List.nil_append]
    exact decodeLoop_encodeRef cs s (fun c hc => ⟨(h1 c hc).1, (h1 c hc).2.1⟩) 0
  refine ⟨_, he, hr, fun c hc => encodeByteRef_token c (h1 c hc).2.1, ?_, ?_⟩
  · rw [hr]; exact hd _
  · simp only [decodeEncode, he, Option.map_some']
    rw [hr, hd]

/-- Witness for C22 (scenario S2): `a b%c` encodes to `a+b%25c`, which decodes
back to `a b%c`. -/
theorem text_round_trip_witness :
    (∀ c ∈ [97, 32, 98, 37, 99], 1 ≤ c ∧ c ≤ 127) ∧
    encode true none [97, 32, 98, 37, 99] 5 false = some [97, 43, 98, 37, 50, 53, 99] ∧
    decode true none [97, 43, 98, 37, 50, 53, 99] 7 false = [97, 32, 98, 37, 99] ∧
    ∃ e, encode true none [97, 32, 98, 37, 99] [97, 32, 98, 37, 99].length false = some e ∧
      e = [97, 32, 98, 37, 99].flatMap encodeByteRef ∧
      (∀ c ∈ [97, 32, 98, 37, 99], IsEncodedToken (encodeByteRef c)) ∧
      decode true none e e.length false = [97, 32, 98, 37, 99] ∧
      decodeEncode true [97, 32, 98, 37, 99] = some [97, 32, 98, 37, 99] :=
  ⟨by decide, by decide, by decide, text_round_trip true [97, 32, 98, 37, 99] (by decide)⟩

end SqrlUrlEncode
